import Mathlib

namespace Reporter

/-! The reporting cycle of go-metrics-cloudwatch.

A shallow embedding of `config/config.go` and `reporter/cloudwatch.go`.

* `int64` values are integers with explicit wrap-around (`wrap64`).
* `float64` is an abstract type `F` with the operations the reporter uses
  (`Float64Ops`): conversion from `int64`, division, constants and `%.3f`.
* The metrics registry, the metrics themselves and the CloudWatch client are
  external collaborators.  A metric is represented by what a snapshot of it
  reads; the registry is the list of its entries in the order `Each` visits
  them; the client is a function from the call number and the request to an
  optional error.
* A Go `range` over a map visits the entries in an unspecified order; the
  order of the field maps built by `metricsData` is supplied by `RangeOrder`.
* A run-time panic (integer division by zero) is the result `none`.
* The loop of `Cloudwatch` is a state machine driven by the ticks it receives
  (`Scheduler`, `Tick`); each tick brings the registry as the producers left it.
-/

/-! ## Machine integers -/

/-- Reduction of an integer to the `int64` range (two's complement wrap-around). -/
def wrap64 (x : Int) : Int := (x + 2 ^ 63) % 2 ^ 64 - 2 ^ 63

/-- The values of type `int64`. -/
def isInt64 (x : Int) : Prop := -2 ^ 63 ≤ x ∧ x < 2 ^ 63

instance (x : Int) : Decidable (isInt64 x) := by
  unfold isInt64; infer_instance

/-- Go `a - b` on `int64`. -/
def sub64 (a b : Int) : Int := wrap64 (a - b)

/-- Go `a / b` on `int64`: truncated division, a panic (`none`) when `b = 0`. -/
def div64 (a b : Int) : Option Int :=
  if b = 0 then none else some (wrap64 (Int.tdiv a b))

/-! ## float64 -/

/-- The `float64` operations used by the reporter, over an abstract carrier. -/
structure Float64Ops (F : Type) where
  /-- The conversion `float64(x)` of an `int64` (also of a `time.Duration`). -/
  ofInt64 : Int → F
  /-- The value of a decimal constant `float64(q)`. -/
  lit : ℚ → F
  /-- The quotient `x / y` of two `float64`. -/
  div : F → F → F
  /-- The text `fmt.Sprintf("%.3f", x)`. -/
  fmt3 : F → String

/-! ## package config -/

def Perc50 : ℚ := 50 / 100

def Perc75 : ℚ := 75 / 100

def Perc95 : ℚ := 95 / 100

def Perc99 : ℚ := 99 / 100

def Perc999 : ℚ := 999 / 1000

def Perc100 : ℚ := 1

/-- The interface `Filter`; its two methods are taken to be pure. -/
structure Filter (F : Type) where
  ShouldReport : String → F → Bool
  Percentiles : String → List F

def NoFilter.ShouldReport {F : Type} (_metric : String) (_value : F) : Bool := true

def NoFilter.Percentiles {F : Type} (fl : Float64Ops F) (_metric : String) : List F :=
  [fl.lit Perc50, fl.lit Perc75, fl.lit Perc95, fl.lit Perc99, fl.lit Perc999, fl.lit Perc100]

def NoFilter {F : Type} (fl : Float64Ops F) : Filter F :=
  { ShouldReport := NoFilter.ShouldReport, Percentiles := NoFilter.Percentiles fl }

def AllFilter.ShouldReport {F : Type} (_metric : String) (_value : F) : Bool := false

def AllFilter.Percentiles {F : Type} (_metric : String) : List F := []

def AllFilter {F : Type} : Filter F :=
  { ShouldReport := AllFilter.ShouldReport, Percentiles := AllFilter.Percentiles }

/-! ## The CloudWatch request types -/

/-- The constant `cloudwatch.StandardUnitCount`. -/
def StandardUnitCount : String := "Count"

structure Dimension where
  Name : String
  Value : String
deriving DecidableEq, Repr

/-- The type `cloudwatch.MetricDatum`, with the fields the reporter sets.  `Unit` and
`Value` are pointers in the source (`none` is `nil`).  `Dimensions` is built by a `range`
over a map, in an order that may differ from call to call: the model keeps the multiset. -/
structure MetricDatum (F : Type) where
  MetricName : String
  Timestamp : Nat
  Dimensions : Multiset Dimension
  Unit : Option String
  Value : Option F

/-- The type `cloudwatch.PutMetricDataInput`. -/
structure PutMetricDataInput (F : Type) where
  Namespace : String
  MetricData : List (MetricDatum F)

/-- The interface `PutMetricsClient`: the error (if any) returned by the call number `k`
(from 0) of a cycle on a given request. -/
structure PutMetricsClient (F : Type) where
  PutMetricData : Nat → PutMetricDataInput F → Option String

/-! ## The metrics library -/

/-- What a histogram snapshot reads. -/
structure HistogramSnapshot (F : Type) where
  Count : Int
  Min : Int
  Max : Int
  Mean : F
  StdDev : F
  Percentile : F → F

/-- What a meter snapshot reads. -/
structure MeterSnapshot (F : Type) where
  Count : Int
  Rate1 : F
  Rate5 : F
  Rate15 : F
  RateMean : F

/-- What a timer snapshot reads. -/
structure TimerSnapshot (F : Type) where
  Count : Int
  Min : Int
  Max : Int
  Mean : F
  StdDev : F
  Percentile : F → F
  Rate1 : F
  Rate5 : F
  Rate15 : F
  RateMean : F

/-- A registered metric, by the case of the type switch of `metricsData` it takes; `Other` is
a registered value of any other type. -/
inductive Metric (F : Type) where
  | Counter (count : Int)
  | GaugeCounter (count : Int)
  | Gauge (value : Int)
  | GaugeFloat64 (value : F)
  | Histogram (h : HistogramSnapshot F)
  | Meter (m : MeterSnapshot F)
  | Timer (t : TimerSnapshot F)
  | Other

/-- The state in which the metrics library leaves a histogram and a timer after `Clear()`. -/
structure MetricsLib (F : Type) where
  emptyHistogram : HistogramSnapshot F
  emptyTimer : TimerSnapshot F
  emptyHistogram_count : emptyHistogram.Count = 0
  emptyTimer_count : emptyTimer.Count = 0

/-- The order in which a `range` visits the entries of a field map of `metricsData`. -/
structure RangeOrder (F : Type) where
  fields : List (String × F) → List (String × F)
  perm : ∀ l, (fields l).Perm l

/-- The type `config.Config`.  `Registry` lists the registered metrics in the order `Each`
visits them; `PreviousCounterValues` is `none` for a nil map, and a key that is absent
reads `none`. -/
structure Config (F : Type) where
  Filter : Filter F
  Client : PutMetricsClient F
  ReportingInterval : Int
  Registry : List (String × Metric F)
  Namespace : String
  StaticDimensions : List (String × String)
  DurationUnit : Int
  PreviousCounterValues : Option (String → Option Int)

/-! ## package reporter -/

/-- The counters `counters, gauges, ...` and `countersOut, gaugesOut, ...` that `metricsData`
logs. -/
structure Tally where
  counters : Nat
  gauges : Nat
  histos : Nat
  meters : Nat
  timers : Nat
  countersOut : Nat
  gaugesOut : Nat
  histosOut : Nat
  metersOut : Nat
  timersOut : Nat
deriving DecidableEq, Repr

/-- The kinds of metric that the tallies distinguish. -/
inductive Kind where
  | counters
  | gauges
  | histos
  | meters
  | timers
deriving DecidableEq, Repr

/-- The statement `kind += 1` on the sources. -/
def Tally.seen (t : Tally) : Kind → Tally
  | .counters => { t with counters := t.counters + 1 }
  | .gauges => { t with gauges := t.gauges + 1 }
  | .histos => { t with histos := t.histos + 1 }
  | .meters => { t with meters := t.meters + 1 }
  | .timers => { t with timers := t.timers + 1 }

/-- The statement `kindOut += 1` on the targets. -/
def Tally.out (t : Tally) : Kind → Tally
  | .counters => { t with countersOut := t.countersOut + 1 }
  | .gauges => { t with gaugesOut := t.gaugesOut + 1 }
  | .histos => { t with histosOut := t.histosOut + 1 }
  | .meters => { t with metersOut := t.metersOut + 1 }
  | .timers => { t with timersOut := t.timersOut + 1 }

/-- A call of a method of the filter (kept as a record of what the filter was asked). -/
inductive FilterCall (F : Type) where
  | ShouldReport (metric : String) (value : F)
  | Percentiles (metric : String)

/-- The variables of `metricsData` that the callback of `Registry.Each` changes: `data`, the
tallies and the previous-values table, with the record `asked` of the filter calls. -/
structure CycleState (F : Type) where
  data : List (MetricDatum F)
  tally : Tally
  previous : Option (String → Option Int)
  asked : List (FilterCall F)

def dimensions {F : Type} (c : Config F) : Multiset Dimension :=
  Multiset.ofList (c.StaticDimensions.map fun kv => { Name := kv.1, Value := kv.2 })

/-- The closure `aDatum` of `metricsData`. -/
def aDatum {F : Type} (cfg : Config F) (timestamp : Nat) (name : String) : MetricDatum F :=
  { MetricName := name, Timestamp := timestamp, Dimensions := dimensions cfg,
    Unit := none, Value := none }

/-- The block repeated in every case of `metricsData`: ask `ShouldReport n v` and, when it
approves, append the datum named `n` with the given unit and value and count it. -/
def offer {F : Type} (cfg : Config F) (timestamp : Nat) (kind : Kind) (unit : Option String)
    (s : CycleState F) (n : String) (v value : F) : CycleState F :=
  let s1 := { s with asked := s.asked ++ [FilterCall.ShouldReport n v] }
  if cfg.Filter.ShouldReport n v then
    { s1 with
      data := s1.data ++ [{ aDatum cfg timestamp n with Unit := unit, Value := some value }],
      tally := s1.tally.out kind }
  else s1

/-- The loop `for n, v := range map[string]float64 ...` over a field map. -/
def offerFields {F : Type} (cfg : Config F) (timestamp : Nat) (kind : Kind)
    (s : CycleState F) (fields : List (String × F)) : CycleState F :=
  fields.foldl (fun s nv => offer cfg timestamp kind none s nv.1 nv.2 nv.2) s

/-- The loop `for _, p := range cfg.Filter.Percentiles(name)`; `conv` is what is done to the
percentile value before it is stored in the datum. -/
def offerPercentiles {F : Type} (fl : Float64Ops F) (cfg : Config F) (timestamp : Nat)
    (kind : Kind) (percentile : F → F) (conv : F → F) (name : String)
    (s : CycleState F) : CycleState F :=
  let s1 := { s with asked := s.asked ++ [FilterCall.Percentiles name] }
  (cfg.Filter.Percentiles name).foldl
    (fun s p =>
      let pname := name ++ "-perc" ++ fl.fmt3 p
      let pvalue := percentile p
      offer cfg timestamp kind none s pname pvalue (conv pvalue)) s1

/-- The field map of the histogram case. -/
def histogramFields {F : Type} (fl : Float64Ops F) (name : String) (h : HistogramSnapshot F) :
    List (String × F) :=
  [(name ++ ".count", fl.ofInt64 h.Count),
   (name ++ ".min", fl.ofInt64 h.Min),
   (name ++ ".max", fl.ofInt64 h.Max),
   (name ++ ".mean", h.Mean),
   (name ++ ".std-dev", h.StdDev)]

/-- The field map of the meter case. -/
def meterFields {F : Type} (fl : Float64Ops F) (name : String) (m : MeterSnapshot F) :
    List (String × F) :=
  [(name ++ ".count", fl.ofInt64 m.Count),
   (name ++ ".one-minute", m.Rate1),
   (name ++ ".five-minute", m.Rate5),
   (name ++ ".fifteen-minute", m.Rate15),
   (name ++ ".mean", m.RateMean)]

/-- The field map of the timer case; `none` when a division panics. -/
def timerFields {F : Type} (fl : Float64Ops F) (cfg : Config F) (name : String)
    (t : TimerSnapshot F) : Option (List (String × F)) :=
  match div64 t.Min cfg.DurationUnit, div64 t.Max cfg.DurationUnit with
  | some tmin, some tmax =>
    some [(name ++ ".count", fl.ofInt64 t.Count),
          (name ++ ".rate-mean", t.RateMean),
          (name ++ ".one-minute", t.Rate1),
          (name ++ ".five-minute", t.Rate5),
          (name ++ ".fifteen-minute", t.Rate15),
          (name ++ ".min", fl.ofInt64 tmin),
          (name ++ ".max", fl.ofInt64 tmax),
          (name ++ ".mean", fl.div t.Mean (fl.ofInt64 cfg.DurationUnit)),
          (name ++ ".std-dev", fl.div t.StdDev (fl.ofInt64 cfg.DurationUnit))]
  | _, _ => none

/-- The callback that `metricsData` passes to `Registry.Each`: the state after the entry
`(name, i)` and the state the metric is left in, or `none` on a panic. -/
def each {F : Type} (lib : MetricsLib F) (fl : Float64Ops F) (ord : RangeOrder F)
    (cfg : Config F) (timestamp : Nat) (s : CycleState F) (name : String) :
    Metric F → Option (CycleState F × Metric F)
  | .Counter c =>
    let s1 := { s with tally := s.tally.seen .counters }
    match s1.previous with
    | some previous =>
      let current := c
      let count := fl.ofInt64 (sub64 current ((previous name).getD 0))
      let s2 := { s1 with previous := some (Function.update previous name (some current)) }
      some (offer cfg timestamp .counters (some StandardUnitCount) s2 name count count,
            .Counter c)
    | none =>
      let count := fl.ofInt64 c
      some (offer cfg timestamp .counters (some StandardUnitCount) s1 name count count,
            .Counter 0)
  | .GaugeCounter c =>
    let s1 := { s with tally := s.tally.seen .counters }
    let count := fl.ofInt64 c
    some (offer cfg timestamp .counters (some StandardUnitCount) s1 name count count,
          .GaugeCounter c)
  | .Gauge v =>
    let s1 := { s with tally := s.tally.seen .gauges }
    let value := fl.ofInt64 v
    some (offer cfg timestamp .gauges (some StandardUnitCount) s1 name value value, .Gauge v)
  | .GaugeFloat64 v =>
    let s1 := { s with tally := s.tally.seen .gauges }
    some (offer cfg timestamp .gauges (some StandardUnitCount) s1 name v v, .GaugeFloat64 v)
  | .Histogram h =>
    let s1 := { s with tally := s.tally.seen .histos }
    let s2 := offerFields cfg timestamp .histos s1 (ord.fields (histogramFields fl name h))
    some (offerPercentiles fl cfg timestamp .histos h.Percentile id name s2,
          .Histogram lib.emptyHistogram)
  | .Meter m =>
    let s1 := { s with tally := s.tally.seen .meters }
    some (offerFields cfg timestamp .meters s1 (ord.fields (meterFields fl name m)), .Meter m)
  | .Timer t =>
    let s1 := { s with tally := s.tally.seen .timers }
    if t.Count = 0 then some (s1, .Timer lib.emptyTimer)
    else
      match timerFields fl cfg name t with
      | none => none
      | some fields =>
        let s2 := offerFields cfg timestamp .timers s1 (ord.fields fields)
        some (offerPercentiles fl cfg timestamp .timers t.Percentile
                (fun pvalue => fl.div pvalue (fl.ofInt64 cfg.DurationUnit)) name s2,
              .Timer lib.emptyTimer)
  | .Other => some (s, .Other)

/-- The method `Registry.Each`: call `f` on every entry in turn. -/
def Registry.Each {F σ : Type} (f : σ → String → Metric F → Option (σ × Metric F)) :
    σ → List (String × Metric F) → Option (σ × List (String × Metric F))
  | s, [] => some (s, [])
  | s, (name, i) :: rest =>
    match f s name i with
    | none => none
    | some (s1, i1) =>
      match Registry.Each f s1 rest with
      | none => none
      | some (s2, rest1) => some (s2, (name, i1) :: rest1)

/-- What a run of `metricsData` leaves: the returned `data`, the configuration with the
registry and the previous-values table as the run left them, the logged tallies and the
record of the filter calls. -/
structure CycleResult (F : Type) where
  data : List (MetricDatum F)
  cfg : Config F
  tally : Tally
  asked : List (FilterCall F)

/-- The variables of `metricsData` before the registry is visited. -/
def CycleState.init {F : Type} (cfg : Config F) : CycleState F :=
  { data := [], tally := ⟨0, 0, 0, 0, 0, 0, 0, 0, 0, 0⟩,
    previous := cfg.PreviousCounterValues, asked := [] }

/-- The result of a visit of the whole registry that ended in state `s` with registry `reg`. -/
def CycleResult.mk1 {F : Type} (cfg : Config F) (s : CycleState F)
    (reg : List (String × Metric F)) : CycleResult F :=
  { data := s.data,
    cfg := { cfg with Registry := reg, PreviousCounterValues := s.previous },
    tally := s.tally, asked := s.asked }

def metricsData {F : Type} (lib : MetricsLib F) (fl : Float64Ops F) (ord : RangeOrder F)
    (timestamp : Nat) (cfg : Config F) : Option (CycleResult F) :=
  match Registry.Each (each lib fl ord cfg timestamp) (CycleState.init cfg) cfg.Registry with
  | none => none
  | some (s, reg) => some (CycleResult.mk1 cfg s reg)

/-- The requests sent so far in a cycle, oldest first. -/
abbrev Sent (F : Type) := List (PutMetricDataInput F)

/-- The text that `putMetrics` puts before the error of the client. -/
def putMetricsErrorText : String :=
  "component=cloudwatch-reporter fn=EmitMetrics at=error error="

def putMetrics {F : Type} (cfg : Config F) (sent : Sent F) (data : List (MetricDatum F)) :
    Option String × Sent F :=
  let req : PutMetricDataInput F := { Namespace := cfg.Namespace, MetricData := data }
  match cfg.Client.PutMetricData sent.length req with
  | some err => (some (putMetricsErrorText ++ err), sent ++ [req])
  | none => (none, sent ++ [req])

/-- The loop `for len(data) > 20` of `EmitMetrics`: the values of `data`, `err` and the
requests sent when it ends. -/
def EmitMetrics.loop {F : Type} (cfg : Config F) (data : List (MetricDatum F))
    (err : Option String) (sent : Sent F) :
    List (MetricDatum F) × Option String × Sent F :=
  if 20 < data.length then
    let put := data.take 20
    let r := putMetrics cfg sent put
    EmitMetrics.loop cfg (data.drop 20) r.1 r.2
  else (data, err, sent)
termination_by data.length
decreasing_by simp only [List.length_drop]; omega

/-- The statements of `EmitMetrics` after `data := metricsData(cfg)`: the returned error and
the requests sent. -/
def EmitMetrics.send {F : Type} (cfg : Config F) (data : List (MetricDatum F)) :
    Option String × Sent F :=
  let r := EmitMetrics.loop cfg data none []
  if 0 < r.1.length then putMetrics cfg r.2.2 r.1 else (r.2.1, r.2.2)

/-- What a call of `EmitMetrics` leaves: the returned error (`none` is `nil`), the requests
sent to the client in order, and what `metricsData` left. -/
structure EmitResult (F : Type) where
  err : Option String
  requests : Sent F
  cycle : CycleResult F

def EmitMetrics {F : Type} (lib : MetricsLib F) (fl : Float64Ops F) (ord : RangeOrder F)
    (timestamp : Nat) (cfg : Config F) : Option (EmitResult F) :=
  match metricsData lib fl ord timestamp cfg with
  | none => none
  | some r =>
    let p := EmitMetrics.send cfg r.data
    some { err := p.1, requests := p.2, cycle := r }

/-! ## The scheduler -/

/-- What the loop of `Cloudwatch` finds when it receives a tick: the time, the registry as
the producers have left it, the order of the map ranges of the cycle and the behaviour of
the client during the cycle. -/
structure Tick (F : Type) where
  timestamp : Nat
  ord : RangeOrder F
  registry : List (String × Metric F)
  client : PutMetricsClient F

/-- The states of a call of `Cloudwatch`.  `refused`: `time.NewTicker` panicked on an interval
that is not positive, no ticker exists.  `waiting`: the loop is blocked in `select` on
`ticks.C`, the ticker runs; `done` lists the calls of `EmitMetrics` made so far.
`panicked`: a call of `EmitMetrics` panicked, the deferred `ticks.Stop()` ran and the panic
leaves `Cloudwatch`.  The source has no statement that leaves the loop otherwise. -/
inductive Scheduler (F : Type) where
  | refused
  | waiting (cfg : Config F) (done : List (EmitResult F))
  | panicked (done : List (EmitResult F))

/-- The case `<-ticks.C` of the loop: one call of `EmitMetrics`, whose result is dropped. -/
def Cloudwatch.receive {F : Type} (lib : MetricsLib F) (fl : Float64Ops F) :
    Scheduler F → Tick F → Scheduler F
  | .refused, _ => .refused
  | .waiting cfg done, t =>
    match EmitMetrics lib fl t.ord t.timestamp
        { cfg with Registry := t.registry, Client := t.client } with
    | some e => .waiting e.cycle.cfg (done ++ [e])
    | none => .panicked done
  | .panicked done, _ => .panicked done

/-- The loop `for` of `Cloudwatch` from a given state, on the ticks received in turn. -/
def Cloudwatch.run {F : Type} (lib : MetricsLib F) (fl : Float64Ops F) (s : Scheduler F)
    (ticks : List (Tick F)) : Scheduler F :=
  ticks.foldl (Cloudwatch.receive lib fl) s

/-- The state of a call of `Cloudwatch` after the ticks received so far. -/
def Cloudwatch {F : Type} (lib : MetricsLib F) (fl : Float64Ops F) (cfg : Config F)
    (ticks : List (Tick F)) : Scheduler F :=
  if cfg.ReportingInterval ≤ 0 then .refused
  else Cloudwatch.run lib fl (.waiting cfg []) ticks

/-- Whether `ticks.Stop()` has run. -/
def Scheduler.tickerStopped {F : Type} : Scheduler F → Bool
  | .refused => false
  | .waiting _ _ => false
  | .panicked _ => true

/-- Whether the loop is still running. -/
def Scheduler.running {F : Type} : Scheduler F → Bool
  | .refused => false
  | .waiting _ _ => true
  | .panicked _ => false

/-! ## Definitions used to state the properties -/

/-- Consecutive chunks of at most 20 items, as the specification words the batching. -/
def chunks20 {α : Type} (l : List α) : List (List α) :=
  if l.length = 0 then [] else l.take 20 :: chunks20 (l.drop 20)
termination_by l.length
decreasing_by simp only [List.length_drop]; omega

/-- The request that carries a chunk. -/
def requestOf {F : Type} (cfg : Config F) (c : List (MetricDatum F)) : PutMetricDataInput F :=
  { Namespace := cfg.Namespace, MetricData := c }

/-- The statements of `EmitMetrics` after `metricsData`, from any values of `err` and of the
requests sent. -/
def sendFrom {F : Type} (cfg : Config F) (data : List (MetricDatum F)) (err : Option String)
    (sent : Sent F) : Option String × Sent F :=
  let r := EmitMetrics.loop cfg data err sent
  if 0 < r.1.length then putMetrics cfg r.2.2 r.1 else (r.2.1, r.2.2)

/-- The datum that `offer` appends for the name `n` with the given unit and value. -/
def datumOf {F : Type} (cfg : Config F) (timestamp : Nat) (unit : Option String) (n : String)
    (value : F) : MetricDatum F :=
  { MetricName := n, Timestamp := timestamp, Dimensions := dimensions cfg,
    Unit := unit, Value := some value }

/-- The target tally of a kind raised by `k`. -/
def Tally.outN (t : Tally) (kind : Kind) : Nat → Tally
  | 0 => t
  | k + 1 => (Tally.outN t kind k).out kind

/-- A list of offers `(name, value shown to the filter, value stored)` made in turn. -/
def offerAll {F : Type} (cfg : Config F) (timestamp : Nat) (kind : Kind) (unit : Option String)
    (s : CycleState F) (l : List (String × F × F)) : CycleState F :=
  l.foldl (fun s o => offer cfg timestamp kind unit s o.1 o.2.1 o.2.2) s

/-- The offers that the filter approves. -/
def approved {F : Type} (cfg : Config F) (l : List (String × F × F)) : List (String × F × F) :=
  l.filter fun o => cfg.Filter.ShouldReport o.1 o.2.1

/-- The offers of a field map: the value shown to the filter is the value stored. -/
def fieldOffers {F : Type} (l : List (String × F)) : List (String × F × F) :=
  l.map fun nv => (nv.1, nv.2, nv.2)

/-- The offers of a percentile loop. -/
def percentileOffers {F : Type} (fl : Float64Ops F) (cfg : Config F) (percentile : F → F)
    (conv : F → F) (name : String) : List (String × F × F) :=
  (cfg.Filter.Percentiles name).map fun p =>
    (name ++ "-perc" ++ fl.fmt3 p, percentile p, conv (percentile p))

/-- The state after a gauge counter, a gauge or a float gauge that reads `v` is visited. -/
def afterGauge {F : Type} (cfg : Config F) (timestamp : Nat) (kind : Kind) (s : CycleState F)
    (name : String) (v : F) : CycleState F :=
  { data := s.data ++
      (if cfg.Filter.ShouldReport name v
       then [datumOf cfg timestamp (some StandardUnitCount) name v] else []),
    tally := Tally.outN (s.tally.seen kind) kind (if cfg.Filter.ShouldReport name v then 1 else 0),
    previous := s.previous,
    asked := s.asked ++ [FilterCall.ShouldReport name v] }

/-- The state after the offers `fields` of a field map and then the offers `percs` of a
percentile loop on `name` were made from `s`. -/
def afterOffers {F : Type} (cfg : Config F) (timestamp : Nat) (kind : Kind) (s : CycleState F)
    (name : String) (fields percs : List (String × F × F)) : CycleState F :=
  { data := s.data ++
      ((approved cfg fields).map (fun o => datumOf cfg timestamp none o.1 o.2.2) ++
       (approved cfg percs).map (fun o => datumOf cfg timestamp none o.1 o.2.2)),
    tally := Tally.outN (Tally.outN (s.tally.seen kind) kind (approved cfg fields).length) kind
      (approved cfg percs).length,
    previous := s.previous,
    asked := s.asked ++
      (fields.map (fun o => FilterCall.ShouldReport o.1 o.2.1) ++
       FilterCall.Percentiles name :: percs.map (fun o => FilterCall.ShouldReport o.1 o.2.1)) }

/-! ## Concrete inputs -/

/-- Exact rational arithmetic as an instance of the `float64` operations. -/
def exactOps : Float64Ops ℚ :=
  { ofInt64 := fun x => (x : ℚ),
    lit := fun q => q,
    div := fun x y => x / y,
    fmt3 := fun q =>
      let n := (q * 1000 + 1 / 2).floor.toNat
      toString (n / 1000) ++ "." ++ toString (n / 100 % 10) ++ toString (n / 10 % 10) ++
        toString (n % 10) }

/-- A metrics library whose cleared histograms and timers read zero everywhere. -/
def zeroLib : MetricsLib ℚ :=
  { emptyHistogram := ⟨0, 0, 0, 0, 0, fun _ => 0⟩,
    emptyTimer := ⟨0, 0, 0, 0, 0, fun _ => 0, 0, 0, 0, 0⟩,
    emptyHistogram_count := rfl,
    emptyTimer_count := rfl }

/-- The field maps visited in the order they are written. -/
def inOrder {F : Type} : RangeOrder F := ⟨fun l => l, fun l => List.Perm.refl l⟩

/-- The field maps visited in the opposite order. -/
def reversed {F : Type} : RangeOrder F := ⟨List.reverse, fun l => List.reverse_perm l⟩

/-- A client whose every call succeeds (the mock client of the tests). -/
def okClient {F : Type} : PutMetricsClient F := ⟨fun _ _ => none⟩

/-- A client whose first call of a cycle fails and whose later calls succeed. -/
def failFirstClient {F : Type} : PutMetricsClient F :=
  ⟨fun k _ => if k = 0 then some "throttled" else none⟩

/-- The configuration of the tests around a given registry. -/
def testConfig (filter : Filter ℚ) (client : PutMetricsClient ℚ)
    (registry : List (String × Metric ℚ)) (previous : Option (String → Option Int)) : Config ℚ :=
  { Filter := filter, Client := client, ReportingInterval := 0, Registry := registry,
    Namespace := "", StaticDimensions := [], DurationUnit := 1000000,
    PreviousCounterValues := previous }

/-- The registry of `TestCloudwatchReporter`, cut to `n` counters, each incremented once. -/
def countersRegistry (n : Nat) : List (String × Metric ℚ) :=
  (List.range n).map fun i => ("count-" ++ toString i, Metric.Counter 1)

/-- The configuration of `TestCloudwatchReporter`: 30 counters, each incremented once. -/
def cfgThirtyCounters : Config ℚ :=
  testConfig (NoFilter exactOps) okClient (countersRegistry 30) none

/-- The configuration of `TestCounters`: one counter, incremented once. -/
def cfgOneCounter : Config ℚ :=
  testConfig (NoFilter exactOps) okClient [("counter", Metric.Counter 1)] none

/-- An empty previous-values table (`make(map[string]int64)`). -/
def emptyTable : String → Option Int := fun _ => none

/-- The first cycle of `TestCountersWithPreviousValueSnapshots`: the counter after `Inc(2)`
and an empty table. -/
def cfgSnapshotFirst : Config ℚ :=
  testConfig (NoFilter exactOps) okClient [("counter", Metric.Counter 2)] (some emptyTable)

/-- The second cycle of `TestCountersWithPreviousValueSnapshots`: the counter after a further
`Inc(1)` and the table that the first cycle left. -/
def cfgSnapshotSecond : Config ℚ :=
  testConfig (NoFilter exactOps) okClient [("counter", Metric.Counter 3)]
    (some (Function.update emptyTable "counter" (some 2)))

/-- The snapshot of a timer after one `Update(10 * time.Second)`: durations are held in
nanoseconds; the rates are whatever the meter reads at the time (here 0). -/
def tenSecondTimer : TimerSnapshot ℚ :=
  { Count := 1, Min := 10000000000, Max := 10000000000, Mean := 10000000000, StdDev := 0,
    Percentile := fun _ => 10000000000, Rate1 := 0, Rate5 := 0, Rate15 := 0, RateMean := 0 }

/-- The configuration of `TestFilters`: one timer updated once with 10 seconds, under
`AllFilter`. -/
def cfgFiltered : Config ℚ :=
  testConfig AllFilter okClient [("timer", Metric.Timer tenSecondTimer)] none

/-- A timer without recorded events, as a snapshot reads it. -/
def idleTimer : TimerSnapshot ℚ :=
  { Count := 0, Min := 0, Max := 0, Mean := 0, StdDev := 0, Percentile := fun _ => 0,
    Rate1 := 0, Rate5 := 0, Rate15 := 0, RateMean := 0 }

/-- A registry with one idle timer, under `NoFilter` and with the duration unit left at its
zero value. -/
def cfgIdleTimer : Config ℚ :=
  { testConfig (NoFilter exactOps) okClient [("timer", Metric.Timer idleTimer)] none with
    DurationUnit := 0 }

/-- The snapshot of the histogram of `TestHistograms` after `Update(1000)` and
`Update(500)`; the statistics are those that exact arithmetic gives. -/
def twoSampleHistogram : HistogramSnapshot ℚ :=
  { Count := 2, Min := 500, Max := 1000, Mean := 750, StdDev := 250,
    Percentile := fun p => if p ≤ 1 / 2 then 750 else 1000 }

/-- The configuration of `TestHistograms`. -/
def cfgHistogram : Config ℚ :=
  testConfig (NoFilter exactOps) okClient [("histo", Metric.Histogram twoSampleHistogram)] none

/-- The configuration of `TestTimers`: one timer updated once with 10 seconds, a duration
unit of one millisecond, under `NoFilter`. -/
def cfgTimer : Config ℚ :=
  testConfig (NoFilter exactOps) okClient [("timer", Metric.Timer tenSecondTimer)] none

/-- The configuration of `TestGaugeCounters`: one gauge counter after `Dec(1)`. -/
def cfgGaugeCounter : Config ℚ :=
  testConfig (NoFilter exactOps) okClient [("gauge-counter", Metric.GaugeCounter (-1))] none

/-- A meter that has seen three events, as a snapshot reads it. -/
def threeEventMeter : MeterSnapshot ℚ :=
  { Count := 3, Rate1 := 1 / 2, Rate5 := 1 / 4, Rate15 := 1 / 8, RateMean := 3 / 10 }

/-- A registry with one meter, under `NoFilter`. -/
def cfgMeter : Config ℚ :=
  testConfig (NoFilter exactOps) okClient [("meter", Metric.Meter threeEventMeter)] none

/-- A data point as a cycle with filter record `asked` accounts for it: it bears the
timestamp and the dimensions of the cycle, and the filter was asked about its name with a
value `v` and approved, `v` being the value of the point or the value that the point holds
divided by the duration unit. -/
def Accounted {F : Type} (fl : Float64Ops F) (cfg : Config F) (timestamp : Nat)
    (asked : List (FilterCall F)) (x : MetricDatum F) : Prop :=
  x.Timestamp = timestamp ∧ x.Dimensions = dimensions cfg ∧
    ∃ v, FilterCall.ShouldReport x.MetricName v ∈ asked ∧
      cfg.Filter.ShouldReport x.MetricName v = true ∧
      (x.Value = some v ∨ x.Value = some (fl.div v (fl.ofInt64 cfg.DurationUnit)))

/-- The configuration of `TestTimers` with two static dimensions. -/
def cfgTimerDimensions : Config ℚ :=
  { cfgTimer with StaticDimensions := [("env", "prod"), ("host", "a")] }

/-- The configuration of `TestTimers` with the duration unit left at its zero value. -/
def cfgTimerNoUnit : Config ℚ :=
  { cfgTimer with DurationUnit := 0 }

/-- A client whose every call fails. -/
def failingClient {F : Type} : PutMetricsClient F := ⟨fun _ _ => some "unreachable"⟩

/-- The configuration of `TestCounters` with a client whose every call fails. -/
def cfgOneCounterFailing : Config ℚ :=
  testConfig (NoFilter exactOps) failingClient [("counter", Metric.Counter 1)] none

/-- The snapshot of a timer after updates of 5, 7 and 12 seconds (in nanoseconds): the median
is 7 seconds, the mean 8 seconds. -/
def threeSampleTimer : TimerSnapshot ℚ :=
  { Count := 3, Min := 5000000000, Max := 12000000000, Mean := 8000000000,
    StdDev := 2943920289, Percentile := fun _ => 7000000000,
    Rate1 := 0, Rate5 := 0, Rate15 := 0, RateMean := 0 }

/-- A filter that reports only values of at least 8000 (milliseconds, the reporting unit) and
asks for the median. -/
def slowOnlyFilter : Filter ℚ :=
  { ShouldReport := fun _ v => decide (8000 ≤ v), Percentiles := fun _ => [1 / 2] }

/-- A registry with the timer `threeSampleTimer`, a duration unit of one millisecond and the
filter `slowOnlyFilter`. -/
def cfgSlowOnly : Config ℚ :=
  testConfig slowOnlyFilter okClient [("timer", Metric.Timer threeSampleTimer)] none

/-- The configuration of `TestCounters` with a reporting interval of one minute. -/
def cfgScheduled : Config ℚ :=
  { cfgOneCounter with ReportingInterval := 60000000000 }

/-- A tick that finds the counter of `TestCounters` incremented once and a client that
fails. -/
def failingTick : Tick ℚ :=
  { timestamp := 0, ord := inOrder, registry := [("counter", Metric.Counter 1)],
    client := failingClient }

/-- The values `current - previous[name]` that the counter case computes in successive
cycles for a counter that reads `counts` at these cycles, `p` being what the table holds
for the name before the first of them. -/
def counterDeltas (p : Int) : List Int → List Int
  | [] => []
  | c :: cs => sub64 c p :: counterDeltas c cs

/-- The differences of the same counts in unbounded integers. -/
def counterSteps (p : Int) : List Int → List Int
  | [] => []
  | c :: cs => (c - p) :: counterSteps c cs

/-- The run of `metricsData` that returned `r` visited a counter `name` that read `c`,
offered the value `v` for it and appended one point with that value when the filter
approved. -/
def CounterVisit {F : Type} (lib : MetricsLib F) (fl : Float64Ops F) (r : CycleResult F)
    (name : String) (c : Int) (v : F) : Prop :=
  ∃ (ord : RangeOrder F) (timestamp : Nat) (cfg : Config F)
    (pre post pre1 post1 : List (String × Metric F)) (s s1 sf : CycleState F),
    metricsData lib fl ord timestamp cfg = some r ∧
    cfg.Registry = pre ++ (name, Metric.Counter c) :: post ∧
    Registry.Each (each lib fl ord cfg timestamp) (CycleState.init cfg) pre = some (s, pre1) ∧
    each lib fl ord cfg timestamp s name (.Counter c) = some (s1, .Counter c) ∧
    s1.asked = s.asked ++ [FilterCall.ShouldReport name v] ∧
    s1.data = s.data ++
      (if cfg.Filter.ShouldReport name v
       then [{ MetricName := name, Timestamp := timestamp, Dimensions := dimensions cfg,
               Unit := some StandardUnitCount, Value := some v }]
       else []) ∧
    Registry.Each (each lib fl ord cfg timestamp) s1 post = some (sf, post1) ∧
    r = CycleResult.mk1 cfg sf (pre1 ++ (name, .Counter c) :: post1)

/-- The ticks of `TestCountersWithPreviousValueSnapshots`: the counter reads 2, then 3. -/
def snapshotTicks : List (Tick ℚ) :=
  [{ timestamp := 0, ord := inOrder, registry := [("counter", Metric.Counter 2)],
     client := okClient },
   { timestamp := 1, ord := inOrder, registry := [("counter", Metric.Counter 3)],
     client := okClient }]

/-- The state in which a visit leaves a metric; `table` says whether a previous-values table
is configured. -/
def metricAfter {F : Type} (lib : MetricsLib F) (table : Bool) : Metric F → Metric F
  | .Counter c => if table then .Counter c else .Counter 0
  | .Histogram _ => .Histogram lib.emptyHistogram
  | .Timer _ => .Timer lib.emptyTimer
  | i => i

/-- The data points that the visit of an entry appends under the table `previous` (none when
the visit panics). -/
def emitted {F : Type} (lib : MetricsLib F) (fl : Float64Ops F) (ord : RangeOrder F)
    (cfg : Config F) (timestamp : Nat) (previous : Option (String → Option Int))
    (name : String) (i : Metric F) : List (MetricDatum F) :=
  match each lib fl ord cfg timestamp
      { data := [], tally := ⟨0, 0, 0, 0, 0, 0, 0, 0, 0, 0⟩, previous := previous, asked := [] }
      name i with
  | some (s1, _) => s1.data
  | none => []

/-- A registry with a counter, a gauge, a histogram and a timer, under an empty table. -/
def cfgMixed : Config ℚ :=
  testConfig (NoFilter exactOps) okClient
    [("counter", Metric.Counter 2), ("gauge", Metric.Gauge 5),
     ("histo", Metric.Histogram twoSampleHistogram), ("timer", Metric.Timer tenSecondTimer)]
    (some emptyTable)

/-- The entries of `cfgMixed` in another order. -/
def mixedShuffled : List (String × Metric ℚ) :=
  [("timer", Metric.Timer tenSecondTimer), ("histo", Metric.Histogram twoSampleHistogram),
   ("gauge", Metric.Gauge 5), ("counter", Metric.Counter 2)]

/-! ## Batching -/

theorem chunks20_nil {α : Type} : chunks20 ([] : List α) = [] := by
  rw [chunks20]; simp

theorem chunks20_short {α : Type} (l : List α) (h0 : 0 < l.length) (h : l.length ≤ 20) :
    chunks20 l = [l] := by
  rw [chunks20, if_neg (by omega), List.take_of_length_le h, List.drop_of_length_le h,
    chunks20_nil]

theorem chunks20_long {α : Type} (l : List α) (h : 20 < l.length) :
    chunks20 l = l.take 20 :: chunks20 (l.drop 20) := by
  rw [chunks20, if_neg (by omega)]

theorem chunks20_flatten {α : Type} (l : List α) : (chunks20 l).flatten = l := by
  generalize h : l.length = n
  induction n using Nat.strong_induction_on generalizing l with
  | _ n ih =>
    rw [chunks20]
    split
    · rename_i h0
      simp [List.length_eq_zero.mp h0]
    · rename_i h0
      rw [List.flatten_cons, ih (l.drop 20).length (by simp only [List.length_drop]; omega) _ rfl,
        List.take_append_drop]

theorem chunks20_length {α : Type} (l : List α) : (chunks20 l).length = (l.length + 19) / 20 := by
  generalize h : l.length = n
  induction n using Nat.strong_induction_on generalizing l with
  | _ n ih =>
    rw [chunks20]
    split
    · rename_i h0
      simp [h0] at h; subst h; simp
    · rename_i h0
      rw [List.length_cons, ih (l.drop 20).length (by simp only [List.length_drop]; omega) _ rfl,
        List.length_drop]
      omega

theorem chunks20_bounds {α : Type} (l : List α) :
    ∀ c ∈ chunks20 l, 1 ≤ c.length ∧ c.length ≤ 20 := by
  generalize h : l.length = n
  induction n using Nat.strong_induction_on generalizing l with
  | _ n ih =>
    rw [chunks20]
    split
    · simp
    · rename_i h0
      intro c hc
      rcases List.mem_cons.mp hc with rfl | hc
      · simp only [List.length_take]; omega
      · exact ih (l.drop 20).length (by simp only [List.length_drop]; omega) _ rfl c hc

theorem putMetrics_sent {F : Type} (cfg : Config F) (sent : Sent F) (data : List (MetricDatum F)) :
    (putMetrics cfg sent data).2 = sent ++ [requestOf cfg data] := by
  simp only [putMetrics, requestOf]
  split <;> rfl

theorem loop_long {F : Type} (cfg : Config F) (data : List (MetricDatum F)) (err : Option String)
    (sent : Sent F) (h : 20 < data.length) :
    EmitMetrics.loop cfg data err sent =
      EmitMetrics.loop cfg (data.drop 20) (putMetrics cfg sent (data.take 20)).1
        (putMetrics cfg sent (data.take 20)).2 := by
  rw [EmitMetrics.loop, if_pos h]

theorem loop_short {F : Type} (cfg : Config F) (data : List (MetricDatum F)) (err : Option String)
    (sent : Sent F) (h : data.length ≤ 20) :
    EmitMetrics.loop cfg data err sent = (data, err, sent) := by
  rw [EmitMetrics.loop, if_neg (by omega)]

theorem send_eq_sendFrom {F : Type} (cfg : Config F) (data : List (MetricDatum F)) :
    EmitMetrics.send cfg data = sendFrom cfg data none [] := rfl

theorem sendFrom_sent {F : Type} (cfg : Config F) (data : List (MetricDatum F))
    (err : Option String) (sent : Sent F) :
    (sendFrom cfg data err sent).2 = sent ++ (chunks20 data).map (requestOf cfg) := by
  generalize h : data.length = n
  induction n using Nat.strong_induction_on generalizing data err sent with
  | _ n ih =>
    by_cases hl : 20 < data.length
    · have := ih (data.drop 20).length (by simp only [List.length_drop]; omega) (data.drop 20)
        (putMetrics cfg sent (data.take 20)).1 (putMetrics cfg sent (data.take 20)).2 rfl
      unfold sendFrom at this ⊢
      rw [loop_long cfg data err sent hl]
      rw [this, putMetrics_sent, chunks20_long data hl]
      simp
    · unfold sendFrom
      rw [loop_short cfg data err sent (by omega)]
      by_cases h0 : 0 < data.length
      · simp only [h0, if_true]
        rw [putMetrics_sent, chunks20_short data h0 (by omega)]
        simp
      · simp only [h0, if_false]
        have : data = [] := List.length_eq_zero.mp (by omega)
        subst this
        simp [chunks20_nil]

/-! ## The callback, case by case -/

theorem Tally.out_outN (t : Tally) (kind : Kind) (k : Nat) :
    Tally.outN (t.out kind) kind k = (Tally.outN t kind k).out kind := by
  induction k with
  | zero => rfl
  | succ k ih => simp only [Tally.outN, ih]

theorem offer_eq {F : Type} (cfg : Config F) (timestamp : Nat) (kind : Kind)
    (unit : Option String) (s : CycleState F) (n : String) (v value : F) :
    offer cfg timestamp kind unit s n v value =
      { data := s.data ++
          (if cfg.Filter.ShouldReport n v then [datumOf cfg timestamp unit n value] else []),
        tally := Tally.outN s.tally kind (if cfg.Filter.ShouldReport n v then 1 else 0),
        previous := s.previous,
        asked := s.asked ++ [FilterCall.ShouldReport n v] } := by
  unfold offer
  by_cases h : cfg.Filter.ShouldReport n v = true
  · simp [h, datumOf, aDatum, Tally.outN]
  · simp [h, Tally.outN]

theorem offerAll_eq {F : Type} (cfg : Config F) (timestamp : Nat) (kind : Kind)
    (unit : Option String) (l : List (String × F × F)) (s : CycleState F) :
    offerAll cfg timestamp kind unit s l =
      { data := s.data ++
          (approved cfg l).map (fun o => datumOf cfg timestamp unit o.1 o.2.2),
        tally := Tally.outN s.tally kind (approved cfg l).length,
        previous := s.previous,
        asked := s.asked ++ l.map (fun o => FilterCall.ShouldReport o.1 o.2.1) } := by
  induction l generalizing s with
  | nil => simp [offerAll, approved, Tally.outN]
  | cons o l ih =>
    have hstep : offerAll cfg timestamp kind unit s (o :: l) =
        offerAll cfg timestamp kind unit (offer cfg timestamp kind unit s o.1 o.2.1 o.2.2) l := rfl
    rw [hstep, ih, offer_eq]
    by_cases h : cfg.Filter.ShouldReport o.1 o.2.1 = true
    · simp [approved, h, List.filter_cons, Tally.outN, Tally.out_outN]
    · simp [approved, h, List.filter_cons, Tally.outN]

theorem offerFields_eq {F : Type} (cfg : Config F) (timestamp : Nat) (kind : Kind)
    (s : CycleState F) (l : List (String × F)) :
    offerFields cfg timestamp kind s l = offerAll cfg timestamp kind none s (fieldOffers l) := by
  unfold offerFields offerAll fieldOffers
  rw [List.foldl_map]

theorem offerPercentiles_eq {F : Type} (fl : Float64Ops F) (cfg : Config F) (timestamp : Nat)
    (kind : Kind) (percentile : F → F) (conv : F → F) (name : String) (s : CycleState F) :
    offerPercentiles fl cfg timestamp kind percentile conv name s =
      offerAll cfg timestamp kind none
        { s with asked := s.asked ++ [FilterCall.Percentiles name] }
        (percentileOffers fl cfg percentile conv name) := by
  unfold offerPercentiles offerAll percentileOffers
  rw [List.foldl_map]

/-! ## The visit of the registry -/

theorem Each_cons {F σ : Type} (f : σ → String → Metric F → Option (σ × Metric F))
    (name : String) (i : Metric F) (post : List (String × Metric F)) (s sf : σ)
    (reg : List (String × Metric F)) :
    Registry.Each f s ((name, i) :: post) = some (sf, reg) ↔
      ∃ s1 i1 post1, f s name i = some (s1, i1) ∧
        Registry.Each f s1 post = some (sf, post1) ∧ reg = (name, i1) :: post1 := by
  simp only [Registry.Each]
  cases hf : f s name i with
  | none => simp
  | some p =>
    obtain ⟨s1, i1⟩ := p
    simp only []
    cases hE : Registry.Each f s1 post with
    | none =>
      constructor
      · intro h; cases h
      · rintro ⟨a, b, c, hab, hc, -⟩
        simp only [Option.some.injEq, Prod.mk.injEq] at hab
        obtain ⟨rfl, rfl⟩ := hab
        rw [hE] at hc
        cases hc
    | some q =>
      obtain ⟨s2, rest1⟩ := q
      simp only [Option.some.injEq, Prod.mk.injEq]
      constructor
      · rintro ⟨rfl, rfl⟩; exact ⟨s1, i1, rest1, ⟨rfl, rfl⟩, hE, rfl⟩
      · rintro ⟨a, b, post1, h1, h2, rfl⟩
        obtain ⟨rfl, rfl⟩ := h1
        rw [hE] at h2
        simp only [Option.some.injEq, Prod.mk.injEq] at h2
        obtain ⟨rfl, rfl⟩ := h2
        exact ⟨rfl, rfl⟩

theorem Each_append {F σ : Type} (f : σ → String → Metric F → Option (σ × Metric F))
    (pre post : List (String × Metric F)) (s sf : σ) (reg : List (String × Metric F)) :
    Registry.Each f s (pre ++ post) = some (sf, reg) ↔
      ∃ s1 pre1 post1, Registry.Each f s pre = some (s1, pre1) ∧
        Registry.Each f s1 post = some (sf, post1) ∧ reg = pre1 ++ post1 := by
  induction pre generalizing s reg with
  | nil =>
    simp only [List.nil_append, Registry.Each]
    constructor
    · intro h; exact ⟨s, [], reg, rfl, h, rfl⟩
    · rintro ⟨s1, pre1, post1, h1, h2, rfl⟩
      cases h1; exact h2
  | cons e pre ih =>
    obtain ⟨name, i⟩ := e
    rw [List.cons_append, Each_cons]
    constructor
    · rintro ⟨s1, i1, rest1, hf, hE, rfl⟩
      obtain ⟨s3, pre1, post1, h1, h2, rfl⟩ := (ih s1 rest1).mp hE
      exact ⟨s3, (name, i1) :: pre1, post1,
        (Each_cons f name i pre s s3 _).mpr ⟨s1, i1, pre1, hf, h1, rfl⟩, h2, rfl⟩
    · rintro ⟨s3, pre1, post1, h1, h2, rfl⟩
      obtain ⟨s1, i1, rest1, hf, hE, rfl⟩ := (Each_cons f name i pre s s3 _).mp h1
      exact ⟨s1, i1, rest1 ++ post1, hf, (ih s1 _).mpr ⟨s3, rest1, post1, hE, h2, rfl⟩, rfl⟩

theorem Each_names {F σ : Type} (f : σ → String → Metric F → Option (σ × Metric F))
    (reg reg1 : List (String × Metric F)) (s sf : σ)
    (h : Registry.Each f s reg = some (sf, reg1)) :
    reg1.map Prod.fst = reg.map Prod.fst := by
  induction reg generalizing s reg1 with
  | nil => simp only [Registry.Each, Option.some.injEq, Prod.mk.injEq] at h; rw [← h.2]
  | cons e reg ih =>
    obtain ⟨name, i⟩ := e
    obtain ⟨s1, i1, post1, -, hE, rfl⟩ := (Each_cons f name i reg s sf reg1).mp h
    simp only [List.map_cons, ih post1 s1 hE]

/-- The state after a counter is visited when no previous-values table is configured. -/
theorem each_Counter_nil {F : Type} (lib : MetricsLib F) (fl : Float64Ops F)
    (ord : RangeOrder F) (cfg : Config F) (timestamp : Nat) (s : CycleState F) (name : String)
    (c : Int) (hnil : s.previous = none) :
    each lib fl ord cfg timestamp s name (.Counter c) =
      some ({ data := s.data ++
                (if cfg.Filter.ShouldReport name (fl.ofInt64 c)
                 then [datumOf cfg timestamp (some StandardUnitCount) name (fl.ofInt64 c)]
                 else []),
              tally := Tally.outN (s.tally.seen .counters) .counters
                (if cfg.Filter.ShouldReport name (fl.ofInt64 c) then 1 else 0),
              previous := none,
              asked := s.asked ++ [FilterCall.ShouldReport name (fl.ofInt64 c)] },
            .Counter 0) := by
  simp only [each, hnil, offer_eq]

/-- The state after a counter is visited when a previous-values table is configured. -/
theorem each_Counter_table {F : Type} (lib : MetricsLib F) (fl : Float64Ops F)
    (ord : RangeOrder F) (cfg : Config F) (timestamp : Nat) (s : CycleState F) (name : String)
    (c : Int) (previous : String → Option Int) (htab : s.previous = some previous) :
    each lib fl ord cfg timestamp s name (.Counter c) =
      some ({ data := s.data ++
                (if cfg.Filter.ShouldReport name
                      (fl.ofInt64 (sub64 c ((previous name).getD 0)))
                 then [datumOf cfg timestamp (some StandardUnitCount) name
                        (fl.ofInt64 (sub64 c ((previous name).getD 0)))]
                 else []),
              tally := Tally.outN (s.tally.seen .counters) .counters
                (if cfg.Filter.ShouldReport name
                      (fl.ofInt64 (sub64 c ((previous name).getD 0))) then 1 else 0),
              previous := some (Function.update previous name (some c)),
              asked := s.asked ++
                [FilterCall.ShouldReport name (fl.ofInt64 (sub64 c ((previous name).getD 0)))] },
            .Counter c) := by
  simp only [each, htab, offer_eq]

theorem each_GaugeCounter {F : Type} (lib : MetricsLib F) (fl : Float64Ops F)
    (ord : RangeOrder F) (cfg : Config F) (timestamp : Nat) (s : CycleState F) (name : String)
    (c : Int) :
    each lib fl ord cfg timestamp s name (.GaugeCounter c) =
      some (afterGauge cfg timestamp .counters s name (fl.ofInt64 c), .GaugeCounter c) := by
  simp only [each, offer_eq, afterGauge]

theorem each_Gauge {F : Type} (lib : MetricsLib F) (fl : Float64Ops F)
    (ord : RangeOrder F) (cfg : Config F) (timestamp : Nat) (s : CycleState F) (name : String)
    (v : Int) :
    each lib fl ord cfg timestamp s name (.Gauge v) =
      some (afterGauge cfg timestamp .gauges s name (fl.ofInt64 v), .Gauge v) := by
  simp only [each, offer_eq, afterGauge]

theorem each_GaugeFloat64 {F : Type} (lib : MetricsLib F) (fl : Float64Ops F)
    (ord : RangeOrder F) (cfg : Config F) (timestamp : Nat) (s : CycleState F) (name : String)
    (v : F) :
    each lib fl ord cfg timestamp s name (.GaugeFloat64 v) =
      some (afterGauge cfg timestamp .gauges s name v, .GaugeFloat64 v) := by
  simp only [each, offer_eq, afterGauge]

theorem each_Histogram {F : Type} (lib : MetricsLib F) (fl : Float64Ops F)
    (ord : RangeOrder F) (cfg : Config F) (timestamp : Nat) (s : CycleState F) (name : String)
    (h : HistogramSnapshot F) :
    each lib fl ord cfg timestamp s name (.Histogram h) =
      some (afterOffers cfg timestamp .histos s name
              (fieldOffers (ord.fields (histogramFields fl name h)))
              (percentileOffers fl cfg h.Percentile id name),
            .Histogram lib.emptyHistogram) := by
  simp only [each, offerFields_eq, offerPercentiles_eq, offerAll_eq, afterOffers,
    List.append_assoc, List.singleton_append]

theorem each_Meter {F : Type} (lib : MetricsLib F) (fl : Float64Ops F)
    (ord : RangeOrder F) (cfg : Config F) (timestamp : Nat) (s : CycleState F) (name : String)
    (m : MeterSnapshot F) :
    each lib fl ord cfg timestamp s name (.Meter m) =
      some ({ data := s.data ++ (approved cfg (fieldOffers (ord.fields (meterFields fl name m)))).map
                (fun o => datumOf cfg timestamp none o.1 o.2.2),
              tally := Tally.outN (s.tally.seen .meters) .meters
                (approved cfg (fieldOffers (ord.fields (meterFields fl name m)))).length,
              previous := s.previous,
              asked := s.asked ++ (fieldOffers (ord.fields (meterFields fl name m))).map
                (fun o => FilterCall.ShouldReport o.1 o.2.1) },
            .Meter m) := by
  simp only [each, offerFields_eq, offerAll_eq]

theorem each_Timer_zero {F : Type} (lib : MetricsLib F) (fl : Float64Ops F)
    (ord : RangeOrder F) (cfg : Config F) (timestamp : Nat) (s : CycleState F) (name : String)
    (t : TimerSnapshot F) (h0 : t.Count = 0) :
    each lib fl ord cfg timestamp s name (.Timer t) =
      some ({ s with tally := s.tally.seen .timers }, .Timer lib.emptyTimer) := by
  simp only [each, h0, if_true]

theorem each_Timer {F : Type} (lib : MetricsLib F) (fl : Float64Ops F)
    (ord : RangeOrder F) (cfg : Config F) (timestamp : Nat) (s : CycleState F) (name : String)
    (t : TimerSnapshot F) (h0 : t.Count ≠ 0) (fields : List (String × F))
    (hf : timerFields fl cfg name t = some fields) :
    each lib fl ord cfg timestamp s name (.Timer t) =
      some (afterOffers cfg timestamp .timers s name (fieldOffers (ord.fields fields))
              (percentileOffers fl cfg t.Percentile
                (fun pvalue => fl.div pvalue (fl.ofInt64 cfg.DurationUnit)) name),
            .Timer lib.emptyTimer) := by
  simp only [each, h0, if_false, hf, offerFields_eq, offerPercentiles_eq, offerAll_eq, afterOffers,
    List.append_assoc, List.singleton_append]

theorem each_Timer_panic {F : Type} (lib : MetricsLib F) (fl : Float64Ops F)
    (ord : RangeOrder F) (cfg : Config F) (timestamp : Nat) (s : CycleState F) (name : String)
    (t : TimerSnapshot F) (h0 : t.Count ≠ 0) (hf : timerFields fl cfg name t = none) :
    each lib fl ord cfg timestamp s name (.Timer t) = none := by
  simp only [each, h0, if_false, hf]

/-! ## What every visit preserves -/

/-- The callback only appends to `data` and to the record of the filter calls. -/
theorem each_extends {F : Type} (lib : MetricsLib F) (fl : Float64Ops F) (ord : RangeOrder F)
    (cfg : Config F) (timestamp : Nat) (s s1 : CycleState F) (name : String) (i i1 : Metric F)
    (h : each lib fl ord cfg timestamp s name i = some (s1, i1)) :
    ∃ d a, s1.data = s.data ++ d ∧ s1.asked = s.asked ++ a := by
  cases i with
  | Counter c =>
    cases hp : s.previous with
    | none =>
      rw [each_Counter_nil lib fl ord cfg timestamp s name c hp] at h
      cases h; exact ⟨_, _, rfl, rfl⟩
    | some previous =>
      rw [each_Counter_table lib fl ord cfg timestamp s name c previous hp] at h
      cases h; exact ⟨_, _, rfl, rfl⟩
  | GaugeCounter c => rw [each_GaugeCounter] at h; cases h; exact ⟨_, _, rfl, rfl⟩
  | Gauge v => rw [each_Gauge] at h; cases h; exact ⟨_, _, rfl, rfl⟩
  | GaugeFloat64 v => rw [each_GaugeFloat64] at h; cases h; exact ⟨_, _, rfl, rfl⟩
  | Histogram hs => rw [each_Histogram] at h; cases h; exact ⟨_, _, rfl, rfl⟩
  | Meter m => rw [each_Meter] at h; cases h; exact ⟨_, _, rfl, rfl⟩
  | Timer t =>
    by_cases h0 : t.Count = 0
    · rw [each_Timer_zero lib fl ord cfg timestamp s name t h0] at h
      cases h; exact ⟨[], [], by simp, by simp⟩
    · cases hf : timerFields fl cfg name t with
      | none => rw [each_Timer_panic lib fl ord cfg timestamp s name t h0 hf] at h; cases h
      | some fields =>
        rw [each_Timer lib fl ord cfg timestamp s name t h0 fields hf] at h
        cases h; exact ⟨_, _, rfl, rfl⟩
  | Other => simp only [each, Option.some.injEq, Prod.mk.injEq] at h; rw [← h.1]; exact ⟨[], [], by simp, by simp⟩

theorem Each_extends {F : Type} (lib : MetricsLib F) (fl : Float64Ops F) (ord : RangeOrder F)
    (cfg : Config F) (timestamp : Nat) (reg reg1 : List (String × Metric F))
    (s sf : CycleState F)
    (h : Registry.Each (each lib fl ord cfg timestamp) s reg = some (sf, reg1)) :
    ∃ d a, sf.data = s.data ++ d ∧ sf.asked = s.asked ++ a := by
  induction reg generalizing s reg1 with
  | nil =>
    simp only [Registry.Each, Option.some.injEq, Prod.mk.injEq] at h
    rw [← h.1]; exact ⟨[], [], by simp, by simp⟩
  | cons e reg ih =>
    obtain ⟨name, i⟩ := e
    obtain ⟨s1, i1, post1, hf, hE, -⟩ := (Each_cons _ name i reg s sf reg1).mp h
    obtain ⟨d1, a1, hd1, ha1⟩ := each_extends lib fl ord cfg timestamp s s1 name i i1 hf
    obtain ⟨d2, a2, hd2, ha2⟩ := ih post1 s1 hE
    exact ⟨d1 ++ d2, a1 ++ a2, by rw [hd2, hd1, List.append_assoc],
      by rw [ha2, ha1, List.append_assoc]⟩

/-- The callback changes the previous-values table only in the counter case, and there only
at the name of the counter; a nil table stays nil. -/
theorem each_previous {F : Type} (lib : MetricsLib F) (fl : Float64Ops F) (ord : RangeOrder F)
    (cfg : Config F) (timestamp : Nat) (s s1 : CycleState F) (name : String) (i i1 : Metric F)
    (h : each lib fl ord cfg timestamp s name i = some (s1, i1)) :
    (s.previous = none → s1.previous = none) ∧
    (∀ previous, s.previous = some previous →
      ∃ previous1, s1.previous = some previous1 ∧
        (∀ n, n ≠ name → previous1 n = previous n) ∧
        ((∀ c, i ≠ .Counter c) → previous1 = previous)) := by
  cases i with
  | Counter c =>
    cases hp : s.previous with
    | none =>
      rw [each_Counter_nil lib fl ord cfg timestamp s name c hp] at h
      cases h
      constructor
      · intro _; rfl
      · intro p hq; cases hq
    | some previous =>
      rw [each_Counter_table lib fl ord cfg timestamp s name c previous hp] at h
      cases h
      constructor
      · intro hn; cases hn
      · intro p hq
        cases hq
        exact ⟨_, rfl, fun n hn => Function.update_noteq hn _ _, fun hc => absurd rfl (hc c)⟩
  | GaugeCounter c =>
    rw [each_GaugeCounter] at h; cases h
    exact ⟨fun hn => hn, fun p hp => ⟨p, hp, fun _ _ => rfl, fun _ => rfl⟩⟩
  | Gauge v =>
    rw [each_Gauge] at h; cases h
    exact ⟨fun hn => hn, fun p hp => ⟨p, hp, fun _ _ => rfl, fun _ => rfl⟩⟩
  | GaugeFloat64 v =>
    rw [each_GaugeFloat64] at h; cases h
    exact ⟨fun hn => hn, fun p hp => ⟨p, hp, fun _ _ => rfl, fun _ => rfl⟩⟩
  | Histogram hs =>
    rw [each_Histogram] at h; cases h
    exact ⟨fun hn => hn, fun p hp => ⟨p, hp, fun _ _ => rfl, fun _ => rfl⟩⟩
  | Meter m =>
    rw [each_Meter] at h; cases h
    exact ⟨fun hn => hn, fun p hp => ⟨p, hp, fun _ _ => rfl, fun _ => rfl⟩⟩
  | Timer t =>
    by_cases h0 : t.Count = 0
    · rw [each_Timer_zero lib fl ord cfg timestamp s name t h0] at h
      cases h
      exact ⟨fun hn => hn, fun p hp => ⟨p, hp, fun _ _ => rfl, fun _ => rfl⟩⟩
    · cases hf : timerFields fl cfg name t with
      | none => rw [each_Timer_panic lib fl ord cfg timestamp s name t h0 hf] at h; cases h
      | some fields =>
        rw [each_Timer lib fl ord cfg timestamp s name t h0 fields hf] at h
        cases h
        exact ⟨fun hn => hn, fun p hp => ⟨p, hp, fun _ _ => rfl, fun _ => rfl⟩⟩
  | Other =>
    simp only [each, Option.some.injEq, Prod.mk.injEq] at h
    rw [← h.1]
    exact ⟨fun hn => hn, fun p hp => ⟨p, hp, fun _ _ => rfl, fun _ => rfl⟩⟩

theorem Each_previous_nil {F : Type} (lib : MetricsLib F) (fl : Float64Ops F)
    (ord : RangeOrder F) (cfg : Config F) (timestamp : Nat) (reg reg1 : List (String × Metric F))
    (s sf : CycleState F)
    (h : Registry.Each (each lib fl ord cfg timestamp) s reg = some (sf, reg1))
    (hnil : s.previous = none) : sf.previous = none := by
  induction reg generalizing s reg1 with
  | nil =>
    simp only [Registry.Each, Option.some.injEq, Prod.mk.injEq] at h
    rw [← h.1]; exact hnil
  | cons e reg ih =>
    obtain ⟨name, i⟩ := e
    obtain ⟨s1, i1, post1, hf, hE, -⟩ := (Each_cons _ name i reg s sf reg1).mp h
    exact ih post1 s1 hE ((each_previous lib fl ord cfg timestamp s s1 name i i1 hf).1 hnil)

/-- A visit of a list of entries changes the table only at the names of its counters. -/
theorem Each_previous_table {F : Type} (lib : MetricsLib F) (fl : Float64Ops F)
    (ord : RangeOrder F) (cfg : Config F) (timestamp : Nat) (reg reg1 : List (String × Metric F))
    (s sf : CycleState F) (previous : String → Option Int)
    (h : Registry.Each (each lib fl ord cfg timestamp) s reg = some (sf, reg1))
    (htab : s.previous = some previous) :
    ∃ previous1, sf.previous = some previous1 ∧
      ∀ n, (∀ c, (n, Metric.Counter c) ∉ reg) → previous1 n = previous n := by
  induction reg generalizing s reg1 previous with
  | nil =>
    simp only [Registry.Each, Option.some.injEq, Prod.mk.injEq] at h
    rw [← h.1]; exact ⟨previous, htab, fun _ _ => rfl⟩
  | cons e reg ih =>
    obtain ⟨name, i⟩ := e
    obtain ⟨s1, i1, post1, hf, hE, -⟩ := (Each_cons _ name i reg s sf reg1).mp h
    obtain ⟨p1, hp1, hne, hnc⟩ :=
      (each_previous lib fl ord cfg timestamp s s1 name i i1 hf).2 previous htab
    obtain ⟨p2, hp2, hrest⟩ := ih post1 s1 p1 hE hp1
    refine ⟨p2, hp2, fun n hn => ?_⟩
    rw [hrest n (fun c hc => hn c (List.mem_cons_of_mem _ hc))]
    by_cases hnn : n = name
    · subst hnn
      have : ∀ c, i ≠ .Counter c := fun c hc => hn c (by rw [hc]; exact List.mem_cons_self _ _)
      rw [hnc this]
    · exact hne n hnn

/-- A run of `metricsData` that returns, cut at one entry of the registry. -/
theorem metricsData_split {F : Type} (lib : MetricsLib F) (fl : Float64Ops F)
    (ord : RangeOrder F) (timestamp : Nat) (cfg : Config F) (r : CycleResult F)
    (pre post : List (String × Metric F)) (name : String) (i : Metric F)
    (hreg : cfg.Registry = pre ++ (name, i) :: post)
    (hr : metricsData lib fl ord timestamp cfg = some r) :
    ∃ s pre1 s1 i1 sf post1,
      Registry.Each (each lib fl ord cfg timestamp) (CycleState.init cfg) pre = some (s, pre1) ∧
      each lib fl ord cfg timestamp s name i = some (s1, i1) ∧
      Registry.Each (each lib fl ord cfg timestamp) s1 post = some (sf, post1) ∧
      r = CycleResult.mk1 cfg sf (pre1 ++ (name, i1) :: post1) := by
  unfold metricsData at hr
  cases hE : Registry.Each (each lib fl ord cfg timestamp) (CycleState.init cfg) cfg.Registry with
  | none => rw [hE] at hr; cases hr
  | some q =>
    obtain ⟨sf, reg1⟩ := q
    rw [hE] at hr
    simp only [Option.some.injEq] at hr
    rw [hreg] at hE
    obtain ⟨s, pre1, rest1, h1, h2, rfl⟩ := (Each_append _ pre _ _ sf reg1).mp hE
    obtain ⟨s1, i1, post1, h3, h4, rfl⟩ := (Each_cons _ name i post s sf rest1).mp h2
    exact ⟨s, pre1, s1, i1, sf, post1, h1, h3, h4, hr.symm⟩

/-! ## The run returns when the duration unit is not zero -/

theorem timerFields_isSome {F : Type} (fl : Float64Ops F) (cfg : Config F) (name : String)
    (t : TimerSnapshot F) (hu : cfg.DurationUnit ≠ 0) :
    ∃ fields, timerFields fl cfg name t = some fields := by
  simp only [timerFields, div64, if_neg hu]
  exact ⟨_, rfl⟩

theorem each_isSome {F : Type} (lib : MetricsLib F) (fl : Float64Ops F) (ord : RangeOrder F)
    (cfg : Config F) (timestamp : Nat) (s : CycleState F) (name : String) (i : Metric F)
    (hu : cfg.DurationUnit ≠ 0) :
    ∃ p, each lib fl ord cfg timestamp s name i = some p := by
  cases i with
  | Counter c =>
    cases hp : s.previous with
    | none => exact ⟨_, each_Counter_nil lib fl ord cfg timestamp s name c hp⟩
    | some previous => exact ⟨_, each_Counter_table lib fl ord cfg timestamp s name c previous hp⟩
  | GaugeCounter c => exact ⟨_, each_GaugeCounter lib fl ord cfg timestamp s name c⟩
  | Gauge v => exact ⟨_, each_Gauge lib fl ord cfg timestamp s name v⟩
  | GaugeFloat64 v => exact ⟨_, each_GaugeFloat64 lib fl ord cfg timestamp s name v⟩
  | Histogram hs => exact ⟨_, each_Histogram lib fl ord cfg timestamp s name hs⟩
  | Meter m => exact ⟨_, each_Meter lib fl ord cfg timestamp s name m⟩
  | Timer t =>
    by_cases h0 : t.Count = 0
    · exact ⟨_, each_Timer_zero lib fl ord cfg timestamp s name t h0⟩
    · obtain ⟨fields, hf⟩ := timerFields_isSome fl cfg name t hu
      exact ⟨_, each_Timer lib fl ord cfg timestamp s name t h0 fields hf⟩
  | Other => exact ⟨_, rfl⟩

theorem Each_isSome {F : Type} (lib : MetricsLib F) (fl : Float64Ops F) (ord : RangeOrder F)
    (cfg : Config F) (timestamp : Nat) (reg : List (String × Metric F)) (s : CycleState F)
    (hu : cfg.DurationUnit ≠ 0) :
    ∃ p, Registry.Each (each lib fl ord cfg timestamp) s reg = some p := by
  induction reg generalizing s with
  | nil => exact ⟨_, rfl⟩
  | cons e reg ih =>
    obtain ⟨name, i⟩ := e
    obtain ⟨⟨s1, i1⟩, h1⟩ := each_isSome lib fl ord cfg timestamp s name i hu
    obtain ⟨⟨s2, rest1⟩, h2⟩ := ih s1
    exact ⟨_, (Each_cons _ name i reg s s2 _).mpr ⟨s1, i1, rest1, h1, h2, rfl⟩⟩

theorem metricsData_isSome {F : Type} (lib : MetricsLib F) (fl : Float64Ops F)
    (ord : RangeOrder F) (timestamp : Nat) (cfg : Config F) (hu : cfg.DurationUnit ≠ 0) :
    ∃ r, metricsData lib fl ord timestamp cfg = some r := by
  obtain ⟨⟨s, reg⟩, h⟩ := Each_isSome lib fl ord cfg timestamp cfg.Registry (CycleState.init cfg) hu
  exact ⟨_, by unfold metricsData; rw [h]⟩

/-! ## The error and the requests of `EmitMetrics` -/

theorem putMetrics_err {F : Type} (cfg : Config F) (sent : Sent F) (data : List (MetricDatum F)) :
    (putMetrics cfg sent data).1 =
      (cfg.Client.PutMetricData sent.length (requestOf cfg data)).map
        (fun err => putMetricsErrorText ++ err) := by
  simp only [putMetrics, requestOf]
  split <;> rename_i h <;> rw [h] <;> rfl

theorem chunks20_ne_nil {α : Type} (l : List α) (h : 0 < l.length) : chunks20 l ≠ [] := by
  rw [chunks20, if_neg (by omega)]
  exact List.cons_ne_nil _ _

/-- The error that `EmitMetrics` returns is the result of the last publish call: the error
of an earlier call is kept only until the next call. -/
theorem sendFrom_err {F : Type} (cfg : Config F) (data : List (MetricDatum F))
    (err : Option String) (sent : Sent F) :
    (sendFrom cfg data err sent).1 =
      match (chunks20 data).getLast? with
      | none => err
      | some c =>
        (putMetrics cfg (sent ++ ((chunks20 data).dropLast).map (requestOf cfg)) c).1 := by
  generalize h : data.length = n
  induction n using Nat.strong_induction_on generalizing data err sent with
  | _ n ih =>
    by_cases hl : 20 < data.length
    · have hd : 0 < (data.drop 20).length := by simp only [List.length_drop]; omega
      have := ih (data.drop 20).length (by simp only [List.length_drop]; omega) (data.drop 20)
        (putMetrics cfg sent (data.take 20)).1 (putMetrics cfg sent (data.take 20)).2 rfl
      unfold sendFrom at this ⊢
      rw [loop_long cfg data err sent hl, this, putMetrics_sent, chunks20_long data hl]
      obtain ⟨c, cs, hc⟩ := List.exists_cons_of_ne_nil (chunks20_ne_nil (data.drop 20) hd)
      rw [hc]
      cases hg : (c :: cs).getLast? with
      | none => simp at hg
      | some x => simp [hg, List.dropLast]
    · unfold sendFrom
      rw [loop_short cfg data err sent (by omega)]
      by_cases h0 : 0 < data.length
      · simp only [h0, if_true]
        rw [chunks20_short data h0 (by omega)]
        simp
      · simp only [h0, if_false]
        have : data = [] := List.length_eq_zero.mp (by omega)
        subst this
        simp [chunks20_nil]

theorem EmitMetrics_eq {F : Type} (lib : MetricsLib F) (fl : Float64Ops F)
    (ord : RangeOrder F) (timestamp : Nat) (cfg : Config F) (r : CycleResult F)
    (hr : metricsData lib fl ord timestamp cfg = some r) :
    EmitMetrics lib fl ord timestamp cfg =
      some { err := (EmitMetrics.send cfg r.data).1, requests := (EmitMetrics.send cfg r.data).2,
             cycle := r } := by
  simp only [EmitMetrics, hr]

theorem chunks20_30 {α : Type} (l : List α) (h : l.length = 30) :
    (chunks20 l).map List.length = [20, 10] := by
  rw [chunks20_long l (by omega), chunks20_short (l.drop 20) (by simp [h]) (by simp [h])]
  simp [h]

theorem chunks20_21 {α : Type} (l : List α) (h : l.length = 21) :
    chunks20 l = [l.take 20, l.drop 20] := by
  rw [chunks20_long l (by omega), chunks20_short (l.drop 20) (by simp [h]) (by simp [h])]

/-- C1: whenever the cycle produces its data `r.data` (of any length `n`), `EmitMetrics`
returns after exactly `ceil(n / 20) = (n + 19) / 20` publish calls (none when `n = 0`), every
call carries between 1 and 20 points, and the payloads of the calls, concatenated in call
order, are the original sequence. -/
theorem EmitMetrics_chunks {F : Type} (lib : MetricsLib F) (fl : Float64Ops F)
    (ord : RangeOrder F) (timestamp : Nat) (cfg : Config F) (r : CycleResult F)
    (hr : metricsData lib fl ord timestamp cfg = some r) :
    ∃ e, EmitMetrics lib fl ord timestamp cfg = some e ∧ e.cycle = r ∧
      e.requests.length = (r.data.length + 19) / 20 ∧
      (r.data.length = 0 → e.requests = []) ∧
      (∀ q ∈ e.requests, 1 ≤ q.MetricData.length ∧ q.MetricData.length ≤ 20) ∧
      (e.requests.map fun q => q.MetricData).flatten = r.data := by
  refine ⟨_, EmitMetrics_eq lib fl ord timestamp cfg r hr, rfl, ?_, ?_, ?_, ?_⟩
  · simp only [send_eq_sendFrom, sendFrom_sent, List.nil_append, List.length_map,
      chunks20_length]
  · intro h0
    simp only [send_eq_sendFrom, sendFrom_sent, List.nil_append,
      List.length_eq_zero.mp h0, chunks20_nil, List.map_nil]
  · intro q hq
    simp only [send_eq_sendFrom, sendFrom_sent, List.nil_append, List.mem_map] at hq
    obtain ⟨c, hc, rfl⟩ := hq
    exact chunks20_bounds r.data c hc
  · simp only [send_eq_sendFrom, sendFrom_sent, List.nil_append, List.map_map]
    have : ((fun q : PutMetricDataInput F => q.MetricData) ∘ requestOf cfg) = id := rfl
    rw [this, List.map_id, chunks20_flatten]

theorem EmitMetrics_chunks_witness :
    ∃ r e, metricsData zeroLib exactOps inOrder 0
        (testConfig (NoFilter exactOps) okClient (countersRegistry 30) none) = some r ∧
      r.data.length = 30 ∧
      EmitMetrics zeroLib exactOps inOrder 0
        (testConfig (NoFilter exactOps) okClient (countersRegistry 30) none) = some e ∧
      e.requests.length = 2 ∧
      (e.requests.map fun q => q.MetricData.length) = [20, 10] ∧
      (e.requests.map fun q => q.MetricData).flatten = r.data := by
  obtain ⟨r, h⟩ := metricsData_isSome zeroLib exactOps inOrder 0
    (testConfig (NoFilter exactOps) okClient (countersRegistry 30) none) (by decide)
  have hl : r.data.length = 30 := by
    have : ((metricsData zeroLib exactOps inOrder 0
      (testConfig (NoFilter exactOps) okClient (countersRegistry 30) none)).map
        fun r => r.data.length) = some 30 := by rfl
    rw [h] at this
    simpa using this
  obtain ⟨e, he, hc, hn, -, -, hf⟩ := EmitMetrics_chunks zeroLib exactOps inOrder 0 _ r h
  refine ⟨r, e, h, hl, he, by rw [hn, hl], ?_, hf⟩
  simp only [EmitMetrics, h, Option.some.injEq] at he
  rw [← he]
  simp only [send_eq_sendFrom, sendFrom_sent, List.nil_append, List.map_map]
  exact chunks20_30 r.data hl

/-- C2: on 21 data points with a client whose first call fails and whose second call
succeeds, `EmitMetrics` makes two publish calls, the first of them fails, and the returned
error is nil: the earlier error is lost. -/
theorem EmitMetrics_loses_earlier_error :
    ∃ e q, EmitMetrics zeroLib exactOps inOrder 0
        (testConfig (NoFilter exactOps) failFirstClient (countersRegistry 21) none) = some e ∧
      e.cycle.data.length = 21 ∧
      e.requests.length = 2 ∧
      e.requests.head? = some q ∧
      failFirstClient.PutMetricData 0 q = some "throttled" ∧
      e.err = none := by
  obtain ⟨r, h⟩ := metricsData_isSome zeroLib exactOps inOrder 0
    (testConfig (NoFilter exactOps) failFirstClient (countersRegistry 21) none) (by decide)
  have hl : r.data.length = 21 := by
    have : ((metricsData zeroLib exactOps inOrder 0
      (testConfig (NoFilter exactOps) failFirstClient (countersRegistry 21) none)).map
        fun r => r.data.length) = some 21 := by rfl
    rw [h] at this
    simpa using this
  refine ⟨_, requestOf (testConfig (NoFilter exactOps) failFirstClient (countersRegistry 21) none)
    (r.data.take 20), EmitMetrics_eq _ _ _ _ _ r h, hl, ?_, ?_, rfl, ?_⟩
  · simp only [send_eq_sendFrom, sendFrom_sent, List.nil_append, chunks20_21 r.data hl]
    rfl
  · simp only [send_eq_sendFrom, sendFrom_sent, List.nil_append, chunks20_21 r.data hl]
    rfl
  · simp only [send_eq_sendFrom, sendFrom_err, chunks20_21 r.data hl]
    rfl

/-- C3: the requests that `EmitMetrics` sends (their number, order and payloads) and the data
of the cycle are the same for every client, whatever calls it fails; and the requests are
exactly the consecutive chunks of the data, one request per chunk, each sent once. -/
theorem EmitMetrics_requests_fixed {F : Type} (lib : MetricsLib F) (fl : Float64Ops F)
    (ord : RangeOrder F) (timestamp : Nat) (cfg : Config F) (client : PutMetricsClient F) :
    ((EmitMetrics lib fl ord timestamp { cfg with Client := client }).map
        fun e => (e.requests, e.cycle.data)) =
      ((EmitMetrics lib fl ord timestamp cfg).map fun e => (e.requests, e.cycle.data)) ∧
    ∀ e, EmitMetrics lib fl ord timestamp cfg = some e →
      e.requests = (chunks20 e.cycle.data).map (requestOf cfg) := by
  constructor
  · have he : each lib fl ord { cfg with Client := client } timestamp =
        each lib fl ord cfg timestamp := by
      funext s name i
      cases i <;> rfl
    simp only [EmitMetrics, metricsData, he, CycleState.init]
    cases Registry.Each (each lib fl ord cfg timestamp)
      { data := [], tally := ⟨0, 0, 0, 0, 0, 0, 0, 0, 0, 0⟩,
        previous := cfg.PreviousCounterValues, asked := [] } cfg.Registry with
    | none => rfl
    | some p =>
      simp only [Option.map_some', send_eq_sendFrom, sendFrom_sent, CycleResult.mk1]
      rfl
  · intro e he
    cases hr : metricsData lib fl ord timestamp cfg with
    | none => simp only [EmitMetrics, hr] at he; cases he
    | some r =>
      simp only [EmitMetrics, hr, Option.some.injEq] at he
      rw [← he]
      simp only [send_eq_sendFrom, sendFrom_sent, List.nil_append]

theorem EmitMetrics_requests_fixed_witness :
    ∃ e, EmitMetrics zeroLib exactOps inOrder 0 cfgThirtyCounters = some e ∧
      e.requests = (chunks20 e.cycle.data).map (requestOf cfgThirtyCounters) ∧
      ((EmitMetrics zeroLib exactOps inOrder 0
          { cfgThirtyCounters with Client := failFirstClient }).map
          fun e => (e.requests, e.cycle.data)) = some (e.requests, e.cycle.data) := by
  obtain ⟨r, h⟩ := metricsData_isSome zeroLib exactOps inOrder 0 cfgThirtyCounters (by decide)
  have he := EmitMetrics_eq zeroLib exactOps inOrder 0 cfgThirtyCounters r h
  obtain ⟨h1, h2⟩ :=
    EmitMetrics_requests_fixed zeroLib exactOps inOrder 0 cfgThirtyCounters failFirstClient
  refine ⟨_, he, h2 _ he, ?_⟩
  rw [h1, he]
  rfl

/-! ## The visit of one entry within a cycle -/

/-- A run of `metricsData` that returns, cut at one entry: the states before and after the
visit of the entry, the registry and the data that the run leaves. -/
theorem metricsData_visit {F : Type} (lib : MetricsLib F) (fl : Float64Ops F)
    (ord : RangeOrder F) (timestamp : Nat) (cfg : Config F) (r : CycleResult F)
    (pre post : List (String × Metric F)) (name : String) (i : Metric F)
    (hreg : cfg.Registry = pre ++ (name, i) :: post)
    (hr : metricsData lib fl ord timestamp cfg = some r) :
    ∃ s pre1 s1 i1 sf post1,
      Registry.Each (each lib fl ord cfg timestamp) (CycleState.init cfg) pre = some (s, pre1) ∧
      each lib fl ord cfg timestamp s name i = some (s1, i1) ∧
      Registry.Each (each lib fl ord cfg timestamp) s1 post = some (sf, post1) ∧
      r = CycleResult.mk1 cfg sf (pre1 ++ (name, i1) :: post1) ∧
      pre1.map Prod.fst = pre.map Prod.fst ∧ post1.map Prod.fst = post.map Prod.fst ∧
      (∃ d a, r.data = s1.data ++ d ∧ r.asked = s1.asked ++ a) ∧
      (cfg.PreviousCounterValues = none → s.previous = none) := by
  obtain ⟨s, pre1, s1, i1, sf, post1, h1, h2, h3, h4⟩ :=
    metricsData_split lib fl ord timestamp cfg r pre post name i hreg hr
  refine ⟨s, pre1, s1, i1, sf, post1, h1, h2, h3, h4, Each_names _ _ _ _ _ h1,
    Each_names _ _ _ _ _ h3, ?_, ?_⟩
  · obtain ⟨d, a, hd, ha⟩ := Each_extends lib fl ord cfg timestamp post post1 s1 sf h3
    exact ⟨d, a, by rw [h4]; exact hd, by rw [h4]; exact ha⟩
  · intro hnil
    exact Each_previous_nil lib fl ord cfg timestamp pre pre1 _ s h1 hnil

/-! ## Counters -/

/-- C4: with no previous-values table, a counter with count `c` that the cycle visits in
state `s` is left with count 0 whether or not the filter approves; the visit asks the
filter about `(name, float64(c))` once and appends exactly one data point (named `name`,
value `float64(c)`, unit `Count`) when the filter approves and nothing otherwise; the cycle
leaves the counter at 0 in the registry and returns the data up to the visit, then that
point (if any), then the data of the later entries. -/
theorem counter_cleared_without_table {F : Type} (lib : MetricsLib F) (fl : Float64Ops F)
    (ord : RangeOrder F) (timestamp : Nat) (cfg : Config F) (r : CycleResult F)
    (pre post : List (String × Metric F)) (name : String) (c : Int)
    (hnil : cfg.PreviousCounterValues = none)
    (hreg : cfg.Registry = pre ++ (name, .Counter c) :: post)
    (hr : metricsData lib fl ord timestamp cfg = some r) :
    ∃ s pre1 s1 sf post1,
      Registry.Each (each lib fl ord cfg timestamp) (CycleState.init cfg) pre = some (s, pre1) ∧
      each lib fl ord cfg timestamp s name (.Counter c) = some (s1, .Counter 0) ∧
      Registry.Each (each lib fl ord cfg timestamp) s1 post = some (sf, post1) ∧
      s1.data = s.data ++
        (if cfg.Filter.ShouldReport name (fl.ofInt64 c)
         then [{ MetricName := name, Timestamp := timestamp, Dimensions := dimensions cfg,
                 Unit := some StandardUnitCount, Value := some (fl.ofInt64 c) }]
         else []) ∧
      s1.asked = s.asked ++ [FilterCall.ShouldReport name (fl.ofInt64 c)] ∧
      s1.tally.counters = s.tally.counters + 1 ∧
      r = CycleResult.mk1 cfg sf (pre1 ++ (name, .Counter 0) :: post1) ∧
      r.cfg.Registry = pre1 ++ (name, .Counter 0) :: post1 ∧
      pre1.map Prod.fst = pre.map Prod.fst ∧ post1.map Prod.fst = post.map Prod.fst ∧
      r.cfg.PreviousCounterValues = none ∧
      ∃ later, r.data = s1.data ++ later := by
  obtain ⟨s, pre1, s1, i1, sf, post1, h1, h2, h3, h4, h5, h6, ⟨d, a, hd, -⟩, h8⟩ :=
    metricsData_visit lib fl ord timestamp cfg r pre post name (.Counter c) hreg hr
  have hs := h8 hnil
  have h2' := h2
  rw [each_Counter_nil lib fl ord cfg timestamp s name c hs] at h2
  simp only [Option.some.injEq, Prod.mk.injEq] at h2
  obtain ⟨rfl, rfl⟩ := h2
  refine ⟨s, pre1, _, sf, post1, h1, h2', h3, rfl, rfl, ?_, h4, by rw [h4]; rfl, h5, h6, ?_,
    d, hd⟩
  · by_cases hb : cfg.Filter.ShouldReport name (fl.ofInt64 c) = true <;>
      simp [hb, Tally.outN, Tally.out, Tally.seen]
  · rw [h4]
    exact Each_previous_nil lib fl ord cfg timestamp post post1 _ sf h3 rfl

theorem counter_cleared_without_table_witness :
    ∃ r e, metricsData zeroLib exactOps inOrder 0 cfgOneCounter = some r ∧
      r.cfg.Registry = [("counter", Metric.Counter 0)] ∧
      r.data.length = 1 ∧
      (r.data.map fun d => (d.MetricName, d.Value, d.Unit)) =
        [("counter", some 1, some "Count")] ∧
      EmitMetrics zeroLib exactOps inOrder 0 cfgOneCounter = some e ∧
      (e.requests.map fun q => q.MetricData.length) = [1] := by
  have hr : metricsData zeroLib exactOps inOrder 0 cfgOneCounter =
      some (CycleResult.mk1 cfgOneCounter
        { data := [datumOf cfgOneCounter 0 (some StandardUnitCount) "counter" 1],
          tally := ⟨1, 0, 0, 0, 0, 1, 0, 0, 0, 0⟩, previous := none,
          asked := [FilterCall.ShouldReport "counter" 1] }
        [("counter", Metric.Counter 0)]) := by
    simp [metricsData, cfgOneCounter, testConfig, Registry.Each, CycleState.init,
      each_Counter_nil, NoFilter, NoFilter.ShouldReport, exactOps, Tally.outN, Tally.out,
      Tally.seen]
  obtain ⟨s, pre1, s1, sf, post1, -, -, -, -, -, -, -, hreg, hpre, hpost, -, -⟩ :=
    counter_cleared_without_table zeroLib exactOps inOrder 0 cfgOneCounter _ [] []
      "counter" 1 rfl rfl hr
  have hp1 : pre1 = [] := List.map_eq_nil_iff.mp hpre
  have hp2 : post1 = [] := List.map_eq_nil_iff.mp hpost
  rw [hp1, hp2] at hreg
  refine ⟨_, _, hr, hreg, rfl, ?_, EmitMetrics_eq _ _ _ _ _ _ hr, ?_⟩
  · simp [CycleResult.mk1, datumOf, StandardUnitCount]
  · simp only [send_eq_sendFrom, sendFrom_sent, List.nil_append, CycleResult.mk1]
    rw [chunks20_short _ (by simp) (by simp)]
    rfl

theorem wrap64_of_isInt64 (x : Int) (h : isInt64 x) : wrap64 x = x := by
  unfold isInt64 at h
  unfold wrap64
  norm_num at h ⊢
  omega

/-- C5: with a previous-values table, a counter with count `c` whose name is stored with
`p` (0 when absent) keeps the count `c`; the visit offers `float64(c - p)` (the `int64`
difference, which is `c - p` whenever that fits in `int64`) to the filter and appends one
point with that value and unit `Count` iff the filter approves; whether or not it approves
the visit stores `c` under the name and leaves every other entry of the table alone; after
the cycle the table maps the name to `c`, and names that no counter of the registry bears
read as before the cycle. -/
theorem counter_diffed_with_table {F : Type} (lib : MetricsLib F) (fl : Float64Ops F)
    (ord : RangeOrder F) (timestamp : Nat) (cfg : Config F) (r : CycleResult F)
    (pre post : List (String × Metric F)) (name : String) (c : Int)
    (previous : String → Option Int)
    (htab : cfg.PreviousCounterValues = some previous)
    (hreg : cfg.Registry = pre ++ (name, .Counter c) :: post)
    (hnodup : (cfg.Registry.map Prod.fst).Nodup)
    (hr : metricsData lib fl ord timestamp cfg = some r) :
    ∃ s pre1 s1 sf post1 before after,
      Registry.Each (each lib fl ord cfg timestamp) (CycleState.init cfg) pre = some (s, pre1) ∧
      s.previous = some before ∧ before name = previous name ∧
      each lib fl ord cfg timestamp s name (.Counter c) = some (s1, .Counter c) ∧
      Registry.Each (each lib fl ord cfg timestamp) s1 post = some (sf, post1) ∧
      s1.data = s.data ++
        (if cfg.Filter.ShouldReport name (fl.ofInt64 (sub64 c ((previous name).getD 0)))
         then [{ MetricName := name, Timestamp := timestamp, Dimensions := dimensions cfg,
                 Unit := some StandardUnitCount,
                 Value := some (fl.ofInt64 (sub64 c ((previous name).getD 0))) }]
         else []) ∧
      s1.asked = s.asked ++
        [FilterCall.ShouldReport name (fl.ofInt64 (sub64 c ((previous name).getD 0)))] ∧
      (isInt64 (c - (previous name).getD 0) →
        sub64 c ((previous name).getD 0) = c - (previous name).getD 0) ∧
      s1.previous = some (Function.update before name (some c)) ∧
      (∀ n, n ≠ name → Function.update before name (some c) n = before n) ∧
      r = CycleResult.mk1 cfg sf (pre1 ++ (name, .Counter c) :: post1) ∧
      r.cfg.Registry = pre1 ++ (name, .Counter c) :: post1 ∧
      pre1.map Prod.fst = pre.map Prod.fst ∧ post1.map Prod.fst = post.map Prod.fst ∧
      r.cfg.PreviousCounterValues = some after ∧ after name = some c ∧
      (∀ n, (∀ k, (n, Metric.Counter k) ∉ cfg.Registry) → after n = previous n) ∧
      ∃ later, r.data = s1.data ++ later := by
  obtain ⟨s, pre1, s1, i1, sf, post1, h1, h2, h3, h4, h5, h6, ⟨d, a, hd, -⟩, -⟩ :=
    metricsData_visit lib fl ord timestamp cfg r pre post name (.Counter c) hreg hr
  rw [hreg, List.map_append, List.map_cons, List.nodup_append] at hnodup
  obtain ⟨-, hnd2, hdisj⟩ := hnodup
  have hpre : ∀ k, (name, Metric.Counter k) ∉ pre := fun k hk =>
    hdisj (List.mem_map_of_mem Prod.fst hk) (List.mem_cons_self _ _)
  have hpost : ∀ k, (name, Metric.Counter k) ∉ post := fun k hk =>
    (List.nodup_cons.mp hnd2).1 (List.mem_map.mpr ⟨_, hk, rfl⟩)
  obtain ⟨before, hb, hbefore⟩ := Each_previous_table lib fl ord cfg timestamp pre pre1 _ s
    previous h1 htab
  have hbn : before name = previous name := hbefore name hpre
  have h2' := h2
  rw [each_Counter_table lib fl ord cfg timestamp s name c before hb] at h2
  simp only [Option.some.injEq, Prod.mk.injEq] at h2
  obtain ⟨rfl, rfl⟩ := h2
  obtain ⟨after, ha, hafter⟩ := Each_previous_table lib fl ord cfg timestamp post post1 _ sf
    (Function.update before name (some c)) h3 rfl
  refine ⟨s, pre1, _, sf, post1, before, after, h1, hb, hbn, h2', h3, by rw [← hbn]; rfl,
    by rw [← hbn], fun hi => wrap64_of_isInt64 _ hi, rfl,
    fun n hn => Function.update_noteq hn _ _, h4, by rw [h4]; rfl, h5, h6,
    by rw [h4]; exact ha, ?_, ?_, d, hd⟩
  · rw [hafter name hpost, Function.update_same]
  · intro n hn
    have hn1 : ∀ k, (n, Metric.Counter k) ∉ pre := fun k hk =>
      hn k (by rw [hreg]; exact List.mem_append_left _ hk)
    have hn2 : ∀ k, (n, Metric.Counter k) ∉ post := fun k hk =>
      hn k (by rw [hreg]; exact List.mem_append_right _ (List.mem_cons_of_mem _ hk))
    have hne : n ≠ name := fun he =>
      hn c (by rw [hreg, he]; exact List.mem_append_right _ (List.mem_cons_self _ _))
    rw [hafter n hn2, Function.update_noteq hne, hbefore n hn1]

theorem counter_diffed_with_table_witness :
    ∃ r1 r2, metricsData zeroLib exactOps inOrder 0 cfgSnapshotFirst = some r1 ∧
      r1.cfg.Registry = [("counter", Metric.Counter 2)] ∧
      (r1.data.map fun d => (d.MetricName, d.Value, d.Unit)) =
        [("counter", some 2, some "Count")] ∧
      (∃ after, r1.cfg.PreviousCounterValues = some after ∧ after "counter" = some 2) ∧
      metricsData zeroLib exactOps inOrder 0 cfgSnapshotSecond = some r2 ∧
      r2.cfg.Registry = [("counter", Metric.Counter 3)] ∧
      (r2.data.map fun d => (d.MetricName, d.Value, d.Unit)) =
        [("counter", some 1, some "Count")] ∧
      (∃ after, r2.cfg.PreviousCounterValues = some after ∧ after "counter" = some 3) ∧
      r1.data.length + r2.data.length = 2 := by
  obtain ⟨r1, h1⟩ := metricsData_isSome zeroLib exactOps inOrder 0 cfgSnapshotFirst (by decide)
  obtain ⟨r2, h2⟩ := metricsData_isSome zeroLib exactOps inOrder 0 cfgSnapshotSecond (by decide)
  obtain ⟨s, pre1, s1, sf, post1, before, after, he, hb, -, -, hp, hd, -, -, -, -, hmk, hreg,
      hpre, hpost, hafter, hname, -, -⟩ :=
    counter_diffed_with_table zeroLib exactOps inOrder 0 cfgSnapshotFirst r1 [] [] "counter" 2
      emptyTable rfl rfl (by decide) h1
  obtain ⟨s', pre1', s1', sf', post1', before', after', he', hb', -, -, hp', hd', -, -, -, -,
      hmk', hreg', hpre', hpost', hafter', hname', -, -⟩ :=
    counter_diffed_with_table zeroLib exactOps inOrder 0 cfgSnapshotSecond r2 [] [] "counter" 3
      (Function.update emptyTable "counter" (some 2)) rfl rfl (by decide) h2
  have e1 : pre1 = [] := List.map_eq_nil_iff.mp hpre
  have e2 : post1 = [] := List.map_eq_nil_iff.mp hpost
  have e3 : pre1' = [] := List.map_eq_nil_iff.mp hpre'
  have e4 : post1' = [] := List.map_eq_nil_iff.mp hpost'
  subst e1 e2 e3 e4
  simp only [Registry.Each, Option.some.injEq, Prod.mk.injEq, and_true] at he hp he' hp'
  subst he hp he' hp'
  have v1 : sub64 2 ((emptyTable "counter").getD 0) = 2 := by decide
  have v2 : sub64 3 ((Function.update emptyTable "counter" (some 2) "counter").getD 0) = 1 := by
    decide
  rw [v1] at hd
  rw [v2] at hd'
  have d1 : r1.data = [datumOf cfgSnapshotFirst 0 (some StandardUnitCount) "counter" 2] := by
    rw [hmk]
    show s1.data = _
    rw [hd]
    simp [CycleState.init, cfgSnapshotFirst, testConfig, NoFilter, NoFilter.ShouldReport,
      exactOps, datumOf]
  have d2 : r2.data = [datumOf cfgSnapshotSecond 0 (some StandardUnitCount) "counter" 1] := by
    rw [hmk']
    show s1'.data = _
    rw [hd']
    simp [CycleState.init, cfgSnapshotSecond, testConfig, NoFilter, NoFilter.ShouldReport,
      exactOps, datumOf]
  refine ⟨r1, r2, h1, hreg, ?_, ⟨after, hafter, hname⟩, h2, hreg', ?_, ⟨after', hafter', hname'⟩,
    ?_⟩
  · rw [d1]; simp [datumOf, StandardUnitCount]
  · rw [d2]; simp [datumOf, StandardUnitCount]
  · rw [d1, d2]; rfl

/-! ## The reject-all filter -/

theorem approved_of_reject {F : Type} (cfg : Config F)
    (hrej : ∀ n v, cfg.Filter.ShouldReport n v = false) (l : List (String × F × F)) :
    approved cfg l = [] := by
  unfold approved
  rw [List.filter_eq_nil_iff]
  intro o _
  simp [hrej]

/-- Under a filter that approves nothing the callback leaves `data` as it is. -/
theorem each_data_of_reject {F : Type} (lib : MetricsLib F) (fl : Float64Ops F)
    (ord : RangeOrder F) (cfg : Config F) (timestamp : Nat) (s s1 : CycleState F)
    (name : String) (i i1 : Metric F) (hrej : ∀ n v, cfg.Filter.ShouldReport n v = false)
    (h : each lib fl ord cfg timestamp s name i = some (s1, i1)) : s1.data = s.data := by
  cases i with
  | Counter c =>
    cases hp : s.previous with
    | none =>
      rw [each_Counter_nil lib fl ord cfg timestamp s name c hp] at h
      cases h; simp [hrej]
    | some previous =>
      rw [each_Counter_table lib fl ord cfg timestamp s name c previous hp] at h
      cases h; simp [hrej]
  | GaugeCounter c => rw [each_GaugeCounter] at h; cases h; simp [afterGauge, hrej]
  | Gauge v => rw [each_Gauge] at h; cases h; simp [afterGauge, hrej]
  | GaugeFloat64 v => rw [each_GaugeFloat64] at h; cases h; simp [afterGauge, hrej]
  | Histogram hs =>
    rw [each_Histogram] at h; cases h
    simp [afterOffers, approved_of_reject cfg hrej]
  | Meter m =>
    rw [each_Meter] at h; cases h
    simp [approved_of_reject cfg hrej]
  | Timer t =>
    by_cases h0 : t.Count = 0
    · rw [each_Timer_zero lib fl ord cfg timestamp s name t h0] at h
      cases h; rfl
    · cases hf : timerFields fl cfg name t with
      | none => rw [each_Timer_panic lib fl ord cfg timestamp s name t h0 hf] at h; cases h
      | some fields =>
        rw [each_Timer lib fl ord cfg timestamp s name t h0 fields hf] at h
        cases h
        simp [afterOffers, approved_of_reject cfg hrej]
  | Other => simp only [each, Option.some.injEq, Prod.mk.injEq] at h; rw [← h.1]

theorem Each_data_of_reject {F : Type} (lib : MetricsLib F) (fl : Float64Ops F)
    (ord : RangeOrder F) (cfg : Config F) (timestamp : Nat) (reg reg1 : List (String × Metric F))
    (s sf : CycleState F) (hrej : ∀ n v, cfg.Filter.ShouldReport n v = false)
    (h : Registry.Each (each lib fl ord cfg timestamp) s reg = some (sf, reg1)) :
    sf.data = s.data := by
  induction reg generalizing s reg1 with
  | nil =>
    simp only [Registry.Each, Option.some.injEq, Prod.mk.injEq] at h
    rw [← h.1]
  | cons e reg ih =>
    obtain ⟨name, i⟩ := e
    obtain ⟨s1, i1, post1, hf, hE, -⟩ := (Each_cons _ name i reg s sf reg1).mp h
    rw [ih post1 s1 hE, each_data_of_reject lib fl ord cfg timestamp s s1 name i i1 hrej hf]

/-- C6: under `AllFilter`, for every registry (any mix of metrics, any values), every run of
`metricsData` that returns has an empty data sequence, and `EmitMetrics` then returns a nil
error after zero publish calls; the run does return whenever the duration unit is not 0. -/
theorem AllFilter_publishes_nothing {F : Type} (lib : MetricsLib F) (fl : Float64Ops F)
    (ord : RangeOrder F) (timestamp : Nat) (cfg : Config F) (hall : cfg.Filter = AllFilter) :
    (cfg.DurationUnit ≠ 0 → ∃ r, metricsData lib fl ord timestamp cfg = some r) ∧
    ∀ r, metricsData lib fl ord timestamp cfg = some r →
      r.data = [] ∧
      EmitMetrics lib fl ord timestamp cfg = some { err := none, requests := [], cycle := r } := by
  refine ⟨metricsData_isSome lib fl ord timestamp cfg, fun r hr => ?_⟩
  have hrej : ∀ n v, cfg.Filter.ShouldReport n v = false := by
    intro n v; rw [hall]; rfl
  have hd : r.data = [] := by
    unfold metricsData at hr
    cases hE : Registry.Each (each lib fl ord cfg timestamp) (CycleState.init cfg)
        cfg.Registry with
    | none => rw [hE] at hr; cases hr
    | some q =>
      obtain ⟨sf, reg1⟩ := q
      rw [hE] at hr
      simp only [Option.some.injEq] at hr
      rw [← hr]
      exact Each_data_of_reject lib fl ord cfg timestamp _ _ _ sf hrej hE
  refine ⟨hd, ?_⟩
  rw [EmitMetrics_eq lib fl ord timestamp cfg r hr, hd]
  simp only [send_eq_sendFrom, sendFrom_sent, sendFrom_err, chunks20_nil]
  rfl

theorem AllFilter_publishes_nothing_witness :
    ∃ r, metricsData zeroLib exactOps inOrder 0 cfgFiltered = some r ∧ r.data = [] ∧
      EmitMetrics zeroLib exactOps inOrder 0 cfgFiltered =
        some { err := none, requests := [], cycle := r } := by
  obtain ⟨htotal, hall⟩ :=
    AllFilter_publishes_nothing zeroLib exactOps inOrder 0 cfgFiltered rfl
  obtain ⟨r, hr⟩ := htotal (by decide)
  exact ⟨r, hr, (hall r hr).1, (hall r hr).2⟩

/-! ## Timers without recorded events -/

/-- C7: a timer whose snapshot count is 0 is counted as seen and cleared, and nothing else
happens at its visit, under every filter and every duration unit: no data point is
appended, and neither `ShouldReport` nor `Percentiles` is called. -/
theorem idle_timer_skipped {F : Type} (lib : MetricsLib F) (fl : Float64Ops F)
    (ord : RangeOrder F) (timestamp : Nat) (cfg : Config F) (r : CycleResult F)
    (pre post : List (String × Metric F)) (name : String) (t : TimerSnapshot F)
    (hzero : t.Count = 0)
    (hreg : cfg.Registry = pre ++ (name, .Timer t) :: post)
    (hr : metricsData lib fl ord timestamp cfg = some r) :
    ∃ s pre1 s1 sf post1,
      Registry.Each (each lib fl ord cfg timestamp) (CycleState.init cfg) pre = some (s, pre1) ∧
      each lib fl ord cfg timestamp s name (.Timer t) = some (s1, .Timer lib.emptyTimer) ∧
      Registry.Each (each lib fl ord cfg timestamp) s1 post = some (sf, post1) ∧
      s1.data = s.data ∧ s1.asked = s.asked ∧ s1.previous = s.previous ∧
      s1.tally = { s.tally with timers := s.tally.timers + 1 } ∧
      lib.emptyTimer.Count = 0 ∧
      r = CycleResult.mk1 cfg sf (pre1 ++ (name, .Timer lib.emptyTimer) :: post1) ∧
      r.cfg.Registry = pre1 ++ (name, .Timer lib.emptyTimer) :: post1 ∧
      pre1.map Prod.fst = pre.map Prod.fst ∧ post1.map Prod.fst = post.map Prod.fst := by
  obtain ⟨s, pre1, s1, i1, sf, post1, h1, h2, h3, h4, h5, h6, -, -⟩ :=
    metricsData_visit lib fl ord timestamp cfg r pre post name (.Timer t) hreg hr
  have h2' := h2
  rw [each_Timer_zero lib fl ord cfg timestamp s name t hzero] at h2
  simp only [Option.some.injEq, Prod.mk.injEq] at h2
  obtain ⟨rfl, rfl⟩ := h2
  exact ⟨s, pre1, _, sf, post1, h1, h2', h3, rfl, rfl, rfl, rfl, lib.emptyTimer_count, h4,
    by rw [h4]; rfl, h5, h6⟩

theorem idle_timer_skipped_witness :
    ∃ r, metricsData zeroLib exactOps inOrder 0 cfgIdleTimer = some r ∧
      r.data = [] ∧ r.asked = [] ∧ r.tally.timers = 1 ∧
      r.cfg.Registry = [("timer", Metric.Timer zeroLib.emptyTimer)] := by
  have hr : metricsData zeroLib exactOps inOrder 0 cfgIdleTimer =
      some (CycleResult.mk1 cfgIdleTimer
        { CycleState.init cfgIdleTimer with tally := ⟨0, 0, 0, 0, 1, 0, 0, 0, 0, 0⟩ }
        [("timer", Metric.Timer zeroLib.emptyTimer)]) := by
    rfl
  obtain ⟨s, pre1, s1, sf, post1, he, -, hp, hd, ha, -, ht, -, hmk, hreg, hpre, hpost⟩ :=
    idle_timer_skipped zeroLib exactOps inOrder 0 cfgIdleTimer _ [] [] "timer" idleTimer rfl
      rfl hr
  have e1 : pre1 = [] := List.map_eq_nil_iff.mp hpre
  have e2 : post1 = [] := List.map_eq_nil_iff.mp hpost
  rw [e1, e2] at hreg
  exact ⟨_, hr, rfl, rfl, rfl, hreg⟩

/-! ## Histograms and timers -/

theorem Tally.outN_seen (t : Tally) (kind : Kind) (k : Nat) :
    (Tally.outN t kind k).counters = t.counters ∧ (Tally.outN t kind k).gauges = t.gauges ∧
    (Tally.outN t kind k).histos = t.histos ∧ (Tally.outN t kind k).meters = t.meters ∧
    (Tally.outN t kind k).timers = t.timers := by
  induction k with
  | zero => exact ⟨rfl, rfl, rfl, rfl, rfl⟩
  | succ k ih =>
    obtain ⟨h1, h2, h3, h4, h5⟩ := ih
    cases kind <;> exact ⟨h1, h2, h3, h4, h5⟩

theorem afterOffers_data {F : Type} (fl : Float64Ops F) (cfg : Config F) (timestamp : Nat)
    (kind : Kind) (s : CycleState F) (name : String) (l : List (String × F))
    (percentile conv : F → F) :
    (afterOffers cfg timestamp kind s name (fieldOffers l)
        (percentileOffers fl cfg percentile conv name)).data =
      s.data ++
        (l.filter fun nv => cfg.Filter.ShouldReport nv.1 nv.2).map (fun nv =>
          ({ MetricName := nv.1, Timestamp := timestamp, Dimensions := dimensions cfg,
             Unit := none, Value := some nv.2 } : MetricDatum F)) ++
        ((cfg.Filter.Percentiles name).filter fun p =>
            cfg.Filter.ShouldReport (name ++ "-perc" ++ fl.fmt3 p) (percentile p)).map (fun p =>
          ({ MetricName := name ++ "-perc" ++ fl.fmt3 p, Timestamp := timestamp,
             Dimensions := dimensions cfg, Unit := none,
             Value := some (conv (percentile p)) } : MetricDatum F)) := by
  simp only [afterOffers, approved, fieldOffers, percentileOffers, List.filter_map,
    List.map_map, List.append_assoc]
  rfl

theorem afterOffers_asked {F : Type} (fl : Float64Ops F) (cfg : Config F) (timestamp : Nat)
    (kind : Kind) (s : CycleState F) (name : String) (l : List (String × F))
    (percentile conv : F → F) :
    (afterOffers cfg timestamp kind s name (fieldOffers l)
        (percentileOffers fl cfg percentile conv name)).asked =
      s.asked ++ (l.map fun nv => FilterCall.ShouldReport nv.1 nv.2) ++
        [FilterCall.Percentiles name] ++
        ((cfg.Filter.Percentiles name).map fun p =>
          FilterCall.ShouldReport (name ++ "-perc" ++ fl.fmt3 p) (percentile p)) := by
  simp only [afterOffers, fieldOffers, percentileOffers, List.map_map, List.append_assoc,
    List.singleton_append]
  rfl

/-- C8: a histogram (with or without recorded events) is cleared by its visit; the filter is
asked about exactly the five fixed points `.count`, `.min`, `.max`, `.mean`, `.std-dev` with
the values of the snapshot (in the order in which the map is ranged over), then for the
percentiles of the name, then about one point `-perc<p to 3 decimals>` with value
`Percentile(p)` for each of them; the points appended are exactly the offered ones that
`ShouldReport` approves, each on its own, in that order, and none carries a unit; under
`NoFilter` these are exactly 11 points. -/
theorem histogram_offers {F : Type} (lib : MetricsLib F) (fl : Float64Ops F)
    (ord : RangeOrder F) (timestamp : Nat) (cfg : Config F) (r : CycleResult F)
    (pre post : List (String × Metric F)) (name : String) (h : HistogramSnapshot F)
    (hreg : cfg.Registry = pre ++ (name, .Histogram h) :: post)
    (hr : metricsData lib fl ord timestamp cfg = some r) :
    ∃ s pre1 s1 sf post1, ∃ fields : List (String × F),
      Registry.Each (each lib fl ord cfg timestamp) (CycleState.init cfg) pre = some (s, pre1) ∧
      each lib fl ord cfg timestamp s name (.Histogram h) =
        some (s1, .Histogram lib.emptyHistogram) ∧
      Registry.Each (each lib fl ord cfg timestamp) s1 post = some (sf, post1) ∧
      fields.Perm
        [(name ++ ".count", fl.ofInt64 h.Count), (name ++ ".min", fl.ofInt64 h.Min),
         (name ++ ".max", fl.ofInt64 h.Max), (name ++ ".mean", h.Mean),
         (name ++ ".std-dev", h.StdDev)] ∧
      s1.asked = s.asked ++ (fields.map fun nv => FilterCall.ShouldReport nv.1 nv.2) ++
        [FilterCall.Percentiles name] ++
        ((cfg.Filter.Percentiles name).map fun p =>
          FilterCall.ShouldReport (name ++ "-perc" ++ fl.fmt3 p) (h.Percentile p)) ∧
      s1.data = s.data ++
        (fields.filter fun nv => cfg.Filter.ShouldReport nv.1 nv.2).map (fun nv =>
          ({ MetricName := nv.1, Timestamp := timestamp, Dimensions := dimensions cfg,
             Unit := none, Value := some nv.2 } : MetricDatum F)) ++
        ((cfg.Filter.Percentiles name).filter fun p =>
            cfg.Filter.ShouldReport (name ++ "-perc" ++ fl.fmt3 p) (h.Percentile p)).map (fun p =>
          ({ MetricName := name ++ "-perc" ++ fl.fmt3 p, Timestamp := timestamp,
             Dimensions := dimensions cfg, Unit := none,
             Value := some (h.Percentile p) } : MetricDatum F)) ∧
      (∀ d ∈ s1.data.drop s.data.length, d.Unit = none) ∧
      (cfg.Filter = NoFilter fl → s1.data.length = s.data.length + 11) ∧
      s1.previous = s.previous ∧ s1.tally.histos = s.tally.histos + 1 ∧
      lib.emptyHistogram.Count = 0 ∧
      r = CycleResult.mk1 cfg sf (pre1 ++ (name, .Histogram lib.emptyHistogram) :: post1) ∧
      r.cfg.Registry = pre1 ++ (name, .Histogram lib.emptyHistogram) :: post1 ∧
      pre1.map Prod.fst = pre.map Prod.fst ∧ post1.map Prod.fst = post.map Prod.fst := by
  obtain ⟨s, pre1, s1, i1, sf, post1, h1, h2, h3, h4, h5, h6, -, -⟩ :=
    metricsData_visit lib fl ord timestamp cfg r pre post name (.Histogram h) hreg hr
  have h2' := h2
  rw [each_Histogram lib fl ord cfg timestamp s name h] at h2
  simp only [Option.some.injEq, Prod.mk.injEq] at h2
  obtain ⟨rfl, rfl⟩ := h2
  have hdata := afterOffers_data fl cfg timestamp .histos s name
    (ord.fields (histogramFields fl name h)) h.Percentile id
  have hperm := ord.perm (histogramFields fl name h)
  refine ⟨s, pre1, _, sf, post1, ord.fields (histogramFields fl name h), h1, h2', h3,
    hperm, afterOffers_asked fl cfg timestamp .histos s name _ h.Percentile id,
    hdata, ?_, ?_, rfl, ?_, lib.emptyHistogram_count, h4, by rw [h4]; rfl, h5, h6⟩
  · intro d hd
    rw [hdata, List.append_assoc, List.drop_left] at hd
    rcases List.mem_append.mp hd with hd | hd
    · obtain ⟨nv, -, rfl⟩ := List.mem_map.mp hd; rfl
    · obtain ⟨p, -, rfl⟩ := List.mem_map.mp hd; rfl
  · intro hno
    rw [hdata, hno]
    have hl : (ord.fields (histogramFields fl name h)).length = 5 := by
      rw [hperm.length_eq]; rfl
    simp [NoFilter, NoFilter.ShouldReport, NoFilter.Percentiles, hl]
  · show (Tally.outN (Tally.outN (s.tally.seen .histos) .histos _) .histos _).histos = _
    rw [(Tally.outN_seen _ _ _).2.2.1, (Tally.outN_seen _ _ _).2.2.1]
    rfl

theorem histogram_offers_witness :
    ∃ r, metricsData zeroLib exactOps inOrder 0 cfgHistogram = some r ∧
      r.data.length = 11 ∧
      r.cfg.Registry = [("histo", Metric.Histogram zeroLib.emptyHistogram)] ∧
      (r.data.take 5).map (fun d => (d.MetricName, d.Value, d.Unit)) =
        [("histo.count", some 2, none), ("histo.min", some 500, none),
         ("histo.max", some 1000, none), ("histo.mean", some 750, none),
         ("histo.std-dev", some 250, none)] := by
  obtain ⟨r, hr⟩ := metricsData_isSome zeroLib exactOps inOrder 0 cfgHistogram (by decide)
  obtain ⟨s, pre1, s1, sf, post1, fields, he, hv, hp, -, -, hd, -, hn, -, -, -, hmk, hreg, hpre,
      hpost⟩ :=
    histogram_offers zeroLib exactOps inOrder 0 cfgHistogram r [] [] "histo" twoSampleHistogram
      rfl hr
  have e1 : pre1 = [] := List.map_eq_nil_iff.mp hpre
  have e2 : post1 = [] := List.map_eq_nil_iff.mp hpost
  subst e1 e2
  simp only [Registry.Each, Option.some.injEq, Prod.mk.injEq, and_true] at he hp
  subst he hp
  have hdata : r.data = s1.data := by rw [hmk]; rfl
  have hfirst : (metricsData zeroLib exactOps inOrder 0 cfgHistogram).map
      (fun r => (r.data.take 5).map fun d => (d.MetricName, d.Value, d.Unit)) =
      some [("histo.count", some 2, none), ("histo.min", some 500, none),
         ("histo.max", some 1000, none), ("histo.mean", some 750, none),
         ("histo.std-dev", some 250, none)] := by
    rfl
  rw [hr] at hfirst
  refine ⟨r, hr, ?_, hreg, ?_⟩
  · rw [hdata, hn rfl]; rfl
  · simpa using hfirst

theorem isInt64_tdiv (a u : Int) (ha : isInt64 a) (hu : 0 < u) : isInt64 (Int.tdiv a u) := by
  unfold isInt64 at ha ⊢
  norm_num at ha ⊢
  rcases le_or_lt 0 a with h0 | h0
  · rw [Int.tdiv_eq_ediv h0 (le_of_lt hu)]
    have h1 : 0 ≤ a / u := Int.ediv_nonneg h0 (le_of_lt hu)
    have h2 : a / u ≤ a := Int.ediv_le_self u h0
    omega
  · have hb : 0 ≤ -a := by omega
    have e : Int.tdiv a u = -((-a) / u) := by
      rw [← Int.tdiv_eq_ediv hb (le_of_lt hu), Int.neg_tdiv, neg_neg]
    rw [e]
    have h1 : 0 ≤ (-a) / u := Int.ediv_nonneg hb (le_of_lt hu)
    have h2 : (-a) / u ≤ -a := Int.ediv_le_self u hb
    omega

theorem timerFields_eq {F : Type} (fl : Float64Ops F) (cfg : Config F) (name : String)
    (t : TimerSnapshot F) (hu : 0 < cfg.DurationUnit) (hmin : isInt64 t.Min)
    (hmax : isInt64 t.Max) :
    timerFields fl cfg name t =
      some [(name ++ ".count", fl.ofInt64 t.Count),
            (name ++ ".rate-mean", t.RateMean),
            (name ++ ".one-minute", t.Rate1),
            (name ++ ".five-minute", t.Rate5),
            (name ++ ".fifteen-minute", t.Rate15),
            (name ++ ".min", fl.ofInt64 (Int.tdiv t.Min cfg.DurationUnit)),
            (name ++ ".max", fl.ofInt64 (Int.tdiv t.Max cfg.DurationUnit)),
            (name ++ ".mean", fl.div t.Mean (fl.ofInt64 cfg.DurationUnit)),
            (name ++ ".std-dev", fl.div t.StdDev (fl.ofInt64 cfg.DurationUnit))] := by
  have hne : cfg.DurationUnit ≠ 0 := by omega
  simp only [timerFields, div64, if_neg hne,
    wrap64_of_isInt64 _ (isInt64_tdiv _ _ hmin hu), wrap64_of_isInt64 _ (isInt64_tdiv _ _ hmax hu)]

/-- C9: a timer with recorded events, under a duration unit `u > 0` (its minimum and maximum
being `int64` values), is cleared by its visit; the filter is asked about exactly the nine
fixed points: `.count` with the count, `.rate-mean`, `.one-minute`, `.five-minute` and
`.fifteen-minute` with the rates of the snapshot as they are, `.min` and `.max` with
`Min / u` and `Max / u` in truncating integer division, `.mean` and `.std-dev` with
`Mean / u` and `StdDev / u` in floating division; every percentile point that is appended
carries `Percentile(p) / u`; when the filter accepts everything the visit appends
`9 + len(Percentiles(name))` points, 15 under `NoFilter`. -/
theorem timer_offers {F : Type} (lib : MetricsLib F) (fl : Float64Ops F)
    (ord : RangeOrder F) (timestamp : Nat) (cfg : Config F) (r : CycleResult F)
    (pre post : List (String × Metric F)) (name : String) (t : TimerSnapshot F)
    (hcount : t.Count ≠ 0) (hu : 0 < cfg.DurationUnit)
    (hmin : isInt64 t.Min) (hmax : isInt64 t.Max)
    (hreg : cfg.Registry = pre ++ (name, .Timer t) :: post)
    (hr : metricsData lib fl ord timestamp cfg = some r) :
    ∃ s pre1 s1 sf post1, ∃ fields : List (String × F),
      Registry.Each (each lib fl ord cfg timestamp) (CycleState.init cfg) pre = some (s, pre1) ∧
      each lib fl ord cfg timestamp s name (.Timer t) = some (s1, .Timer lib.emptyTimer) ∧
      Registry.Each (each lib fl ord cfg timestamp) s1 post = some (sf, post1) ∧
      fields.Perm
        [(name ++ ".count", fl.ofInt64 t.Count),
         (name ++ ".rate-mean", t.RateMean),
         (name ++ ".one-minute", t.Rate1),
         (name ++ ".five-minute", t.Rate5),
         (name ++ ".fifteen-minute", t.Rate15),
         (name ++ ".min", fl.ofInt64 (Int.tdiv t.Min cfg.DurationUnit)),
         (name ++ ".max", fl.ofInt64 (Int.tdiv t.Max cfg.DurationUnit)),
         (name ++ ".mean", fl.div t.Mean (fl.ofInt64 cfg.DurationUnit)),
         (name ++ ".std-dev", fl.div t.StdDev (fl.ofInt64 cfg.DurationUnit))] ∧
      s1.asked = s.asked ++ (fields.map fun nv => FilterCall.ShouldReport nv.1 nv.2) ++
        [FilterCall.Percentiles name] ++
        ((cfg.Filter.Percentiles name).map fun p =>
          FilterCall.ShouldReport (name ++ "-perc" ++ fl.fmt3 p) (t.Percentile p)) ∧
      s1.data = s.data ++
        (fields.filter fun nv => cfg.Filter.ShouldReport nv.1 nv.2).map (fun nv =>
          ({ MetricName := nv.1, Timestamp := timestamp, Dimensions := dimensions cfg,
             Unit := none, Value := some nv.2 } : MetricDatum F)) ++
        ((cfg.Filter.Percentiles name).filter fun p =>
            cfg.Filter.ShouldReport (name ++ "-perc" ++ fl.fmt3 p) (t.Percentile p)).map (fun p =>
          ({ MetricName := name ++ "-perc" ++ fl.fmt3 p, Timestamp := timestamp,
             Dimensions := dimensions cfg, Unit := none,
             Value := some (fl.div (t.Percentile p) (fl.ofInt64 cfg.DurationUnit)) } :
            MetricDatum F)) ∧
      ((∀ n v, cfg.Filter.ShouldReport n v = true) →
        s1.data.length = s.data.length + (9 + (cfg.Filter.Percentiles name).length)) ∧
      (cfg.Filter = NoFilter fl → s1.data.length = s.data.length + 15) ∧
      s1.previous = s.previous ∧ s1.tally.timers = s.tally.timers + 1 ∧
      r = CycleResult.mk1 cfg sf (pre1 ++ (name, .Timer lib.emptyTimer) :: post1) ∧
      r.cfg.Registry = pre1 ++ (name, .Timer lib.emptyTimer) :: post1 ∧
      pre1.map Prod.fst = pre.map Prod.fst ∧ post1.map Prod.fst = post.map Prod.fst := by
  obtain ⟨s, pre1, s1, i1, sf, post1, h1, h2, h3, h4, h5, h6, -, -⟩ :=
    metricsData_visit lib fl ord timestamp cfg r pre post name (.Timer t) hreg hr
  have h2' := h2
  have hf := timerFields_eq fl cfg name t hu hmin hmax
  rw [each_Timer lib fl ord cfg timestamp s name t hcount _ hf] at h2
  simp only [Option.some.injEq, Prod.mk.injEq] at h2
  obtain ⟨rfl, rfl⟩ := h2
  have hdata := afterOffers_data fl cfg timestamp .timers s name
    (ord.fields [(name ++ ".count", fl.ofInt64 t.Count),
            (name ++ ".rate-mean", t.RateMean),
            (name ++ ".one-minute", t.Rate1),
            (name ++ ".five-minute", t.Rate5),
            (name ++ ".fifteen-minute", t.Rate15),
            (name ++ ".min", fl.ofInt64 (Int.tdiv t.Min cfg.DurationUnit)),
            (name ++ ".max", fl.ofInt64 (Int.tdiv t.Max cfg.DurationUnit)),
            (name ++ ".mean", fl.div t.Mean (fl.ofInt64 cfg.DurationUnit)),
            (name ++ ".std-dev", fl.div t.StdDev (fl.ofInt64 cfg.DurationUnit))])
    t.Percentile (fun pvalue => fl.div pvalue (fl.ofInt64 cfg.DurationUnit))
  have hperm := ord.perm [(name ++ ".count", fl.ofInt64 t.Count),
            (name ++ ".rate-mean", t.RateMean),
            (name ++ ".one-minute", t.Rate1),
            (name ++ ".five-minute", t.Rate5),
            (name ++ ".fifteen-minute", t.Rate15),
            (name ++ ".min", fl.ofInt64 (Int.tdiv t.Min cfg.DurationUnit)),
            (name ++ ".max", fl.ofInt64 (Int.tdiv t.Max cfg.DurationUnit)),
            (name ++ ".mean", fl.div t.Mean (fl.ofInt64 cfg.DurationUnit)),
            (name ++ ".std-dev", fl.div t.StdDev (fl.ofInt64 cfg.DurationUnit))]
  have hl := hperm.length_eq
  simp only [List.length_cons, List.length_nil] at hl
  refine ⟨s, pre1, _, sf, post1, _, h1, h2', h3, hperm,
    afterOffers_asked fl cfg timestamp .timers s name _ t.Percentile _,
    hdata, ?_, ?_, rfl, ?_, h4, by rw [h4]; rfl, h5, h6⟩
  · intro hall
    rw [hdata]
    simp [hall, hl]
  · intro hno
    rw [hdata, hno]
    simp [NoFilter, NoFilter.ShouldReport, NoFilter.Percentiles, hl]
  · show (Tally.outN (Tally.outN (s.tally.seen .timers) .timers _) .timers _).timers = _
    rw [(Tally.outN_seen _ _ _).2.2.2.2, (Tally.outN_seen _ _ _).2.2.2.2]
    rfl

theorem timer_offers_witness :
    ∃ r, metricsData zeroLib exactOps inOrder 0 cfgTimer = some r ∧
      r.data.length = 15 ∧
      r.cfg.Registry = [("timer", Metric.Timer zeroLib.emptyTimer)] ∧
      (r.data.take 9).map (fun d => (d.MetricName, d.Value)) =
        [("timer.count", some 1), ("timer.rate-mean", some 0), ("timer.one-minute", some 0),
         ("timer.five-minute", some 0), ("timer.fifteen-minute", some 0),
         ("timer.min", some 10000), ("timer.max", some 10000), ("timer.mean", some 10000),
         ("timer.std-dev", some 0)] := by
  obtain ⟨r, hr⟩ := metricsData_isSome zeroLib exactOps inOrder 0 cfgTimer (by decide)
  obtain ⟨s, pre1, s1, sf, post1, fields, he, hv, hp, -, -, hd, -, hn, -, -, hmk, hreg, hpre,
      hpost⟩ :=
    timer_offers zeroLib exactOps inOrder 0 cfgTimer r [] [] "timer" tenSecondTimer
      (by decide) (by decide) (by decide) (by decide) rfl hr
  have e1 : pre1 = [] := List.map_eq_nil_iff.mp hpre
  have e2 : post1 = [] := List.map_eq_nil_iff.mp hpost
  subst e1 e2
  simp only [Registry.Each, Option.some.injEq, Prod.mk.injEq, and_true] at he hp
  subst he hp
  have hdata : r.data = s1.data := by rw [hmk]; rfl
  have hfirst : (metricsData zeroLib exactOps inOrder 0 cfgTimer).map
      (fun r => (r.data.take 9).map fun d => (d.MetricName, d.Value)) =
      some [("timer.count", some ((1 : Int) : ℚ)), ("timer.rate-mean", some 0),
         ("timer.one-minute", some 0), ("timer.five-minute", some 0),
         ("timer.fifteen-minute", some 0),
         ("timer.min", some ((10000 : Int) : ℚ)), ("timer.max", some ((10000 : Int) : ℚ)),
         ("timer.mean", some ((10000000000 : ℚ) / ((1000000 : Int) : ℚ))),
         ("timer.std-dev", some ((0 : ℚ) / ((1000000 : Int) : ℚ)))] := by
    rfl
  rw [hr] at hfirst
  refine ⟨r, hr, ?_, hreg, ?_⟩
  · rw [hdata, hn rfl]; rfl
  · simp only [Option.map_some', Option.some.injEq] at hfirst
    rw [hfirst]
    norm_num

/-! ## Gauges -/

/-- C10: a gauge counter, a gauge or a float gauge that reads `v` (negative values included;
`float64(v)` for the two integer kinds) is left as it is by its visit; the visit asks the
filter about `(name, v)` once and appends exactly one data point, named `name`, with value
`v` and unit `Count`, when the filter approves, and nothing otherwise. -/
theorem gauge_read_only {F : Type} (lib : MetricsLib F) (fl : Float64Ops F)
    (ord : RangeOrder F) (timestamp : Nat) (cfg : Config F) (r : CycleResult F)
    (pre post : List (String × Metric F)) (name : String) (i : Metric F) (v : F)
    (hkind : (∃ c, i = .GaugeCounter c ∧ v = fl.ofInt64 c) ∨
      (∃ c, i = .Gauge c ∧ v = fl.ofInt64 c) ∨ i = .GaugeFloat64 v)
    (hreg : cfg.Registry = pre ++ (name, i) :: post)
    (hr : metricsData lib fl ord timestamp cfg = some r) :
    ∃ s pre1 s1 sf post1,
      Registry.Each (each lib fl ord cfg timestamp) (CycleState.init cfg) pre = some (s, pre1) ∧
      each lib fl ord cfg timestamp s name i = some (s1, i) ∧
      Registry.Each (each lib fl ord cfg timestamp) s1 post = some (sf, post1) ∧
      s1.data = s.data ++
        (if cfg.Filter.ShouldReport name v
         then [{ MetricName := name, Timestamp := timestamp, Dimensions := dimensions cfg,
                 Unit := some StandardUnitCount, Value := some v }]
         else []) ∧
      s1.asked = s.asked ++ [FilterCall.ShouldReport name v] ∧
      s1.previous = s.previous ∧
      r = CycleResult.mk1 cfg sf (pre1 ++ (name, i) :: post1) ∧
      r.cfg.Registry = pre1 ++ (name, i) :: post1 ∧
      pre1.map Prod.fst = pre.map Prod.fst ∧ post1.map Prod.fst = post.map Prod.fst ∧
      ∃ later, r.data = s1.data ++ later := by
  obtain ⟨s, pre1, s1, i1, sf, post1, h1, h2, h3, h4, h5, h6, ⟨d, a, hd, -⟩, -⟩ :=
    metricsData_visit lib fl ord timestamp cfg r pre post name i hreg hr
  have h2' := h2
  have key : ∃ kind, each lib fl ord cfg timestamp s name i =
      some (afterGauge cfg timestamp kind s name v, i) := by
    rcases hkind with ⟨c, rfl, rfl⟩ | ⟨c, rfl, rfl⟩ | rfl
    · exact ⟨_, each_GaugeCounter lib fl ord cfg timestamp s name c⟩
    · exact ⟨_, each_Gauge lib fl ord cfg timestamp s name c⟩
    · exact ⟨_, each_GaugeFloat64 lib fl ord cfg timestamp s name v⟩
  obtain ⟨kind, hk⟩ := key
  rw [hk] at h2
  simp only [Option.some.injEq, Prod.mk.injEq] at h2
  obtain ⟨rfl, rfl⟩ := h2
  exact ⟨s, pre1, _, sf, post1, h1, h2', h3, rfl, rfl, rfl, h4, by rw [h4]; rfl, h5, h6, d, hd⟩

theorem gauge_read_only_witness :
    ∃ r, metricsData zeroLib exactOps inOrder 0 cfgGaugeCounter = some r ∧
      r.cfg.Registry = [("gauge-counter", Metric.GaugeCounter (-1))] ∧
      (r.data.map fun d => (d.MetricName, d.Value, d.Unit)) =
        [("gauge-counter", some (-1), some "Count")] := by
  obtain ⟨r, hr⟩ := metricsData_isSome zeroLib exactOps inOrder 0 cfgGaugeCounter (by decide)
  obtain ⟨s, pre1, s1, sf, post1, he, -, hp, hd, -, -, hmk, hreg, hpre, hpost, -⟩ :=
    gauge_read_only zeroLib exactOps inOrder 0 cfgGaugeCounter r [] [] "gauge-counter"
      (Metric.GaugeCounter (-1)) (exactOps.ofInt64 (-1)) (Or.inl ⟨-1, rfl, rfl⟩) rfl hr
  have e1 : pre1 = [] := List.map_eq_nil_iff.mp hpre
  have e2 : post1 = [] := List.map_eq_nil_iff.mp hpost
  subst e1 e2
  simp only [Registry.Each, Option.some.injEq, Prod.mk.injEq, and_true] at he hp
  subst he hp
  have hdata : r.data = s1.data := by rw [hmk]; rfl
  refine ⟨r, hr, hreg, ?_⟩
  rw [hdata, hd]
  simp [CycleState.init, cfgGaugeCounter, testConfig, NoFilter, NoFilter.ShouldReport,
    exactOps, StandardUnitCount]

/-! ## The keys of the field maps are distinct -/

theorem append_left_cancel (name a b : String) (h : name ++ a = name ++ b) : a = b := by
  have h1 := congrArg String.data h
  simp only [String.data_append] at h1
  exact String.ext (List.append_cancel_left h1)

theorem histogramFields_keys {F : Type} (fl : Float64Ops F) (name : String)
    (h : HistogramSnapshot F) : ((histogramFields fl name h).map Prod.fst).Nodup := by
  simp only [histogramFields, List.map_cons, List.map_nil, List.nodup_cons, List.mem_cons,
    List.mem_singleton, List.not_mem_nil, not_or, not_false_eq_true, List.nodup_nil, and_true]
  refine ⟨⟨?_, ?_, ?_, ?_⟩, ⟨?_, ?_, ?_⟩, ⟨?_, ?_⟩, ?_⟩ <;>
    exact fun he => absurd (append_left_cancel _ _ _ he) (by decide)

theorem meterFields_keys {F : Type} (fl : Float64Ops F) (name : String)
    (m : MeterSnapshot F) : ((meterFields fl name m).map Prod.fst).Nodup := by
  simp only [meterFields, List.map_cons, List.map_nil, List.nodup_cons, List.mem_cons,
    List.mem_singleton, List.not_mem_nil, not_or, not_false_eq_true, List.nodup_nil, and_true]
  refine ⟨⟨?_, ?_, ?_, ?_⟩, ⟨?_, ?_, ?_⟩, ⟨?_, ?_⟩, ?_⟩ <;>
    exact fun he => absurd (append_left_cancel _ _ _ he) (by decide)

theorem timerFields_keys {F : Type} (fl : Float64Ops F) (cfg : Config F) (name : String)
    (t : TimerSnapshot F) (fields : List (String × F))
    (hf : timerFields fl cfg name t = some fields) : (fields.map Prod.fst).Nodup := by
  unfold timerFields at hf
  split at hf
  · simp only [Option.some.injEq] at hf
    rw [← hf]
    simp only [List.map_cons, List.map_nil, List.nodup_cons, List.mem_cons,
      List.mem_singleton, List.not_mem_nil, not_or, not_false_eq_true, List.nodup_nil, and_true]
    refine ⟨⟨?_, ?_, ?_, ?_, ?_, ?_, ?_, ?_⟩, ⟨?_, ?_, ?_, ?_, ?_, ?_, ?_⟩,
      ⟨?_, ?_, ?_, ?_, ?_, ?_⟩, ⟨?_, ?_, ?_, ?_, ?_⟩, ⟨?_, ?_, ?_, ?_⟩, ⟨?_, ?_, ?_⟩,
      ⟨?_, ?_⟩, ?_⟩ <;>
      exact fun he => absurd (append_left_cancel _ _ _ he) (by decide)
  · cases hf

/-! ## Meters -/

/-- C11: a meter is read through a snapshot and left as it is by its visit; the filter is
asked about exactly the five points `.count`, `.one-minute`, `.five-minute`,
`.fifteen-minute` and `.mean` (the mean rate), in the order in which the map is ranged
over, and about nothing else (`Percentiles` is not called); the points appended are
exactly the offered ones that `ShouldReport` approves, each on its own, so no percentile
point is produced. -/
theorem meter_offers {F : Type} (lib : MetricsLib F) (fl : Float64Ops F)
    (ord : RangeOrder F) (timestamp : Nat) (cfg : Config F) (r : CycleResult F)
    (pre post : List (String × Metric F)) (name : String) (m : MeterSnapshot F)
    (hreg : cfg.Registry = pre ++ (name, .Meter m) :: post)
    (hr : metricsData lib fl ord timestamp cfg = some r) :
    ∃ s pre1 s1 sf post1, ∃ fields : List (String × F),
      Registry.Each (each lib fl ord cfg timestamp) (CycleState.init cfg) pre = some (s, pre1) ∧
      each lib fl ord cfg timestamp s name (.Meter m) = some (s1, .Meter m) ∧
      Registry.Each (each lib fl ord cfg timestamp) s1 post = some (sf, post1) ∧
      fields.Perm
        [(name ++ ".count", fl.ofInt64 m.Count), (name ++ ".one-minute", m.Rate1),
         (name ++ ".five-minute", m.Rate5), (name ++ ".fifteen-minute", m.Rate15),
         (name ++ ".mean", m.RateMean)] ∧
      s1.asked = s.asked ++ (fields.map fun nv => FilterCall.ShouldReport nv.1 nv.2) ∧
      s1.data = s.data ++
        (fields.filter fun nv => cfg.Filter.ShouldReport nv.1 nv.2).map (fun nv =>
          ({ MetricName := nv.1, Timestamp := timestamp, Dimensions := dimensions cfg,
             Unit := none, Value := some nv.2 } : MetricDatum F)) ∧
      (∀ d ∈ s1.data.drop s.data.length,
        d.MetricName ∈ [name ++ ".count", name ++ ".one-minute", name ++ ".five-minute",
          name ++ ".fifteen-minute", name ++ ".mean"]) ∧
      s1.previous = s.previous ∧ s1.tally.meters = s.tally.meters + 1 ∧
      r = CycleResult.mk1 cfg sf (pre1 ++ (name, .Meter m) :: post1) ∧
      r.cfg.Registry = pre1 ++ (name, .Meter m) :: post1 ∧
      pre1.map Prod.fst = pre.map Prod.fst ∧ post1.map Prod.fst = post.map Prod.fst := by
  obtain ⟨s, pre1, s1, i1, sf, post1, h1, h2, h3, h4, h5, h6, -, -⟩ :=
    metricsData_visit lib fl ord timestamp cfg r pre post name (.Meter m) hreg hr
  have h2' := h2
  rw [each_Meter lib fl ord cfg timestamp s name m] at h2
  simp only [Option.some.injEq, Prod.mk.injEq] at h2
  obtain ⟨rfl, rfl⟩ := h2
  have hperm := ord.perm (meterFields fl name m)
  have hdata : (approved cfg (fieldOffers (ord.fields (meterFields fl name m)))).map
      (fun o => datumOf cfg timestamp none o.1 o.2.2) =
      ((ord.fields (meterFields fl name m)).filter
        fun nv => cfg.Filter.ShouldReport nv.1 nv.2).map (fun nv =>
          ({ MetricName := nv.1, Timestamp := timestamp, Dimensions := dimensions cfg,
             Unit := none, Value := some nv.2 } : MetricDatum F)) := by
    simp only [approved, fieldOffers, List.filter_map, List.map_map]
    rfl
  refine ⟨s, pre1, _, sf, post1, ord.fields (meterFields fl name m), h1, h2', h3, hperm, ?_,
    by rw [← hdata], ?_, rfl, ?_, h4, by rw [h4]; rfl, h5, h6⟩
  · simp only [fieldOffers, List.map_map]
    rfl
  · intro d hd
    simp only [hdata, List.drop_left] at hd
    obtain ⟨nv, hnv, rfl⟩ := List.mem_map.mp hd
    have hmem := hperm.subset (List.mem_of_mem_filter hnv)
    simp only [meterFields, List.mem_cons, List.mem_singleton, List.not_mem_nil, or_false] at hmem
    rcases hmem with rfl | rfl | rfl | rfl | rfl <;> simp
  · show (Tally.outN (s.tally.seen .meters) .meters _).meters = _
    rw [(Tally.outN_seen _ _ _).2.2.2.1]
    rfl

theorem meter_offers_witness :
    ∃ r, metricsData zeroLib exactOps inOrder 0 cfgMeter = some r ∧
      r.cfg.Registry = [("meter", Metric.Meter threeEventMeter)] ∧
      r.data.map (fun d => (d.MetricName, d.Value, d.Unit)) =
        [("meter.count", some 3, none), ("meter.one-minute", some (1 / 2), none),
         ("meter.five-minute", some (1 / 4), none), ("meter.fifteen-minute", some (1 / 8), none),
         ("meter.mean", some (3 / 10), none)] := by
  obtain ⟨r, hr⟩ := metricsData_isSome zeroLib exactOps inOrder 0 cfgMeter (by decide)
  obtain ⟨s, pre1, s1, sf, post1, fields, he, hv, hp, -, -, -, -, -, -, hmk, hreg, hpre,
      hpost⟩ :=
    meter_offers zeroLib exactOps inOrder 0 cfgMeter r [] [] "meter" threeEventMeter rfl hr
  have e1 : pre1 = [] := List.map_eq_nil_iff.mp hpre
  have e2 : post1 = [] := List.map_eq_nil_iff.mp hpost
  subst e1 e2
  have hall : (metricsData zeroLib exactOps inOrder 0 cfgMeter).map
      (fun r => r.data.map fun d => (d.MetricName, d.Value, d.Unit)) =
      some [("meter.count", some ((3 : Int) : ℚ), none),
        ("meter.one-minute", some (1 / 2), none),
        ("meter.five-minute", some (1 / 4), none), ("meter.fifteen-minute", some (1 / 8), none),
        ("meter.mean", some (3 / 10), none)] := by
    rfl
  rw [hr] at hall
  refine ⟨r, hr, hreg, ?_⟩
  simp only [Option.map_some', Option.some.injEq] at hall
  rw [hall]
  norm_num

/-! ## What every data point of a cycle carries -/

theorem Accounted.mono {F : Type} (fl : Float64Ops F) (cfg : Config F) (timestamp : Nat)
    (a b : List (FilterCall F)) (x : MetricDatum F) (h : Accounted fl cfg timestamp a x) :
    Accounted fl cfg timestamp (a ++ b) x := by
  obtain ⟨h1, h2, v, hv, hv2, hv3⟩ := h
  exact ⟨h1, h2, v, List.mem_append_left _ hv, hv2, hv3⟩

/-- The points that a list of offers appends are accounted for by the calls of the offers;
`hval` says how the stored value comes from the value shown to the filter. -/
theorem accounted_of_offers {F : Type} (fl : Float64Ops F) (cfg : Config F) (timestamp : Nat)
    (unit : Option String) (l : List (String × F × F)) (a b : List (FilterCall F))
    (hval : ∀ o ∈ l, o.2.2 = o.2.1 ∨ o.2.2 = fl.div o.2.1 (fl.ofInt64 cfg.DurationUnit))
    (x : MetricDatum F)
    (hx : x ∈ (approved cfg l).map (fun o => datumOf cfg timestamp unit o.1 o.2.2)) :
    Accounted fl cfg timestamp
      (a ++ (l.map (fun o => FilterCall.ShouldReport o.1 o.2.1) ++ b)) x := by
  obtain ⟨o, ho, rfl⟩ := List.mem_map.mp hx
  have hol : o ∈ l := List.mem_of_mem_filter ho
  have hap : cfg.Filter.ShouldReport o.1 o.2.1 = true := by
    have := List.of_mem_filter ho
    simpa using this
  refine ⟨rfl, rfl, o.2.1, ?_, hap, ?_⟩
  · exact List.mem_append_right _ (List.mem_append_left _
      (List.mem_map.mpr ⟨o, hol, rfl⟩))
  · rcases hval o hol with h | h
    · left; show some o.2.2 = some o.2.1; rw [h]
    · right; show some o.2.2 = _; rw [h]

theorem accounted_single {F : Type} (fl : Float64Ops F) (cfg : Config F) (timestamp : Nat)
    (unit : Option String) (a : List (FilterCall F)) (name : String) (v : F)
    (x : MetricDatum F)
    (hx : x ∈ (if cfg.Filter.ShouldReport name v then [datumOf cfg timestamp unit name v]
      else [])) :
    Accounted fl cfg timestamp (a ++ [FilterCall.ShouldReport name v]) x := by
  by_cases hb : cfg.Filter.ShouldReport name v = true
  · simp only [hb, if_true, List.mem_singleton] at hx
    subst hx
    exact ⟨rfl, rfl, v, List.mem_append_right _ (List.mem_singleton.mpr rfl), hb, Or.inl rfl⟩
  · simp [hb] at hx

/-- The callback keeps every data point accounted for. -/
theorem each_accounted {F : Type} (lib : MetricsLib F) (fl : Float64Ops F) (ord : RangeOrder F)
    (cfg : Config F) (timestamp : Nat) (s s1 : CycleState F) (name : String) (i i1 : Metric F)
    (h : each lib fl ord cfg timestamp s name i = some (s1, i1))
    (hs : ∀ x ∈ s.data, Accounted fl cfg timestamp s.asked x) :
    ∀ x ∈ s1.data, Accounted fl cfg timestamp s1.asked x := by
  have hfield : ∀ l : List (String × F), ∀ o ∈ fieldOffers l,
      o.2.2 = o.2.1 ∨ o.2.2 = fl.div o.2.1 (fl.ofInt64 cfg.DurationUnit) := by
    intro l o ho
    simp only [fieldOffers, List.mem_map] at ho
    obtain ⟨nv, -, rfl⟩ := ho
    exact Or.inl rfl
  cases i with
  | Counter c =>
    cases hp : s.previous with
    | none =>
      rw [each_Counter_nil lib fl ord cfg timestamp s name c hp] at h
      cases h
      intro x hx
      rcases List.mem_append.mp hx with hx | hx
      · exact (hs x hx).mono fl cfg timestamp _ _ x
      · exact accounted_single fl cfg timestamp _ _ name _ x hx
    | some previous =>
      rw [each_Counter_table lib fl ord cfg timestamp s name c previous hp] at h
      cases h
      intro x hx
      rcases List.mem_append.mp hx with hx | hx
      · exact (hs x hx).mono fl cfg timestamp _ _ x
      · exact accounted_single fl cfg timestamp _ _ name _ x hx
  | GaugeCounter c =>
    rw [each_GaugeCounter] at h; cases h
    intro x hx
    rcases List.mem_append.mp hx with hx | hx
    · exact (hs x hx).mono fl cfg timestamp _ _ x
    · exact accounted_single fl cfg timestamp _ _ name _ x hx
  | Gauge v =>
    rw [each_Gauge] at h; cases h
    intro x hx
    rcases List.mem_append.mp hx with hx | hx
    · exact (hs x hx).mono fl cfg timestamp _ _ x
    · exact accounted_single fl cfg timestamp _ _ name _ x hx
  | GaugeFloat64 v =>
    rw [each_GaugeFloat64] at h; cases h
    intro x hx
    rcases List.mem_append.mp hx with hx | hx
    · exact (hs x hx).mono fl cfg timestamp _ _ x
    · exact accounted_single fl cfg timestamp _ _ name _ x hx
  | Histogram hs0 =>
    rw [each_Histogram] at h; cases h
    intro x hx
    rcases List.mem_append.mp hx with hx | hx
    · exact (hs x hx).mono fl cfg timestamp _ _ x
    · rcases List.mem_append.mp hx with hx | hx
      · exact accounted_of_offers fl cfg timestamp none _ _ _ (hfield _) x hx
      · have := accounted_of_offers fl cfg timestamp none
          (percentileOffers fl cfg hs0.Percentile id name)
          (s.asked ++ ((fieldOffers (ord.fields (histogramFields fl name hs0))).map
            (fun o => FilterCall.ShouldReport o.1 o.2.1) ++ [FilterCall.Percentiles name])) []
          (by
            intro o ho
            simp only [percentileOffers, List.mem_map] at ho
            obtain ⟨p, -, rfl⟩ := ho
            exact Or.inl rfl) x hx
        simpa [afterOffers, List.append_assoc] using this
  | Meter m =>
    rw [each_Meter] at h; cases h
    intro x hx
    rcases List.mem_append.mp hx with hx | hx
    · exact (hs x hx).mono fl cfg timestamp _ _ x
    · have := accounted_of_offers fl cfg timestamp none _ s.asked [] (hfield _) x hx
      simpa using this
  | Timer t =>
    by_cases h0 : t.Count = 0
    · rw [each_Timer_zero lib fl ord cfg timestamp s name t h0] at h
      cases h; exact hs
    · cases hf : timerFields fl cfg name t with
      | none => rw [each_Timer_panic lib fl ord cfg timestamp s name t h0 hf] at h; cases h
      | some fields =>
        rw [each_Timer lib fl ord cfg timestamp s name t h0 fields hf] at h
        cases h
        intro x hx
        rcases List.mem_append.mp hx with hx | hx
        · exact (hs x hx).mono fl cfg timestamp _ _ x
        · rcases List.mem_append.mp hx with hx | hx
          · exact accounted_of_offers fl cfg timestamp none _ _ _ (hfield _) x hx
          · have := accounted_of_offers fl cfg timestamp none
              (percentileOffers fl cfg t.Percentile
                (fun pvalue => fl.div pvalue (fl.ofInt64 cfg.DurationUnit)) name)
              (s.asked ++ ((fieldOffers (ord.fields fields)).map
                (fun o => FilterCall.ShouldReport o.1 o.2.1) ++ [FilterCall.Percentiles name]))
              []
              (by
                intro o ho
                simp only [percentileOffers, List.mem_map] at ho
                obtain ⟨p, -, rfl⟩ := ho
                exact Or.inr rfl) x hx
            simpa [afterOffers, List.append_assoc] using this
  | Other =>
    simp only [each, Option.some.injEq, Prod.mk.injEq] at h
    rw [← h.1]; exact hs

theorem Each_accounted {F : Type} (lib : MetricsLib F) (fl : Float64Ops F) (ord : RangeOrder F)
    (cfg : Config F) (timestamp : Nat) (reg reg1 : List (String × Metric F))
    (s sf : CycleState F)
    (h : Registry.Each (each lib fl ord cfg timestamp) s reg = some (sf, reg1))
    (hs : ∀ x ∈ s.data, Accounted fl cfg timestamp s.asked x) :
    ∀ x ∈ sf.data, Accounted fl cfg timestamp sf.asked x := by
  induction reg generalizing s reg1 with
  | nil =>
    simp only [Registry.Each, Option.some.injEq, Prod.mk.injEq] at h
    rw [← h.1]; exact hs
  | cons e reg ih =>
    obtain ⟨name, i⟩ := e
    obtain ⟨s1, i1, post1, hf, hE, -⟩ := (Each_cons _ name i reg s sf reg1).mp h
    exact ih post1 s1 hE (each_accounted lib fl ord cfg timestamp s s1 name i i1 hf hs)

/-- Every data point that `metricsData` returns is accounted for by the filter calls of the
run. -/
theorem metricsData_accounted {F : Type} (lib : MetricsLib F) (fl : Float64Ops F)
    (ord : RangeOrder F) (timestamp : Nat) (cfg : Config F) (r : CycleResult F)
    (hr : metricsData lib fl ord timestamp cfg = some r) :
    ∀ x ∈ r.data, Accounted fl cfg timestamp r.asked x := by
  unfold metricsData at hr
  cases hE : Registry.Each (each lib fl ord cfg timestamp) (CycleState.init cfg)
      cfg.Registry with
  | none => rw [hE] at hr; cases hr
  | some q =>
    obtain ⟨sf, reg1⟩ := q
    rw [hE] at hr
    simp only [Option.some.injEq] at hr
    rw [← hr]
    exact Each_accounted lib fl ord cfg timestamp _ _ _ sf hE (fun x hx => by cases hx)

/-- C12: every data point that a cycle returns carries the timestamp of the cycle and the
static dimensions of the configuration: its dimensions are those built from
`StaticDimensions`, their names are exactly the keys (each key once when the keys are
distinct, as in a Go map), every dimension holds the value configured for its key and
there is no other dimension; so any two points of a cycle have the same dimensions and the
same timestamp. -/
theorem data_points_stamped {F : Type} (lib : MetricsLib F) (fl : Float64Ops F)
    (ord : RangeOrder F) (timestamp : Nat) (cfg : Config F) (r : CycleResult F)
    (hr : metricsData lib fl ord timestamp cfg = some r) :
    (∀ d ∈ r.data,
      d.Timestamp = timestamp ∧
      d.Dimensions = dimensions cfg ∧
      d.Dimensions.map Dimension.Name = Multiset.ofList (cfg.StaticDimensions.map Prod.fst) ∧
      Multiset.card d.Dimensions = cfg.StaticDimensions.length ∧
      (∀ dim, dim ∈ d.Dimensions ↔ (dim.Name, dim.Value) ∈ cfg.StaticDimensions) ∧
      ((cfg.StaticDimensions.map Prod.fst).Nodup →
        (d.Dimensions.map Dimension.Name).Nodup ∧
        ∀ k v, (k, v) ∈ cfg.StaticDimensions →
          d.Dimensions.filter (fun dim => dim.Name = k) = {{ Name := k, Value := v }})) ∧
    ∀ d ∈ r.data, ∀ d1 ∈ r.data,
      d.Dimensions = d1.Dimensions ∧ d.Timestamp = d1.Timestamp := by
  have hacc := metricsData_accounted lib fl ord timestamp cfg r hr
  have hmem : ∀ dim : Dimension, dim ∈ dimensions cfg ↔
      (dim.Name, dim.Value) ∈ cfg.StaticDimensions := by
    intro dim
    simp only [dimensions, Multiset.mem_coe, List.mem_map]
    constructor
    · rintro ⟨kv, hkv, rfl⟩; exact hkv
    · intro h; exact ⟨(dim.Name, dim.Value), h, rfl⟩
  have hnames : (dimensions cfg).map Dimension.Name =
      Multiset.ofList (cfg.StaticDimensions.map Prod.fst) := by
    simp only [dimensions, Multiset.map_coe, List.map_map]
    rfl
  constructor
  · intro d hd
    obtain ⟨ht, hdim, -⟩ := hacc d hd
    refine ⟨ht, hdim, by rw [hdim, hnames], ?_, by rw [hdim]; exact hmem, ?_⟩
    · rw [hdim]; simp [dimensions]
    · intro hnd
      rw [hdim, hnames]
      refine ⟨Multiset.coe_nodup.mpr hnd, fun k v hkv => ?_⟩
      have hdn : (dimensions cfg).Nodup := by
        have h1 : ((dimensions cfg).map Dimension.Name).Nodup := by
          rw [hnames]; exact Multiset.coe_nodup.mpr hnd
        exact Multiset.Nodup.of_map _ h1
      have hfn : ((dimensions cfg).filter (fun dim => dim.Name = k)).Nodup :=
        Multiset.Nodup.filter _ hdn
      refine (Multiset.Nodup.ext hfn (Multiset.nodup_singleton _)).mpr (fun dim => ?_)
      simp only [Multiset.mem_filter, Multiset.mem_singleton, hmem]
      constructor
      · rintro ⟨hin, rfl⟩
        have hv : dim.Value = v := by
          by_contra hne
          have h2 : ((dim.Name, dim.Value) : String × String) ≠ (dim.Name, v) := by
            intro he; exact hne (Prod.mk.inj he).2
          have := List.inj_on_of_nodup_map hnd hin hkv rfl
          exact h2 this
        cases dim
        simp only at hv
        rw [hv]
      · rintro rfl; exact ⟨hkv, rfl⟩
  · intro d hd d1 hd1
    obtain ⟨ht, hdim, -⟩ := hacc d hd
    obtain ⟨ht1, hdim1, -⟩ := hacc d1 hd1
    exact ⟨by rw [hdim, hdim1], by rw [ht, ht1]⟩

theorem data_points_stamped_witness :
    ∃ r, metricsData zeroLib exactOps inOrder 7 cfgTimerDimensions = some r ∧
      r.data.length = 15 ∧
      ∀ d ∈ r.data, d.Timestamp = 7 ∧
        d.Dimensions = {{ Name := "env", Value := "prod" }, { Name := "host", Value := "a" }} := by
  obtain ⟨r, hr⟩ := metricsData_isSome zeroLib exactOps inOrder 7 cfgTimerDimensions (by decide)
  have hl : (metricsData zeroLib exactOps inOrder 7 cfgTimerDimensions).map
      (fun r => r.data.length) = some 15 := by rfl
  rw [hr] at hl
  obtain ⟨hall, -⟩ := data_points_stamped zeroLib exactOps inOrder 7 cfgTimerDimensions r hr
  refine ⟨r, hr, by simpa using hl, fun d hd => ?_⟩
  obtain ⟨ht, hdim, -⟩ := hall d hd
  exact ⟨ht, by rw [hdim]; rfl⟩

/-! ## The built-in filters -/

/-- C13: for every metric name and value, `NoFilter.ShouldReport` is true and
`NoFilter.Percentiles` is the sequence of the constants 0.50, 0.75, 0.95, 0.99, 0.999 and 1
(as `float64`), constants that are strictly increasing and lie in [0, 1], so that the
returned thresholds are strictly increasing under any order that the conversion of these
constants to `float64` respects; `AllFilter.ShouldReport` is false and
`AllFilter.Percentiles` is the empty sequence. -/
theorem builtin_filters {F : Type} (fl : Float64Ops F) (metric : String) (value : F) :
    (NoFilter fl).ShouldReport metric value = true ∧
    (NoFilter fl).Percentiles metric =
      [Perc50, Perc75, Perc95, Perc99, Perc999, Perc100].map fl.lit ∧
    [Perc50, Perc75, Perc95, Perc99, Perc999, Perc100] =
      [1 / 2, 3 / 4, 95 / 100, 99 / 100, 999 / 1000, 1] ∧
    List.Pairwise (fun p q => p < q) [Perc50, Perc75, Perc95, Perc99, Perc999, Perc100] ∧
    (∀ p ∈ [Perc50, Perc75, Perc95, Perc99, Perc999, Perc100], 0 ≤ p ∧ p ≤ 1) ∧
    (∀ lt : F → F → Prop,
      (∀ p ∈ [Perc50, Perc75, Perc95, Perc99, Perc999, Perc100],
        ∀ q ∈ [Perc50, Perc75, Perc95, Perc99, Perc999, Perc100],
          p < q → lt (fl.lit p) (fl.lit q)) →
      List.Pairwise lt ((NoFilter fl).Percentiles metric)) ∧
    (AllFilter : Filter F).ShouldReport metric value = false ∧
    (AllFilter : Filter F).Percentiles metric = [] := by
  have hsorted : List.Pairwise (fun p q : ℚ => p < q)
      [Perc50, Perc75, Perc95, Perc99, Perc999, Perc100] := by
    simp only [Perc50, Perc75, Perc95, Perc99, Perc999, Perc100, List.pairwise_cons,
      List.mem_cons, List.mem_singleton, List.not_mem_nil, List.Pairwise.nil]
    norm_num
  refine ⟨rfl, rfl, ?_, hsorted, ?_, ?_, rfl, rfl⟩
  · simp only [Perc50, Perc75, Perc95, Perc99, Perc999, Perc100]
    norm_num
  · intro p hp
    simp only [Perc50, Perc75, Perc95, Perc99, Perc999, Perc100, List.mem_cons,
      List.mem_singleton, List.not_mem_nil, or_false] at hp
    rcases hp with rfl | rfl | rfl | rfl | rfl | rfl <;> norm_num
  · intro lt hlt
    show List.Pairwise lt ([Perc50, Perc75, Perc95, Perc99, Perc999, Perc100].map fl.lit)
    rw [List.pairwise_map]
    exact List.Pairwise.imp_of_mem (fun {p q} hp hq hpq => hlt p hp q hq hpq) hsorted

theorem builtin_filters_witness :
    (NoFilter exactOps).ShouldReport "timer.count" 1 = true ∧
    (NoFilter exactOps).Percentiles "timer" = [1 / 2, 3 / 4, 95 / 100, 99 / 100, 999 / 1000, 1] ∧
    List.Pairwise (fun p q : ℚ => p < q) ((NoFilter exactOps).Percentiles "timer") ∧
    (AllFilter : Filter ℚ).ShouldReport "timer.count" 1 = false ∧
    (AllFilter : Filter ℚ).Percentiles "timer" = [] := by
  obtain ⟨h1, h2, h3, -, -, h6, h7, h8⟩ := builtin_filters exactOps "timer" 1
  refine ⟨h1, ?_, h6 (fun p q => p < q) (fun p _ q _ hpq => hpq), h7, h8⟩
  rw [h2, h3]
  simp [exactOps]

/-! ## The metrics after a cycle do not depend on the client -/

theorem each_client {F : Type} (lib : MetricsLib F) (fl : Float64Ops F) (ord : RangeOrder F)
    (cfg : Config F) (client : PutMetricsClient F) (timestamp : Nat) :
    each lib fl ord { cfg with Client := client } timestamp = each lib fl ord cfg timestamp := by
  funext s name i
  cases i <;> rfl

/-- What `metricsData` leaves (data, metrics, table, tallies, filter calls) is the same
under every client. -/
theorem metricsData_client {F : Type} (lib : MetricsLib F) (fl : Float64Ops F)
    (ord : RangeOrder F) (timestamp : Nat) (cfg : Config F) (client : PutMetricsClient F) :
    (metricsData lib fl ord timestamp { cfg with Client := client }).map
        (fun r => (r.data, r.cfg.Registry, r.cfg.PreviousCounterValues, r.tally, r.asked)) =
      (metricsData lib fl ord timestamp cfg).map
        (fun r => (r.data, r.cfg.Registry, r.cfg.PreviousCounterValues, r.tally, r.asked)) := by
  simp only [metricsData, each_client, CycleState.init]
  cases Registry.Each (each lib fl ord cfg timestamp)
    { data := [], tally := ⟨0, 0, 0, 0, 0, 0, 0, 0, 0, 0⟩,
      previous := cfg.PreviousCounterValues, asked := [] } cfg.Registry with
  | none => rfl
  | some p => rfl

/-- C14: what `EmitMetrics` leaves of the metrics and of the previous-values table is what
`metricsData` left before the first publish call, and it is the same under every client,
whichever calls fail: nothing is restored after a failure; and the payloads of the publish
calls, laid end to end, are the data of the cycle, so that every data point is sent in one
call and no more (the calls carry as many points as the cycle produced). -/
theorem EmitMetrics_at_most_once {F : Type} (lib : MetricsLib F) (fl : Float64Ops F)
    (ord : RangeOrder F) (timestamp : Nat) (cfg : Config F) (client : PutMetricsClient F) :
    ((EmitMetrics lib fl ord timestamp { cfg with Client := client }).map
        fun e => (e.cycle.cfg.Registry, e.cycle.cfg.PreviousCounterValues, e.cycle.data)) =
      ((EmitMetrics lib fl ord timestamp cfg).map
        fun e => (e.cycle.cfg.Registry, e.cycle.cfg.PreviousCounterValues, e.cycle.data)) ∧
    ∀ e, EmitMetrics lib fl ord timestamp cfg = some e →
      metricsData lib fl ord timestamp cfg = some e.cycle ∧
      (e.requests.map fun q => q.MetricData).flatten = e.cycle.data ∧
      (e.requests.map fun q => q.MetricData.length).sum = e.cycle.data.length := by
  constructor
  · have h := metricsData_client lib fl ord timestamp cfg client
    simp only [EmitMetrics]
    cases h1 : metricsData lib fl ord timestamp { cfg with Client := client } with
    | none =>
      cases h2 : metricsData lib fl ord timestamp cfg with
      | none => rfl
      | some r2 => rw [h1, h2] at h; cases h
    | some r1 =>
      cases h2 : metricsData lib fl ord timestamp cfg with
      | none => rw [h1, h2] at h; cases h
      | some r2 =>
        rw [h1, h2] at h
        simp only [Option.map_some', Option.some.injEq, Prod.mk.injEq] at h ⊢
        exact ⟨h.2.1, h.2.2.1, h.1⟩
  · intro e he
    cases hr : metricsData lib fl ord timestamp cfg with
    | none => simp only [EmitMetrics, hr] at he; cases he
    | some r =>
      simp only [EmitMetrics, hr, Option.some.injEq] at he
      rw [← he]
      have hflat : (((EmitMetrics.send cfg r.data).2).map fun q => q.MetricData).flatten =
          r.data := by
        simp only [send_eq_sendFrom, sendFrom_sent, List.nil_append, List.map_map]
        have : ((fun q : PutMetricDataInput F => q.MetricData) ∘ requestOf cfg) = id := rfl
        rw [this, List.map_id, chunks20_flatten]
      refine ⟨rfl, hflat, ?_⟩
      have hlen := congrArg List.length hflat
      rw [List.length_flatten, List.map_map] at hlen
      exact hlen

theorem EmitMetrics_at_most_once_witness :
    ∃ e, EmitMetrics zeroLib exactOps inOrder 0 cfgOneCounterFailing = some e ∧
      e.err ≠ none ∧
      e.cycle.cfg.Registry = [("counter", Metric.Counter 0)] ∧
      (e.requests.map fun q => q.MetricData.length) = [1] ∧
      ((EmitMetrics zeroLib exactOps inOrder 0 cfgOneCounter).map
        fun e => (e.cycle.cfg.Registry, e.cycle.cfg.PreviousCounterValues, e.cycle.data)) =
        some (e.cycle.cfg.Registry, e.cycle.cfg.PreviousCounterValues, e.cycle.data) := by
  have hr : metricsData zeroLib exactOps inOrder 0 cfgOneCounterFailing =
      some (CycleResult.mk1 cfgOneCounterFailing
        { data := [datumOf cfgOneCounterFailing 0 (some StandardUnitCount) "counter" 1],
          tally := ⟨1, 0, 0, 0, 0, 1, 0, 0, 0, 0⟩, previous := none,
          asked := [FilterCall.ShouldReport "counter" 1] }
        [("counter", Metric.Counter 0)]) := by
    simp [metricsData, cfgOneCounterFailing, testConfig, Registry.Each, CycleState.init,
      each_Counter_nil, NoFilter, NoFilter.ShouldReport, exactOps, Tally.outN, Tally.out,
      Tally.seen]
  have he := EmitMetrics_eq zeroLib exactOps inOrder 0 cfgOneCounterFailing _ hr
  obtain ⟨h1, h2⟩ :=
    EmitMetrics_at_most_once zeroLib exactOps inOrder 0 cfgOneCounterFailing okClient
  have hsent : (EmitMetrics.send cfgOneCounterFailing
      [datumOf cfgOneCounterFailing 0 (some StandardUnitCount) "counter" 1]).2 =
      [requestOf cfgOneCounterFailing
        [datumOf cfgOneCounterFailing 0 (some StandardUnitCount) "counter" 1]] := by
    rw [send_eq_sendFrom, sendFrom_sent, chunks20_short _ (by simp) (by simp)]
    rfl
  refine ⟨_, he, ?_, rfl, ?_, ?_⟩
  · show (EmitMetrics.send cfgOneCounterFailing _).1 ≠ none
    simp only [CycleResult.mk1, send_eq_sendFrom, sendFrom_err,
      chunks20_short _ (show 0 < [datumOf cfgOneCounterFailing 0 (some StandardUnitCount)
        "counter" (1 : ℚ)].length by simp) (by simp), List.getLast?_singleton, putMetrics_err]
    simp [cfgOneCounterFailing, testConfig, failingClient]
  · show ((EmitMetrics.send cfgOneCounterFailing _).2.map fun q => q.MetricData.length) = [1]
    simp only [CycleResult.mk1, hsent]
    rfl
  · have hcfg : ({ cfgOneCounterFailing with Client := okClient } : Config ℚ) = cfgOneCounter :=
      rfl
    rw [hcfg] at h1
    rw [h1, he]
    rfl

/-! ## When the cycle fails -/

theorem timerFields_none {F : Type} (fl : Float64Ops F) (cfg : Config F) (name : String)
    (t : TimerSnapshot F) (hu : cfg.DurationUnit = 0) : timerFields fl cfg name t = none := by
  simp only [timerFields, div64, hu, if_true]

/-- The callback panics exactly on a timer with recorded events under a zero duration
unit. -/
theorem each_eq_none_iff {F : Type} (lib : MetricsLib F) (fl : Float64Ops F)
    (ord : RangeOrder F) (cfg : Config F) (timestamp : Nat) (s : CycleState F) (name : String)
    (i : Metric F) :
    each lib fl ord cfg timestamp s name i = none ↔
      cfg.DurationUnit = 0 ∧ ∃ t, i = .Timer t ∧ t.Count ≠ 0 := by
  constructor
  · intro h
    by_cases hu : cfg.DurationUnit = 0
    · refine ⟨hu, ?_⟩
      cases i with
      | Timer t =>
        refine ⟨t, rfl, fun h0 => ?_⟩
        rw [each_Timer_zero lib fl ord cfg timestamp s name t h0] at h
        cases h
      | Counter c =>
        cases hp : s.previous with
        | none => rw [each_Counter_nil lib fl ord cfg timestamp s name c hp] at h; cases h
        | some previous =>
          rw [each_Counter_table lib fl ord cfg timestamp s name c previous hp] at h; cases h
      | GaugeCounter c => rw [each_GaugeCounter] at h; cases h
      | Gauge v => rw [each_Gauge] at h; cases h
      | GaugeFloat64 v => rw [each_GaugeFloat64] at h; cases h
      | Histogram hs => rw [each_Histogram] at h; cases h
      | Meter m => rw [each_Meter] at h; cases h
      | Other => simp only [each] at h; cases h
    · obtain ⟨p, hp⟩ := each_isSome lib fl ord cfg timestamp s name i hu
      rw [hp] at h; cases h
  · rintro ⟨hu, t, rfl, h0⟩
    exact each_Timer_panic lib fl ord cfg timestamp s name t h0 (timerFields_none fl cfg name t hu)

theorem Each_eq_none_iff {F : Type} (lib : MetricsLib F) (fl : Float64Ops F)
    (ord : RangeOrder F) (cfg : Config F) (timestamp : Nat) (reg : List (String × Metric F))
    (s : CycleState F) :
    Registry.Each (each lib fl ord cfg timestamp) s reg = none ↔
      cfg.DurationUnit = 0 ∧ ∃ name t, (name, Metric.Timer t) ∈ reg ∧ t.Count ≠ 0 := by
  induction reg generalizing s with
  | nil =>
    constructor
    · intro h; simp only [Registry.Each] at h; cases h
    · rintro ⟨-, n, t, hm, -⟩; cases hm
  | cons e reg ih =>
    obtain ⟨name, i⟩ := e
    cases hf : each lib fl ord cfg timestamp s name i with
    | none =>
      have hnone : Registry.Each (each lib fl ord cfg timestamp) s ((name, i) :: reg) = none := by
        simp only [Registry.Each, hf]
      obtain ⟨hu, t, rfl, h0⟩ := (each_eq_none_iff lib fl ord cfg timestamp s name i).mp hf
      exact ⟨fun _ => ⟨hu, name, t, List.mem_cons_self _ _, h0⟩, fun _ => hnone⟩
    | some p =>
      obtain ⟨s1, i1⟩ := p
      have hstep : Registry.Each (each lib fl ord cfg timestamp) s ((name, i) :: reg) = none ↔
          Registry.Each (each lib fl ord cfg timestamp) s1 reg = none := by
        simp only [Registry.Each, hf]
        cases Registry.Each (each lib fl ord cfg timestamp) s1 reg with
        | none => simp
        | some q => simp
      rw [hstep, ih s1]
      constructor
      · rintro ⟨hu, n, t, hm, h0⟩
        exact ⟨hu, n, t, List.mem_cons_of_mem _ hm, h0⟩
      · rintro ⟨hu, n, t, hm, h0⟩
        refine ⟨hu, n, t, ?_, h0⟩
        rcases List.mem_cons.mp hm with he | hm
        · exfalso
          simp only [Prod.mk.injEq] at he
          obtain ⟨-, rfl⟩ := he
          have := (each_eq_none_iff lib fl ord cfg timestamp s name (.Timer t)).mpr
            ⟨hu, t, rfl, h0⟩
          rw [this] at hf; cases hf
        · exact hm

theorem metricsData_eq_none_iff {F : Type} (lib : MetricsLib F) (fl : Float64Ops F)
    (ord : RangeOrder F) (timestamp : Nat) (cfg : Config F) :
    metricsData lib fl ord timestamp cfg = none ↔
      cfg.DurationUnit = 0 ∧ ∃ name t, (name, Metric.Timer t) ∈ cfg.Registry ∧ t.Count ≠ 0 := by
  rw [← Each_eq_none_iff lib fl ord cfg timestamp cfg.Registry (CycleState.init cfg)]
  unfold metricsData
  cases Registry.Each (each lib fl ord cfg timestamp) (CycleState.init cfg) cfg.Registry with
  | none => simp
  | some q => simp

theorem Each_previous_isSome {F : Type} (lib : MetricsLib F) (fl : Float64Ops F)
    (ord : RangeOrder F) (cfg : Config F) (timestamp : Nat) (reg reg1 : List (String × Metric F))
    (s sf : CycleState F)
    (h : Registry.Each (each lib fl ord cfg timestamp) s reg = some (sf, reg1)) :
    sf.previous.isSome = s.previous.isSome := by
  cases hp : s.previous with
  | none =>
    rw [Each_previous_nil lib fl ord cfg timestamp reg reg1 s sf h hp]
  | some previous =>
    obtain ⟨p1, hp1, -⟩ := Each_previous_table lib fl ord cfg timestamp reg reg1 s sf previous h hp
    rw [hp1]; rfl

/-- C19: with a duration unit other than 0, `metricsData` returns for every registry and
every filter (no division by zero is reached), and the previous-values table is written
only when it is not nil: a nil table is nil after the run; with a duration unit of 0, a
timer with recorded events makes `Min / int64(DurationUnit)` and `Max / int64(DurationUnit)`
divide by zero, and the cycle fails instead of returning data; these are the only runs that
fail. -/
theorem cycle_fails_on_zero_unit {F : Type} (lib : MetricsLib F) (fl : Float64Ops F)
    (ord : RangeOrder F) (timestamp : Nat) (cfg : Config F) :
    (cfg.DurationUnit ≠ 0 → ∃ r, metricsData lib fl ord timestamp cfg = some r) ∧
    (∀ r, metricsData lib fl ord timestamp cfg = some r →
      r.cfg.PreviousCounterValues.isSome = cfg.PreviousCounterValues.isSome) ∧
    (cfg.DurationUnit = 0 → ∀ name t, (name, Metric.Timer t) ∈ cfg.Registry → t.Count ≠ 0 →
      div64 t.Min cfg.DurationUnit = none ∧ div64 t.Max cfg.DurationUnit = none ∧
      metricsData lib fl ord timestamp cfg = none ∧
      EmitMetrics lib fl ord timestamp cfg = none) ∧
    (metricsData lib fl ord timestamp cfg = none ↔
      cfg.DurationUnit = 0 ∧ ∃ name t, (name, Metric.Timer t) ∈ cfg.Registry ∧ t.Count ≠ 0) := by
  refine ⟨metricsData_isSome lib fl ord timestamp cfg, ?_, ?_,
    metricsData_eq_none_iff lib fl ord timestamp cfg⟩
  · intro r hr
    unfold metricsData at hr
    cases hE : Registry.Each (each lib fl ord cfg timestamp) (CycleState.init cfg)
        cfg.Registry with
    | none => rw [hE] at hr; cases hr
    | some q =>
      obtain ⟨sf, reg1⟩ := q
      rw [hE] at hr
      simp only [Option.some.injEq] at hr
      rw [← hr]
      exact Each_previous_isSome lib fl ord cfg timestamp _ _ _ sf hE
  · intro hu name t hm h0
    have hnone := (metricsData_eq_none_iff lib fl ord timestamp cfg).mpr ⟨hu, name, t, hm, h0⟩
    refine ⟨by simp only [div64, hu, if_true], by simp only [div64, hu, if_true], hnone, ?_⟩
    simp only [EmitMetrics, hnone]

theorem cycle_fails_on_zero_unit_witness :
    (∃ r, metricsData zeroLib exactOps inOrder 0 cfgTimer = some r) ∧
    metricsData zeroLib exactOps inOrder 0 cfgTimerNoUnit = none ∧
    EmitMetrics zeroLib exactOps inOrder 0 cfgTimerNoUnit = none ∧
    (∃ r, metricsData zeroLib exactOps inOrder 0 cfgIdleTimer = some r) := by
  obtain ⟨h1, -, -, -⟩ := cycle_fails_on_zero_unit zeroLib exactOps inOrder 0 cfgTimer
  obtain ⟨-, -, h3, -⟩ := cycle_fails_on_zero_unit zeroLib exactOps inOrder 0 cfgTimerNoUnit
  obtain ⟨-, -, h5, h6⟩ := h3 rfl "timer" tenSecondTimer (List.mem_singleton.mpr rfl) (by decide)
  exact ⟨h1 (by decide), h5, h6, ⟨_, rfl⟩⟩

/-! ## The filter and the value of a timer percentile -/

/-- A run of `metricsData` on a registry with one entry. -/
theorem metricsData_single {F : Type} (lib : MetricsLib F) (fl : Float64Ops F)
    (ord : RangeOrder F) (timestamp : Nat) (cfg : Config F) (name : String) (i i1 : Metric F)
    (s1 : CycleState F) (hreg : cfg.Registry = [(name, i)])
    (h : each lib fl ord cfg timestamp (CycleState.init cfg) name i = some (s1, i1)) :
    metricsData lib fl ord timestamp cfg = some (CycleResult.mk1 cfg s1 [(name, i1)]) := by
  simp only [metricsData, hreg, Registry.Each, h]

theorem exactOps_ofInt64 (x : Int) : exactOps.ofInt64 x = (x : ℚ) := rfl

theorem exactOps_div (x y : ℚ) : exactOps.div x y = x / y := rfl

/-- C15: a timer with a median of 7 seconds, a duration unit of one millisecond and a filter
that approves values of at least 8000: the filter is asked about the median in nanoseconds
(7000000000) and approves, and the point is emitted with the value 7000, a value that the
filter rejects for that name and about which it was never asked. -/
theorem timer_percentile_filtered_before_conversion :
    ∃ r d, metricsData zeroLib exactOps inOrder 0 cfgSlowOnly = some r ∧
      d ∈ r.data ∧
      d.MetricName = "timer" ++ "-perc" ++ exactOps.fmt3 (1 / 2) ∧
      d.Value = some 7000 ∧
      cfgSlowOnly.Filter.ShouldReport d.MetricName 7000 = false ∧
      FilterCall.ShouldReport d.MetricName 7000 ∉ r.asked ∧
      FilterCall.ShouldReport d.MetricName 7000000000 ∈ r.asked ∧
      cfgSlowOnly.Filter.ShouldReport d.MetricName 7000000000 = true := by
  have hf := timerFields_eq exactOps cfgSlowOnly "timer" threeSampleTimer (by decide)
    (by decide) (by decide)
  have he := each_Timer zeroLib exactOps inOrder cfgSlowOnly 0 (CycleState.init cfgSlowOnly)
    "timer" threeSampleTimer (by decide) _ hf
  have hr := metricsData_single zeroLib exactOps inOrder 0 cfgSlowOnly "timer" _ _ _ rfl he
  refine ⟨_, datumOf cfgSlowOnly 0 none ("timer" ++ "-perc" ++ exactOps.fmt3 (1 / 2)) 7000,
    hr, ?_, rfl, rfl, ?_, ?_, ?_, ?_⟩
  · simp only [CycleResult.mk1]
    rw [afterOffers_data]
    apply List.mem_append_right
    simp only [cfgSlowOnly, testConfig, slowOnlyFilter, threeSampleTimer, exactOps_ofInt64,
      exactOps_div, datumOf, dimensions]
    norm_num
  · simp only [cfgSlowOnly, testConfig, slowOnlyFilter, datumOf]
    norm_num
  · simp only [CycleResult.mk1]
    rw [afterOffers_asked]
    have h1 : Int.tdiv 5000000000 1000000 = 5000 := by decide
    have h2 : Int.tdiv 12000000000 1000000 = 12000 := by decide
    simp only [cfgSlowOnly, testConfig, slowOnlyFilter, threeSampleTimer, exactOps_ofInt64,
      exactOps_div, datumOf, inOrder, CycleState.init, h1, h2]
    norm_num
    intro h
    cases h
  · simp only [CycleResult.mk1]
    rw [afterOffers_asked]
    apply List.mem_append_right
    simp only [cfgSlowOnly, testConfig, slowOnlyFilter, threeSampleTimer, exactOps_ofInt64,
      exactOps_div, datumOf]
    norm_num
  · simp only [cfgSlowOnly, testConfig, slowOnlyFilter, datumOf]
    norm_num

/-! ## The scheduler -/

theorem run_append {F : Type} (lib : MetricsLib F) (fl : Float64Ops F) (s : Scheduler F)
    (ticks : List (Tick F)) (t : Tick F) :
    Cloudwatch.run lib fl s (ticks ++ [t]) =
      Cloudwatch.receive lib fl (Cloudwatch.run lib fl s ticks) t := by
  simp only [Cloudwatch.run, List.foldl_append, List.foldl_cons, List.foldl_nil]

theorem EmitMetrics_unit {F : Type} (lib : MetricsLib F) (fl : Float64Ops F)
    (ord : RangeOrder F) (timestamp : Nat) (cfg : Config F) (e : EmitResult F)
    (h : EmitMetrics lib fl ord timestamp cfg = some e) :
    e.cycle.cfg.DurationUnit = cfg.DurationUnit ∧ e.cycle.cfg.Filter = cfg.Filter ∧
    e.cycle.cfg.ReportingInterval = cfg.ReportingInterval ∧
    e.cycle.cfg.Namespace = cfg.Namespace ∧
    e.cycle.cfg.StaticDimensions = cfg.StaticDimensions := by
  cases hr : metricsData lib fl ord timestamp cfg with
  | none => simp only [EmitMetrics, hr] at h; cases h
  | some r =>
    simp only [EmitMetrics, hr, Option.some.injEq] at h
    rw [← h]
    unfold metricsData at hr
    cases hE : Registry.Each (each lib fl ord cfg timestamp) (CycleState.init cfg)
        cfg.Registry with
    | none => rw [hE] at hr; cases hr
    | some q =>
      rw [hE] at hr
      simp only [Option.some.injEq] at hr
      rw [← hr]
      exact ⟨rfl, rfl, rfl, rfl, rfl⟩

theorem EmitMetrics_isSome {F : Type} (lib : MetricsLib F) (fl : Float64Ops F)
    (ord : RangeOrder F) (timestamp : Nat) (cfg : Config F) (hu : cfg.DurationUnit ≠ 0) :
    ∃ e, EmitMetrics lib fl ord timestamp cfg = some e := by
  obtain ⟨r, hr⟩ := metricsData_isSome lib fl ord timestamp cfg hu
  exact ⟨_, EmitMetrics_eq lib fl ord timestamp cfg r hr⟩

/-- From a waiting state with a duration unit other than 0 the loop is waiting after any
ticks, with one more call of `EmitMetrics` done for each tick. -/
theorem run_waiting {F : Type} (lib : MetricsLib F) (fl : Float64Ops F) (cfg : Config F)
    (done : List (EmitResult F)) (ticks : List (Tick F)) (hu : cfg.DurationUnit ≠ 0) :
    ∃ cfg1 done1, Cloudwatch.run lib fl (.waiting cfg done) ticks = .waiting cfg1 (done ++ done1) ∧
      done1.length = ticks.length ∧ cfg1.DurationUnit = cfg.DurationUnit := by
  induction ticks generalizing cfg done with
  | nil => exact ⟨cfg, [], by simp [Cloudwatch.run], rfl, rfl⟩
  | cons t ticks ih =>
    obtain ⟨e, he⟩ := EmitMetrics_isSome lib fl t.ord t.timestamp
      { cfg with Registry := t.registry, Client := t.client } hu
    have hu1 := (EmitMetrics_unit lib fl _ _ _ e he).1
    obtain ⟨cfg1, done1, h1, h2, h3⟩ := ih e.cycle.cfg (done ++ [e]) (by rw [hu1]; exact hu)
    refine ⟨cfg1, e :: done1, ?_, by simp [h2], by rw [h3, hu1]⟩
    have hstep : Cloudwatch.run lib fl (.waiting cfg done) (t :: ticks) =
        Cloudwatch.run lib fl (.waiting e.cycle.cfg (done ++ [e])) ticks := by
      simp only [Cloudwatch.run, List.foldl_cons, Cloudwatch.receive, he]
    rw [hstep, h1]
    simp

/-- C17 as stated fails: with a positive interval and a duration unit of one millisecond,
whatever ticks are received the loop of `Cloudwatch` is still waiting for the next tick and
its ticker has not been stopped: no stopped state is reached from the running state. -/
theorem Cloudwatch_never_stops :
    ¬ ∃ ticks : List (Tick ℚ),
      (Cloudwatch zeroLib exactOps cfgScheduled ticks).running = false ∨
      (Cloudwatch zeroLib exactOps cfgScheduled ticks).tickerStopped = true := by
  rintro ⟨ticks, h⟩
  obtain ⟨cfg1, done1, h1, -, -⟩ :=
    run_waiting zeroLib exactOps cfgScheduled [] ticks (by decide)
  have hc : Cloudwatch zeroLib exactOps cfgScheduled ticks = .waiting cfg1 ([] ++ done1) := by
    unfold Cloudwatch
    rw [if_neg (by decide)]
    exact h1
  rw [hc] at h
  rcases h with h | h <;> cases h

/-- C17, amended: the loop of `Cloudwatch` has no stop transition.  After any ticks the call
is in one of three states: refused (the interval is not positive, `NewTicker` panicked),
waiting for the next tick with its ticker running, or panicked in a cycle with the ticker
stopped by the deferred `ticks.Stop()`, which happens only under a duration unit of 0.
While waiting, each received tick triggers exactly one call of `EmitMetrics`, after the
calls of the earlier ticks, and the loop goes on whatever error the call returned. -/
theorem Cloudwatch_loop {F : Type} (lib : MetricsLib F) (fl : Float64Ops F) (cfg : Config F)
    (ticks : List (Tick F)) (hpos : 0 < cfg.ReportingInterval) :
    ((Cloudwatch lib fl cfg ticks).tickerStopped = true ↔
      ∃ done, Cloudwatch lib fl cfg ticks = .panicked done) ∧
    ((Cloudwatch lib fl cfg ticks).running = true ↔
      ∃ cfg1 done, Cloudwatch lib fl cfg ticks = .waiting cfg1 done ∧
        done.length = ticks.length) ∧
    ((Cloudwatch lib fl cfg ticks).running = true ∨
      (Cloudwatch lib fl cfg ticks).tickerStopped = true) ∧
    (cfg.DurationUnit ≠ 0 → (Cloudwatch lib fl cfg ticks).running = true) ∧
    (∀ t cfg1 done, Cloudwatch lib fl cfg ticks = .waiting cfg1 done →
      (∀ e, EmitMetrics lib fl t.ord t.timestamp
          { cfg1 with Registry := t.registry, Client := t.client } = some e →
        Cloudwatch lib fl cfg (ticks ++ [t]) = .waiting e.cycle.cfg (done ++ [e])) ∧
      (EmitMetrics lib fl t.ord t.timestamp
          { cfg1 with Registry := t.registry, Client := t.client } = none →
        Cloudwatch lib fl cfg (ticks ++ [t]) = .panicked done)) := by
  have hc : ∀ tk, Cloudwatch lib fl cfg tk = Cloudwatch.run lib fl (.waiting cfg []) tk := by
    intro tk
    unfold Cloudwatch
    rw [if_neg (by omega)]
  have hlen : ∀ tk : List (Tick F),
      (∃ cfg1 done, Cloudwatch.run lib fl (.waiting cfg []) tk = .waiting cfg1 done ∧
        done.length = tk.length) ∨
      ∃ done, Cloudwatch.run lib fl (.waiting cfg []) tk = .panicked done := by
    intro tk
    induction tk using List.reverseRecOn with
    | nil => exact Or.inl ⟨cfg, [], rfl, rfl⟩
    | append_singleton tk t ih =>
      rw [run_append]
      rcases ih with ⟨cfg1, done, h, hl⟩ | ⟨done, h⟩
      · rw [h]
        cases he : EmitMetrics lib fl t.ord t.timestamp
            { cfg1 with Registry := t.registry, Client := t.client } with
        | none => exact Or.inr ⟨done, by simp only [Cloudwatch.receive, he]⟩
        | some e =>
          exact Or.inl ⟨e.cycle.cfg, done ++ [e], by simp only [Cloudwatch.receive, he],
            by simp [hl]⟩
      · rw [h]; exact Or.inr ⟨done, rfl⟩
  refine ⟨?_, ?_, ?_, ?_, ?_⟩
  · rw [hc]
    constructor
    · intro h
      rcases hlen ticks with ⟨cfg1, done, h1, -⟩ | ⟨done, h1⟩
      · rw [h1] at h; cases h
      · exact ⟨done, h1⟩
    · rintro ⟨done, h⟩; rw [h]; rfl
  · rw [hc]
    constructor
    · intro h
      rcases hlen ticks with ⟨cfg1, done, h1, hl⟩ | ⟨done, h1⟩
      · exact ⟨cfg1, done, h1, hl⟩
      · rw [h1] at h; cases h
    · rintro ⟨cfg1, done, h, -⟩; rw [h]; rfl
  · rw [hc]
    rcases hlen ticks with ⟨cfg1, done, h1, -⟩ | ⟨done, h1⟩
    · left; rw [h1]; rfl
    · right; rw [h1]; rfl
  · intro hu
    rw [hc]
    obtain ⟨cfg1, done1, h1, -, -⟩ := run_waiting lib fl cfg [] ticks hu
    rw [h1]; rfl
  · intro t cfg1 done h
    rw [hc] at h
    constructor
    · intro e he
      rw [hc, run_append, h]
      simp only [Cloudwatch.receive, he]
    · intro he
      rw [hc, run_append, h]
      simp only [Cloudwatch.receive, he]

theorem Cloudwatch_loop_witness :
    ∃ cfg1 e, Cloudwatch zeroLib exactOps cfgScheduled [failingTick] = .waiting cfg1 [e] ∧
      e.err ≠ none ∧
      (Cloudwatch zeroLib exactOps cfgScheduled [failingTick]).running = true ∧
      (Cloudwatch zeroLib exactOps cfgScheduled [failingTick]).tickerStopped = false := by
  obtain ⟨-, -, -, hrun, hstep⟩ :=
    Cloudwatch_loop zeroLib exactOps cfgScheduled [] (by decide)
  have h0 : Cloudwatch zeroLib exactOps cfgScheduled [] = .waiting cfgScheduled [] := rfl
  obtain ⟨hsome, -⟩ := hstep failingTick cfgScheduled [] h0
  obtain ⟨e, he⟩ := EmitMetrics_isSome zeroLib exactOps failingTick.ord failingTick.timestamp
    { cfgScheduled with Registry := failingTick.registry, Client := failingTick.client }
    (by decide)
  have h1 := hsome e he
  simp only [List.nil_append] at h1
  refine ⟨_, e, h1, ?_, by rw [h1]; rfl, by rw [h1]; rfl⟩
  obtain ⟨r, hr⟩ := metricsData_isSome zeroLib exactOps failingTick.ord failingTick.timestamp
    { cfgScheduled with Registry := failingTick.registry, Client := failingTick.client }
    (by decide)
  have hl : r.data.length = 1 := by
    have : ((metricsData zeroLib exactOps failingTick.ord failingTick.timestamp
      { cfgScheduled with Registry := failingTick.registry,
                          Client := failingTick.client }).map
        fun r => r.data.length) = some 1 := by rfl
    rw [hr] at this
    simpa using this
  rw [EmitMetrics_eq _ _ _ _ _ r hr] at he
  simp only [Option.some.injEq] at he
  rw [← he]
  simp only [send_eq_sendFrom, sendFrom_err, chunks20_short r.data (by omega) (by omega),
    List.getLast?_singleton, putMetrics_err]
  simp [cfgScheduled, failingTick, failingClient]

/-! ## Counter differences over several cycles -/

theorem wrap64_add_wrap64 (a b : Int) : wrap64 (wrap64 a + b) = wrap64 (a + b) := by
  unfold wrap64
  norm_num
  omega

theorem wrap64_add_wrap64_right (a b : Int) : wrap64 (a + wrap64 b) = wrap64 (a + b) := by
  rw [add_comm, wrap64_add_wrap64, add_comm]

/-- The differences that the counter case computes add up, in `int64` arithmetic, to the
last count less the value stored before the first cycle. -/
theorem counterDeltas_sum (p : Int) (counts : List Int) :
    wrap64 (counterDeltas p counts).sum = sub64 (counts.getLastD p) p := by
  induction counts generalizing p with
  | nil =>
    show wrap64 0 = wrap64 (p - p)
    rw [sub_self]
  | cons c cs ih =>
    have hl : (c :: cs).getLastD p = cs.getLastD c := by
      cases cs <;> rfl
    rw [hl]
    simp only [counterDeltas, List.sum_cons, sub64]
    rw [wrap64_add_wrap64, ← wrap64_add_wrap64_right, ih c, sub64, wrap64_add_wrap64_right]
    congr 1
    ring

theorem counterDeltas_length (p : Int) (counts : List Int) :
    (counterDeltas p counts).length = counts.length := by
  induction counts generalizing p with
  | nil => rfl
  | cons c cs ih => simp only [counterDeltas, List.length_cons]; rw [ih]

theorem counterSteps_sum (p : Int) (counts : List Int) :
    (counterSteps p counts).sum = counts.getLastD p - p := by
  induction counts generalizing p with
  | nil => simp [counterSteps]
  | cons c cs ih =>
    have hl : (c :: cs).getLastD p = cs.getLastD c := by
      cases cs <;> rfl
    rw [hl]
    simp only [counterSteps, List.sum_cons, ih c]
    ring

theorem counterDeltas_eq_steps (p : Int) (counts : List Int)
    (h : ∀ x ∈ counterSteps p counts, isInt64 x) :
    counterDeltas p counts = counterSteps p counts := by
  induction counts generalizing p with
  | nil => rfl
  | cons c cs ih =>
    simp only [counterDeltas, counterSteps, sub64]
    rw [wrap64_of_isInt64 _ (h _ (List.mem_cons_self _ _)),
      ih c (fun x hx => h x (List.mem_cons_of_mem _ hx))]

/-- One cycle with a previous-values table: the visit of the counter `name` offers the
`int64` difference with the stored value and stores the count. -/
theorem counter_visit {F : Type} (lib : MetricsLib F) (fl : Float64Ops F)
    (ord : RangeOrder F) (timestamp : Nat) (cfg : Config F) (r : CycleResult F)
    (name : String) (c : Int) (previous : String → Option Int)
    (htab : cfg.PreviousCounterValues = some previous)
    (hmem : (name, Metric.Counter c) ∈ cfg.Registry)
    (hnodup : (cfg.Registry.map Prod.fst).Nodup)
    (hr : metricsData lib fl ord timestamp cfg = some r) :
    CounterVisit lib fl r name c (fl.ofInt64 (sub64 c ((previous name).getD 0))) ∧
    ∃ after, r.cfg.PreviousCounterValues = some after ∧ after name = some c := by
  obtain ⟨pre, post, hreg⟩ := List.append_of_mem hmem
  obtain ⟨s, pre1, s1, i1, sf, post1, h1, h2, h3, h4, -, -, -, -⟩ :=
    metricsData_visit lib fl ord timestamp cfg r pre post name (.Counter c) hreg hr
  rw [hreg, List.map_append, List.map_cons, List.nodup_append] at hnodup
  obtain ⟨-, hnd2, hdisj⟩ := hnodup
  have hpre : ∀ k, (name, Metric.Counter k) ∉ pre := fun k hk =>
    hdisj (List.mem_map_of_mem Prod.fst hk) (List.mem_cons_self _ _)
  have hpost : ∀ k, (name, Metric.Counter k) ∉ post := fun k hk =>
    (List.nodup_cons.mp hnd2).1 (List.mem_map.mpr ⟨_, hk, rfl⟩)
  obtain ⟨before, hb, hbefore⟩ := Each_previous_table lib fl ord cfg timestamp pre pre1 _ s
    previous h1 htab
  have hbn : before name = previous name := hbefore name hpre
  have h2' := h2
  rw [each_Counter_table lib fl ord cfg timestamp s name c before hb] at h2
  simp only [Option.some.injEq, Prod.mk.injEq] at h2
  obtain ⟨rfl, rfl⟩ := h2
  obtain ⟨after, ha, hafter⟩ := Each_previous_table lib fl ord cfg timestamp post post1 _ sf
    (Function.update before name (some c)) h3 rfl
  refine ⟨⟨ord, timestamp, cfg, pre, post, pre1, post1, s, _, sf, hr, hreg, h1, h2',
    by rw [← hbn], by rw [← hbn]; rfl, h3, h4⟩, after, by rw [h4]; exact ha, ?_⟩
  rw [hafter name hpost, Function.update_same]

theorem run_panicked {F : Type} (lib : MetricsLib F) (fl : Float64Ops F)
    (done : List (EmitResult F)) (ticks : List (Tick F)) :
    Cloudwatch.run lib fl (.panicked done) ticks = .panicked done := by
  induction ticks with
  | nil => rfl
  | cons t ticks ih =>
    have : Cloudwatch.run lib fl (.panicked done) (t :: ticks) =
        Cloudwatch.run lib fl (.panicked done) ticks := rfl
    rw [this, ih]

theorem EmitMetrics_cycle {F : Type} (lib : MetricsLib F) (fl : Float64Ops F)
    (ord : RangeOrder F) (timestamp : Nat) (cfg : Config F) (e : EmitResult F)
    (h : EmitMetrics lib fl ord timestamp cfg = some e) :
    metricsData lib fl ord timestamp cfg = some e.cycle := by
  cases hr : metricsData lib fl ord timestamp cfg with
  | none => simp only [EmitMetrics, hr] at h; cases h
  | some r =>
    simp only [EmitMetrics, hr, Option.some.injEq] at h
    rw [← h]

/-- The cycles of a run of the loop from a waiting state, for a counter that is registered
at every tick. -/
theorem run_counter {F : Type} (lib : MetricsLib F) (fl : Float64Ops F) (name : String)
    (ticks : List (Tick F)) (counts : List Int) (cfg cfgEnd : Config F)
    (done doneEnd : List (EmitResult F)) (previous : String → Option Int)
    (htab : cfg.PreviousCounterValues = some previous)
    (hticks : List.Forall₂ (fun t c => (t.registry.map Prod.fst).Nodup ∧
      (name, Metric.Counter c) ∈ t.registry) ticks counts)
    (hrun : Cloudwatch.run lib fl (.waiting cfg done) ticks = .waiting cfgEnd doneEnd) :
    ∃ done1 after, doneEnd = done ++ done1 ∧
      List.Forall₂ (fun e cd => CounterVisit lib fl e.cycle name cd.1 (fl.ofInt64 cd.2))
        done1 (counts.zip (counterDeltas ((previous name).getD 0) counts)) ∧
      cfgEnd.PreviousCounterValues = some after ∧
      (after name).getD 0 = counts.getLastD ((previous name).getD 0) ∧
      (counts ≠ [] → after name = some (counts.getLastD ((previous name).getD 0))) := by
  induction hticks generalizing cfg done previous with
  | nil =>
    simp only [Cloudwatch.run, List.foldl_nil, Scheduler.waiting.injEq] at hrun
    obtain ⟨rfl, rfl⟩ := hrun
    exact ⟨[], previous, by simp, List.Forall₂.nil, htab, rfl, fun h => absurd rfl h⟩
  | @cons t c ticks counts htc _ ih =>
    cases he : EmitMetrics lib fl t.ord t.timestamp
        { cfg with Registry := t.registry, Client := t.client } with
    | none =>
      have hstep : Cloudwatch.run lib fl (.waiting cfg done) (t :: ticks) =
          Cloudwatch.run lib fl (.panicked done) ticks := by
        simp only [Cloudwatch.run, List.foldl_cons, Cloudwatch.receive, he]
      rw [hstep, run_panicked] at hrun
      cases hrun
    | some e =>
      have hstep : Cloudwatch.run lib fl (.waiting cfg done) (t :: ticks) =
          Cloudwatch.run lib fl (.waiting e.cycle.cfg (done ++ [e])) ticks := by
        simp only [Cloudwatch.run, List.foldl_cons, Cloudwatch.receive, he]
      rw [hstep] at hrun
      have hr := EmitMetrics_cycle lib fl _ _ _ e he
      obtain ⟨hvisit, after1, ha1, hname1⟩ := counter_visit lib fl t.ord t.timestamp
        { cfg with Registry := t.registry, Client := t.client } e.cycle name c previous htab
        htc.2 htc.1 hr
      obtain ⟨done1, after, hd, hall, hafter, hlast, -⟩ := ih e.cycle.cfg (done ++ [e]) after1
        ha1 hrun
      have hl : (c :: counts).getLastD ((previous name).getD 0) = counts.getLastD c := by
        cases counts <;> rfl
      have h1 : (after1 name).getD 0 = c := by rw [hname1]; rfl
      rw [h1] at hall hlast
      refine ⟨e :: done1, after, by rw [hd]; simp, ?_, hafter, by rw [hl, hlast], ?_⟩
      · exact List.Forall₂.cons hvisit hall
      · intro _
        rw [hl]
        cases counts with
        | nil =>
          cases ticks with
          | nil =>
            simp only [Cloudwatch.run, List.foldl_nil, Scheduler.waiting.injEq] at hrun
            rw [← hrun.1, ha1] at hafter
            simp only [Option.some.injEq] at hafter
            rw [← hafter, hname1]; rfl
          | cons t2 ticks2 => rename_i hf; cases hf
        | cons c2 counts2 =>
          obtain ⟨done1', after', -, -, hafter', -, hne⟩ := ih e.cycle.cfg (done ++ [e]) after1
            ha1 hrun
          rw [hafter] at hafter'
          simp only [Option.some.injEq] at hafter'
          rw [hafter', hne (List.cons_ne_nil _ _), h1]

/-- C18: with a previous-values table, over any run of cycles (the registry being whatever
the producers made of it before each cycle, provided the counter `name` is registered), the
visit of the counter in each cycle offers the `int64` difference between its count and the
count of the cycle before (the stored value, 0 when absent, for the first cycle) and emits
it when the filter approves; these differences add up, in `int64` arithmetic, to the count
at the last cycle less the value stored before the first, and in the integers whenever no
single difference leaves the `int64` range; the table then holds the last count. -/
theorem counter_deltas_telescope {F : Type} (lib : MetricsLib F) (fl : Float64Ops F)
    (name : String) (ticks : List (Tick F)) (counts : List Int) (cfg cfgEnd : Config F)
    (done : List (EmitResult F)) (previous : String → Option Int)
    (htab : cfg.PreviousCounterValues = some previous)
    (hticks : List.Forall₂ (fun t c => (t.registry.map Prod.fst).Nodup ∧
      (name, Metric.Counter c) ∈ t.registry) ticks counts)
    (hrun : Cloudwatch.run lib fl (.waiting cfg []) ticks = .waiting cfgEnd done) :
    done.length = ticks.length ∧
    List.Forall₂ (fun e cd => CounterVisit lib fl e.cycle name cd.1 (fl.ofInt64 cd.2))
      done (counts.zip (counterDeltas ((previous name).getD 0) counts)) ∧
    wrap64 (counterDeltas ((previous name).getD 0) counts).sum =
      sub64 (counts.getLastD ((previous name).getD 0)) ((previous name).getD 0) ∧
    ((∀ x ∈ counterSteps ((previous name).getD 0) counts, isInt64 x) →
      (counterDeltas ((previous name).getD 0) counts).sum =
        counts.getLastD ((previous name).getD 0) - (previous name).getD 0) ∧
    (counts ≠ [] → ∃ after, cfgEnd.PreviousCounterValues = some after ∧
      after name = some (counts.getLastD ((previous name).getD 0))) := by
  obtain ⟨done1, after, hd, hall, hafter, -, hne⟩ :=
    run_counter lib fl name ticks counts cfg cfgEnd [] done previous htab hticks hrun
  simp only [List.nil_append] at hd
  subst hd
  refine ⟨?_, hall, counterDeltas_sum _ _, ?_, fun h => ⟨after, hafter, hne h⟩⟩
  · have h1 := hall.length_eq
    have h2 := hticks.length_eq
    rw [List.length_zip, counterDeltas_length, Nat.min_self] at h1
    rw [h1, h2]
  · intro hsteps
    rw [counterDeltas_eq_steps _ _ hsteps, counterSteps_sum]

theorem counter_deltas_telescope_witness :
    ∃ cfgEnd done,
      Cloudwatch.run zeroLib exactOps (.waiting cfgSnapshotFirst []) snapshotTicks =
        .waiting cfgEnd done ∧
      done.length = 2 ∧
      counterDeltas 0 [2, 3] = [2, 1] ∧
      List.Forall₂ (fun e cd => CounterVisit zeroLib exactOps e.cycle "counter" cd.1
        (exactOps.ofInt64 cd.2)) done [(2, 2), (3, 1)] ∧
      (counterDeltas 0 [2, 3]).sum = 3 - 0 ∧
      ∃ after, cfgEnd.PreviousCounterValues = some after ∧ after "counter" = some 3 := by
  obtain ⟨cfgEnd, done, hrun, -, -⟩ :=
    run_waiting zeroLib exactOps cfgSnapshotFirst [] snapshotTicks (by decide)
  simp only [List.nil_append] at hrun
  have hticks : List.Forall₂ (fun (t : Tick ℚ) (c : Int) => (t.registry.map Prod.fst).Nodup ∧
      ("counter", Metric.Counter c) ∈ t.registry) snapshotTicks [2, 3] :=
    List.Forall₂.cons ⟨by decide, List.mem_singleton.mpr rfl⟩
      (List.Forall₂.cons ⟨by decide, List.mem_singleton.mpr rfl⟩ List.Forall₂.nil)
  obtain ⟨hlen, hall, -, hsum, hafter⟩ :=
    counter_deltas_telescope zeroLib exactOps "counter" snapshotTicks [2, 3] cfgSnapshotFirst
      cfgEnd done emptyTable rfl hticks hrun
  have hd : counterDeltas 0 [2, 3] = [2, 1] := by decide
  exact ⟨cfgEnd, done, hrun, hlen, hd, hall, hsum (by decide), hafter (by decide)⟩

/-! ## The order in which the registry is visited -/

theorem emitted_Counter_nil {F : Type} (lib : MetricsLib F) (fl : Float64Ops F)
    (ord : RangeOrder F) (cfg : Config F) (timestamp : Nat) (name : String) (c : Int) :
    emitted lib fl ord cfg timestamp none name (.Counter c) =
      (if cfg.Filter.ShouldReport name (fl.ofInt64 c)
       then [datumOf cfg timestamp (some StandardUnitCount) name (fl.ofInt64 c)] else []) := by
  unfold emitted
  rw [each_Counter_nil lib fl ord cfg timestamp _ name c rfl]
  simp

theorem emitted_Counter_table {F : Type} (lib : MetricsLib F) (fl : Float64Ops F)
    (ord : RangeOrder F) (cfg : Config F) (timestamp : Nat) (name : String) (c : Int)
    (previous : String → Option Int) :
    emitted lib fl ord cfg timestamp (some previous) name (.Counter c) =
      (if cfg.Filter.ShouldReport name (fl.ofInt64 (sub64 c ((previous name).getD 0)))
       then [datumOf cfg timestamp (some StandardUnitCount) name
              (fl.ofInt64 (sub64 c ((previous name).getD 0)))] else []) := by
  unfold emitted
  rw [each_Counter_table lib fl ord cfg timestamp _ name c previous rfl]
  simp

theorem emitted_gauge {F : Type} (lib : MetricsLib F) (fl : Float64Ops F)
    (ord : RangeOrder F) (cfg : Config F) (timestamp : Nat)
    (previous : Option (String → Option Int)) (name : String) :
    (∀ c, emitted lib fl ord cfg timestamp previous name (.GaugeCounter c) =
      (if cfg.Filter.ShouldReport name (fl.ofInt64 c)
       then [datumOf cfg timestamp (some StandardUnitCount) name (fl.ofInt64 c)] else [])) ∧
    (∀ c, emitted lib fl ord cfg timestamp previous name (.Gauge c) =
      (if cfg.Filter.ShouldReport name (fl.ofInt64 c)
       then [datumOf cfg timestamp (some StandardUnitCount) name (fl.ofInt64 c)] else [])) ∧
    (∀ v, emitted lib fl ord cfg timestamp previous name (.GaugeFloat64 v) =
      (if cfg.Filter.ShouldReport name v
       then [datumOf cfg timestamp (some StandardUnitCount) name v] else [])) := by
  refine ⟨fun c => ?_, fun c => ?_, fun v => ?_⟩
  · unfold emitted; rw [each_GaugeCounter]; simp [afterGauge]
  · unfold emitted; rw [each_Gauge]; simp [afterGauge]
  · unfold emitted; rw [each_GaugeFloat64]; simp [afterGauge]

theorem emitted_Histogram {F : Type} (lib : MetricsLib F) (fl : Float64Ops F)
    (ord : RangeOrder F) (cfg : Config F) (timestamp : Nat)
    (previous : Option (String → Option Int)) (name : String) (h : HistogramSnapshot F) :
    emitted lib fl ord cfg timestamp previous name (.Histogram h) =
      (approved cfg (fieldOffers (ord.fields (histogramFields fl name h)))).map
          (fun o => datumOf cfg timestamp none o.1 o.2.2) ++
        (approved cfg (percentileOffers fl cfg h.Percentile id name)).map
          (fun o => datumOf cfg timestamp none o.1 o.2.2) := by
  unfold emitted; rw [each_Histogram]; simp [afterOffers]

theorem emitted_Meter {F : Type} (lib : MetricsLib F) (fl : Float64Ops F)
    (ord : RangeOrder F) (cfg : Config F) (timestamp : Nat)
    (previous : Option (String → Option Int)) (name : String) (m : MeterSnapshot F) :
    emitted lib fl ord cfg timestamp previous name (.Meter m) =
      (approved cfg (fieldOffers (ord.fields (meterFields fl name m)))).map
          (fun o => datumOf cfg timestamp none o.1 o.2.2) := by
  unfold emitted; rw [each_Meter]; simp

theorem emitted_Timer {F : Type} (lib : MetricsLib F) (fl : Float64Ops F)
    (ord : RangeOrder F) (cfg : Config F) (timestamp : Nat)
    (previous : Option (String → Option Int)) (name : String) (t : TimerSnapshot F) :
    (t.Count = 0 → emitted lib fl ord cfg timestamp previous name (.Timer t) = []) ∧
    (timerFields fl cfg name t = none →
      emitted lib fl ord cfg timestamp previous name (.Timer t) = []) ∧
    (t.Count ≠ 0 → ∀ fields, timerFields fl cfg name t = some fields →
      emitted lib fl ord cfg timestamp previous name (.Timer t) =
        (approved cfg (fieldOffers (ord.fields fields))).map
            (fun o => datumOf cfg timestamp none o.1 o.2.2) ++
          (approved cfg (percentileOffers fl cfg t.Percentile
              (fun pvalue => fl.div pvalue (fl.ofInt64 cfg.DurationUnit)) name)).map
            (fun o => datumOf cfg timestamp none o.1 o.2.2)) := by
  refine ⟨fun h0 => ?_, fun hf => ?_, fun h0 fields hf => ?_⟩
  · unfold emitted; rw [each_Timer_zero lib fl ord cfg timestamp _ name t h0]
  · by_cases h0 : t.Count = 0
    · unfold emitted; rw [each_Timer_zero lib fl ord cfg timestamp _ name t h0]
    · unfold emitted; rw [each_Timer_panic lib fl ord cfg timestamp _ name t h0 hf]
  · unfold emitted; rw [each_Timer lib fl ord cfg timestamp _ name t h0 fields hf]
    simp [afterOffers]

/-- What a visit appends and how it leaves the metric depend on the state only through the
previous-values table. -/
theorem each_frame {F : Type} (lib : MetricsLib F) (fl : Float64Ops F) (ord : RangeOrder F)
    (cfg : Config F) (timestamp : Nat) (s s1 : CycleState F) (name : String) (i i1 : Metric F)
    (h : each lib fl ord cfg timestamp s name i = some (s1, i1)) :
    s1.data = s.data ++ emitted lib fl ord cfg timestamp s.previous name i ∧
    i1 = metricAfter lib s.previous.isSome i := by
  cases i with
  | Counter c =>
    cases hp : s.previous with
    | none =>
      rw [each_Counter_nil lib fl ord cfg timestamp s name c hp] at h
      cases h
      rw [emitted_Counter_nil]
      exact ⟨rfl, rfl⟩
    | some previous =>
      rw [each_Counter_table lib fl ord cfg timestamp s name c previous hp] at h
      cases h
      rw [emitted_Counter_table]
      exact ⟨rfl, rfl⟩
  | GaugeCounter c =>
    rw [each_GaugeCounter] at h; cases h
    rw [(emitted_gauge lib fl ord cfg timestamp s.previous name).1]
    exact ⟨rfl, rfl⟩
  | Gauge v =>
    rw [each_Gauge] at h; cases h
    rw [(emitted_gauge lib fl ord cfg timestamp s.previous name).2.1]
    exact ⟨rfl, rfl⟩
  | GaugeFloat64 v =>
    rw [each_GaugeFloat64] at h; cases h
    rw [(emitted_gauge lib fl ord cfg timestamp s.previous name).2.2]
    exact ⟨rfl, rfl⟩
  | Histogram hs =>
    rw [each_Histogram] at h; cases h
    rw [emitted_Histogram]
    exact ⟨rfl, rfl⟩
  | Meter m =>
    rw [each_Meter] at h; cases h
    rw [emitted_Meter]
    exact ⟨rfl, rfl⟩
  | Timer t =>
    by_cases h0 : t.Count = 0
    · rw [each_Timer_zero lib fl ord cfg timestamp s name t h0] at h
      cases h
      rw [(emitted_Timer lib fl ord cfg timestamp s.previous name t).1 h0, List.append_nil]
      exact ⟨rfl, rfl⟩
    · cases hf : timerFields fl cfg name t with
      | none => rw [each_Timer_panic lib fl ord cfg timestamp s name t h0 hf] at h; cases h
      | some fields =>
        rw [each_Timer lib fl ord cfg timestamp s name t h0 fields hf] at h
        cases h
        rw [(emitted_Timer lib fl ord cfg timestamp s.previous name t).2.2 h0 fields hf]
        exact ⟨rfl, rfl⟩
  | Other =>
    simp only [each, Option.some.injEq, Prod.mk.injEq] at h
    obtain ⟨rfl, rfl⟩ := h
    have : emitted lib fl ord cfg timestamp s.previous name Metric.Other = [] := rfl
    rw [this, List.append_nil]
    exact ⟨rfl, rfl⟩

/-- What a visit appends depends on the table only at the name of the entry. -/
theorem emitted_congr {F : Type} (lib : MetricsLib F) (fl : Float64Ops F) (ord : RangeOrder F)
    (cfg : Config F) (timestamp : Nat) (p q : Option (String → Option Int)) (name : String)
    (i : Metric F)
    (hpq : (p = none ∧ q = none) ∨ ∃ t u, p = some t ∧ q = some u ∧ t name = u name) :
    emitted lib fl ord cfg timestamp p name i = emitted lib fl ord cfg timestamp q name i := by
  cases i with
  | Counter c =>
    rcases hpq with ⟨rfl, rfl⟩ | ⟨t, u, rfl, rfl, htu⟩
    · rfl
    · rw [emitted_Counter_table, emitted_Counter_table, htu]
  | GaugeCounter c =>
    rw [(emitted_gauge lib fl ord cfg timestamp p name).1,
      (emitted_gauge lib fl ord cfg timestamp q name).1]
  | Gauge v =>
    rw [(emitted_gauge lib fl ord cfg timestamp p name).2.1,
      (emitted_gauge lib fl ord cfg timestamp q name).2.1]
  | GaugeFloat64 v =>
    rw [(emitted_gauge lib fl ord cfg timestamp p name).2.2,
      (emitted_gauge lib fl ord cfg timestamp q name).2.2]
  | Histogram hs => rw [emitted_Histogram, emitted_Histogram]
  | Meter m => rw [emitted_Meter, emitted_Meter]
  | Timer t =>
    by_cases h0 : t.Count = 0
    · rw [(emitted_Timer lib fl ord cfg timestamp p name t).1 h0,
        (emitted_Timer lib fl ord cfg timestamp q name t).1 h0]
    · cases hf : timerFields fl cfg name t with
      | none =>
        rw [(emitted_Timer lib fl ord cfg timestamp p name t).2.1 hf,
          (emitted_Timer lib fl ord cfg timestamp q name t).2.1 hf]
      | some fields =>
        rw [(emitted_Timer lib fl ord cfg timestamp p name t).2.2 h0 fields hf,
          (emitted_Timer lib fl ord cfg timestamp q name t).2.2 h0 fields hf]
  | Other => rfl

theorem approved_fields_perm {F : Type} (cfg : Config F) (timestamp : Nat)
    (l1 l2 : List (String × F)) (h : l1.Perm l2) :
    ((approved cfg (fieldOffers l1)).map (fun o => datumOf cfg timestamp none o.1 o.2.2)).Perm
      ((approved cfg (fieldOffers l2)).map (fun o => datumOf cfg timestamp none o.1 o.2.2)) := by
  unfold approved fieldOffers
  exact ((h.map _).filter _).map _

/-- The points that a visit appends are the same, up to their order, under any two orders
of the map ranges. -/
theorem emitted_perm {F : Type} (lib : MetricsLib F) (fl : Float64Ops F)
    (ord1 ord2 : RangeOrder F) (cfg : Config F) (timestamp : Nat)
    (p : Option (String → Option Int)) (name : String) (i : Metric F) :
    (emitted lib fl ord1 cfg timestamp p name i).Perm
      (emitted lib fl ord2 cfg timestamp p name i) := by
  have hord : ∀ l : List (String × F), (ord1.fields l).Perm (ord2.fields l) :=
    fun l => (ord1.perm l).trans (ord2.perm l).symm
  cases i with
  | Counter c =>
    cases p with
    | none => rw [emitted_Counter_nil, emitted_Counter_nil]
    | some t => rw [emitted_Counter_table, emitted_Counter_table]
  | GaugeCounter c =>
    rw [(emitted_gauge lib fl ord1 cfg timestamp p name).1,
      (emitted_gauge lib fl ord2 cfg timestamp p name).1]
  | Gauge v =>
    rw [(emitted_gauge lib fl ord1 cfg timestamp p name).2.1,
      (emitted_gauge lib fl ord2 cfg timestamp p name).2.1]
  | GaugeFloat64 v =>
    rw [(emitted_gauge lib fl ord1 cfg timestamp p name).2.2,
      (emitted_gauge lib fl ord2 cfg timestamp p name).2.2]
  | Histogram hs =>
    rw [emitted_Histogram, emitted_Histogram]
    exact (approved_fields_perm cfg timestamp _ _ (hord _)).append_right _
  | Meter m =>
    rw [emitted_Meter, emitted_Meter]
    exact approved_fields_perm cfg timestamp _ _ (hord _)
  | Timer t =>
    by_cases h0 : t.Count = 0
    · rw [(emitted_Timer lib fl ord1 cfg timestamp p name t).1 h0,
        (emitted_Timer lib fl ord2 cfg timestamp p name t).1 h0]
    · cases hf : timerFields fl cfg name t with
      | none =>
        rw [(emitted_Timer lib fl ord1 cfg timestamp p name t).2.1 hf,
          (emitted_Timer lib fl ord2 cfg timestamp p name t).2.1 hf]
      | some fields =>
        rw [(emitted_Timer lib fl ord1 cfg timestamp p name t).2.2 h0 fields hf,
          (emitted_Timer lib fl ord2 cfg timestamp p name t).2.2 h0 fields hf]
        exact (approved_fields_perm cfg timestamp _ _ (hord _)).append_right _
  | Other => exact List.Perm.refl _

/-- With distinct names, a visit of a list of entries appends what each entry emits under
the table as it stood before the visit, and leaves each metric as its own visit does. -/
theorem Each_closed {F : Type} (lib : MetricsLib F) (fl : Float64Ops F) (ord : RangeOrder F)
    (cfg : Config F) (timestamp : Nat) (reg reg1 : List (String × Metric F))
    (s sf : CycleState F) (hnodup : (reg.map Prod.fst).Nodup)
    (h : Registry.Each (each lib fl ord cfg timestamp) s reg = some (sf, reg1)) :
    sf.data = s.data ++
      reg.flatMap (fun e => emitted lib fl ord cfg timestamp s.previous e.1 e.2) ∧
    reg1 = reg.map (fun e => (e.1, metricAfter lib s.previous.isSome e.2)) := by
  induction reg generalizing s reg1 with
  | nil =>
    simp only [Registry.Each, Option.some.injEq, Prod.mk.injEq] at h
    obtain ⟨rfl, rfl⟩ := h
    simp
  | cons e reg ih =>
    obtain ⟨name, i⟩ := e
    obtain ⟨s1, i1, post1, hf, hE, rfl⟩ := (Each_cons _ name i reg s sf reg1).mp h
    simp only [List.map_cons, List.nodup_cons] at hnodup
    obtain ⟨hname, hnd⟩ := hnodup
    obtain ⟨hd1, hi1⟩ := each_frame lib fl ord cfg timestamp s s1 name i i1 hf
    obtain ⟨hd2, hreg⟩ := ih post1 s1 hnd hE
    obtain ⟨hnone, hsome⟩ := each_previous lib fl ord cfg timestamp s s1 name i i1 hf
    have hrel : ∀ n, n ≠ name →
        ((s1.previous = none ∧ s.previous = none) ∨
          ∃ t u, s1.previous = some t ∧ s.previous = some u ∧ t n = u n) := by
      intro n hn
      cases hp : s.previous with
      | none => exact Or.inl ⟨hnone hp, rfl⟩
      | some u =>
        obtain ⟨t, ht, hne, -⟩ := hsome u hp
        exact Or.inr ⟨t, u, ht, rfl, hne n hn⟩
    have hsame : s1.previous.isSome = s.previous.isSome := by
      cases hp : s.previous with
      | none => rw [hnone hp]
      | some u =>
        obtain ⟨t, ht, -, -⟩ := hsome u hp
        rw [ht]; rfl
    have hcongr : reg.flatMap
          (fun e => emitted lib fl ord cfg timestamp s1.previous e.1 e.2) =
        reg.flatMap (fun e => emitted lib fl ord cfg timestamp s.previous e.1 e.2) := by
      apply List.flatMap_congr
      intro e he
      apply emitted_congr
      apply hrel
      intro hen
      exact hname (by rw [← hen]; exact List.mem_map_of_mem Prod.fst he)
    constructor
    · rw [hd2, hd1, hcongr, List.flatMap_cons, List.append_assoc]
    · rw [hreg, hsame, hi1]
      rfl

theorem each_registry {F : Type} (lib : MetricsLib F) (fl : Float64Ops F) (ord : RangeOrder F)
    (cfg : Config F) (reg : List (String × Metric F)) (timestamp : Nat) :
    each lib fl ord { cfg with Registry := reg } timestamp = each lib fl ord cfg timestamp := by
  funext s name i
  cases i <;> rfl

/-- A run of `metricsData` with distinct names, in closed form. -/
theorem metricsData_closed {F : Type} (lib : MetricsLib F) (fl : Float64Ops F)
    (ord : RangeOrder F) (timestamp : Nat) (cfg : Config F) (r : CycleResult F)
    (hnodup : (cfg.Registry.map Prod.fst).Nodup)
    (hr : metricsData lib fl ord timestamp cfg = some r) :
    r.data = cfg.Registry.flatMap
      (fun e => emitted lib fl ord cfg timestamp cfg.PreviousCounterValues e.1 e.2) ∧
    r.cfg.Registry = cfg.Registry.map
      (fun e => (e.1, metricAfter lib cfg.PreviousCounterValues.isSome e.2)) := by
  unfold metricsData at hr
  cases hE : Registry.Each (each lib fl ord cfg timestamp) (CycleState.init cfg)
      cfg.Registry with
  | none => rw [hE] at hr; cases hr
  | some q =>
    obtain ⟨sf, reg1⟩ := q
    rw [hE] at hr
    simp only [Option.some.injEq] at hr
    obtain ⟨h1, h2⟩ := Each_closed lib fl ord cfg timestamp _ _ _ sf hnodup hE
    rw [← hr]
    exact ⟨by rw [show (CycleResult.mk1 cfg sf reg1).data = sf.data from rfl, h1]; rfl, h2⟩

/-- The table that a run of `metricsData` with distinct names leaves: the count of every
registered counter under its name, and what it held before under every other name. -/
theorem metricsData_table {F : Type} (lib : MetricsLib F) (fl : Float64Ops F)
    (ord : RangeOrder F) (timestamp : Nat) (cfg : Config F) (r : CycleResult F)
    (hnodup : (cfg.Registry.map Prod.fst).Nodup)
    (hr : metricsData lib fl ord timestamp cfg = some r) :
    (cfg.PreviousCounterValues = none → r.cfg.PreviousCounterValues = none) ∧
    ∀ previous, cfg.PreviousCounterValues = some previous →
      ∃ after, r.cfg.PreviousCounterValues = some after ∧
        (∀ n c, (n, Metric.Counter c) ∈ cfg.Registry → after n = some c) ∧
        (∀ n, (∀ c, (n, Metric.Counter c) ∉ cfg.Registry) → after n = previous n) := by
  have hr' := hr
  unfold metricsData at hr
  cases hE : Registry.Each (each lib fl ord cfg timestamp) (CycleState.init cfg)
      cfg.Registry with
  | none => rw [hE] at hr; cases hr
  | some q =>
    obtain ⟨sf, reg1⟩ := q
    rw [hE] at hr
    simp only [Option.some.injEq] at hr
    constructor
    · intro hnil
      rw [← hr]
      exact Each_previous_nil lib fl ord cfg timestamp _ _ _ sf hE hnil
    · intro previous htab
      obtain ⟨after, ha, hrest⟩ := Each_previous_table lib fl ord cfg timestamp _ _ _ sf
        previous hE htab
      refine ⟨after, by rw [← hr]; exact ha, fun n c hmem => ?_, hrest⟩
      obtain ⟨-, after1, ha1, hn1⟩ := counter_visit lib fl ord timestamp cfg r n c previous
        htab hmem hnodup hr'
      rw [← hr] at ha1
      have : after1 = after := by
        have h2 : some after1 = some after := by rw [← ha1]; exact ha
        exact Option.some.inj h2
      rw [← this, hn1]

/-- C16: for a registry with distinct names, the cycle that visits the entries in another
order (and ranges over the field maps in any order) returns as well and emits the same data
points up to their order, hence the same multiset of (name, value, unit); it leaves every
metric in the same state and the same previous-values table; and `EmitMetrics` makes the
same number of publish calls. -/
theorem cycle_order_independent {F : Type} (lib : MetricsLib F) (fl : Float64Ops F)
    (ord1 ord2 : RangeOrder F) (timestamp : Nat) (cfg : Config F)
    (reg2 : List (String × Metric F)) (r1 : CycleResult F)
    (hperm : reg2.Perm cfg.Registry) (hnodup : (cfg.Registry.map Prod.fst).Nodup)
    (h1 : metricsData lib fl ord1 timestamp cfg = some r1) :
    ∃ r2, metricsData lib fl ord2 timestamp { cfg with Registry := reg2 } = some r2 ∧
      r2.data.Perm r1.data ∧
      Multiset.ofList (r2.data.map fun d => (d.MetricName, d.Value, d.Unit)) =
        Multiset.ofList (r1.data.map fun d => (d.MetricName, d.Value, d.Unit)) ∧
      r2.cfg.Registry.Perm r1.cfg.Registry ∧
      (∀ n i, (n, i) ∈ r2.cfg.Registry ↔ (n, i) ∈ r1.cfg.Registry) ∧
      (r2.cfg.Registry.map Prod.fst).Nodup ∧
      r2.cfg.PreviousCounterValues = r1.cfg.PreviousCounterValues ∧
      ∀ e1 e2, EmitMetrics lib fl ord1 timestamp cfg = some e1 →
        EmitMetrics lib fl ord2 timestamp { cfg with Registry := reg2 } = some e2 →
        e2.requests.length = e1.requests.length := by
  have hnodup2 : (reg2.map Prod.fst).Nodup := (hperm.map Prod.fst).nodup_iff.mpr hnodup
  -- the other run returns
  have hsome : ∃ r2, metricsData lib fl ord2 timestamp { cfg with Registry := reg2 } =
      some r2 := by
    cases h2 : metricsData lib fl ord2 timestamp { cfg with Registry := reg2 } with
    | some r2 => exact ⟨r2, rfl⟩
    | none =>
      exfalso
      obtain ⟨hu, n, t, hm, h0⟩ := (metricsData_eq_none_iff lib fl ord2 timestamp _).mp h2
      have hnone := (metricsData_eq_none_iff lib fl ord1 timestamp cfg).mpr
        ⟨hu, n, t, hperm.subset hm, h0⟩
      rw [hnone] at h1; cases h1
  obtain ⟨r2, h2⟩ := hsome
  obtain ⟨hd1, hg1⟩ := metricsData_closed lib fl ord1 timestamp cfg r1 hnodup h1
  obtain ⟨hd2, hg2⟩ := metricsData_closed lib fl ord2 timestamp { cfg with Registry := reg2 } r2
    hnodup2 h2
  have hemit : ∀ e : String × Metric F,
      emitted lib fl ord2 { cfg with Registry := reg2 } timestamp cfg.PreviousCounterValues
        e.1 e.2 = emitted lib fl ord2 cfg timestamp cfg.PreviousCounterValues e.1 e.2 := by
    intro e
    unfold emitted
    rw [each_registry]
  have hdata : r2.data.Perm r1.data := by
    rw [hd1, hd2]
    show (reg2.flatMap _).Perm _
    refine (List.Perm.flatMap_right _ hperm).trans ?_
    apply List.Perm.flatMap_left
    intro e _
    rw [hemit e]
    exact emitted_perm lib fl ord2 ord1 cfg timestamp _ e.1 e.2
  have hregp : r2.cfg.Registry.Perm r1.cfg.Registry := by
    rw [hg1, hg2]
    exact hperm.map _
  have htable : r2.cfg.PreviousCounterValues = r1.cfg.PreviousCounterValues := by
    obtain ⟨hn1, hs1⟩ := metricsData_table lib fl ord1 timestamp cfg r1 hnodup h1
    obtain ⟨hn2, hs2⟩ := metricsData_table lib fl ord2 timestamp { cfg with Registry := reg2 } r2
      hnodup2 h2
    cases hp : cfg.PreviousCounterValues with
    | none => rw [hn1 hp, hn2 hp]
    | some previous =>
      obtain ⟨a1, ha1, hc1, ho1⟩ := hs1 previous hp
      obtain ⟨a2, ha2, hc2, ho2⟩ := hs2 previous hp
      rw [ha1, ha2]
      congr 1
      funext n
      by_cases hex : ∃ c, (n, Metric.Counter c) ∈ cfg.Registry
      · obtain ⟨c, hc⟩ := hex
        rw [hc1 n c hc, hc2 n c (hperm.symm.subset hc)]
      · have hno : ∀ c, (n, Metric.Counter c) ∉ cfg.Registry := fun c hc => hex ⟨c, hc⟩
        rw [ho1 n hno, ho2 n (fun c hc => hno c (hperm.subset hc))]
  refine ⟨r2, h2, hdata, Multiset.coe_eq_coe.mpr (hdata.map _), hregp,
    fun n i => hregp.mem_iff, ?_, htable, ?_⟩
  · rw [hg2]
    simp only [List.map_map]
    exact hnodup2
  · intro e1 e2 he1 he2
    rw [EmitMetrics_eq lib fl ord1 timestamp cfg r1 h1] at he1
    rw [EmitMetrics_eq lib fl ord2 timestamp _ r2 h2] at he2
    simp only [Option.some.injEq] at he1 he2
    rw [← he1, ← he2]
    simp only [send_eq_sendFrom, sendFrom_sent, List.nil_append, List.length_map,
      chunks20_length, hdata.length_eq]

theorem cycle_order_independent_witness :
    ∃ r1 r2, metricsData zeroLib exactOps inOrder 0 cfgMixed = some r1 ∧
      metricsData zeroLib exactOps reversed 0 { cfgMixed with Registry := mixedShuffled } =
        some r2 ∧
      r1.data.length = 28 ∧ r2.data.length = 28 ∧
      r2.data.Perm r1.data ∧
      r2.cfg.Registry.Perm r1.cfg.Registry ∧
      r2.cfg.PreviousCounterValues = r1.cfg.PreviousCounterValues := by
  obtain ⟨r1, h1⟩ := metricsData_isSome zeroLib exactOps inOrder 0 cfgMixed (by decide)
  have hperm : mixedShuffled.Perm cfgMixed.Registry := by
    show (cfgMixed.Registry.reverse).Perm cfgMixed.Registry
    exact List.reverse_perm _
  obtain ⟨r2, h2, hdata, -, hreg, -, -, htable, -⟩ :=
    cycle_order_independent zeroLib exactOps inOrder reversed 0 cfgMixed mixedShuffled r1
      hperm (by decide) h1
  have hl : (metricsData zeroLib exactOps inOrder 0 cfgMixed).map (fun r => r.data.length) =
      some 28 := by rfl
  rw [h1] at hl
  have hl1 : r1.data.length = 28 := by simpa using hl
  exact ⟨r1, r2, h1, h2, hl1, by rw [hdata.length_eq, hl1], hdata, hreg, htable⟩

end Reporter
